import Mathlib

/-! AIprocessAnalyzer: keyword classifier, convergence loop and result cache

A shallow embedding of `src/processReader.js` (`categorizeProcesses`,
`generateProcessSummary`), `src/index.js` (`runLlmAnalysis`), `src/cache.js`
(`LlmCache`), `src/ollamaAnalyzer.js` (`categorizeUnknownProcesses` and its
helpers) and `src/networkAnalyzer.js` (`NetworkAnalyzer`).

Conventions of the embedding

* JavaScript strings are Lean `String`s; `includes` is substring search on the
  character lists.
* `String.prototype.toLowerCase` is a parameter `toLowerCase : String → String`
  of every definition that uses it: the theorems hold for any lower-casing
  function.  `asciiLower` is the instance used for concrete runs (on ASCII text
  it is what the JavaScript method computes).
* A JavaScript object used as a map is an association list; a lookup returns the
  first entry of a key, and `{...a, ...b}` is `b ++ a`.
* A thrown `TypeError` is the `none` of an `Option` result.
* A JavaScript number in a process record is a `JsNumber`, an IEEE 754 double:
  `NaN`, an infinity, or a finite double given by its exact value, an integer
  count of units of `2 ^ -1074`.  `+` and `-` compute the exact integer and
  round it to 53 significant bits, ties to even, as the machine does.
-/

namespace ProcessAnalyzer

/-! ## Data model -/

/-- A JavaScript number: an IEEE 754 double.  Every finite double is an integer
multiple of `2 ^ -1074`, the least positive double; `finite n` is the double of
exact value `n * 2 ^ -1074`.  The finite doubles are the `finite n` whose
magnitude `|n|` has at most 53 significant bits and is below `2 ^ 2098` (the
value `2 ^ 1024`).  The two zeros are one value: no operation embedded here
tells them apart. -/
inductive JsNumber where
  | nan
  | negInf
  | finite (units : Int)
  | posInf
  deriving DecidableEq, Repr

/-- The bit length of `m`, for `m < 2 ^ 2 ^ k`, by halving the window: when `m`
has a bit at or above position `2 ^ k`, that many bits are counted and the
rest of the count is the bit length of `m >>> 2 ^ k`. -/
def bitLengthAux : Nat → Nat → Nat
  | 0, m => if m = 0 then 0 else 1
  | k + 1, m =>
    if m < 1 <<< (1 <<< k) then bitLengthAux k m
    else (1 <<< k) + bitLengthAux k (m >>> (1 <<< k))

/-- The number of bits of `m` (0 for 0), for `m < 2 ^ 4096`. -/
def bitLength (m : Nat) : Nat := bitLengthAux 12 m

/-- Rounding of a magnitude, counted in units of `2 ^ -1074`, to 53 significant
bits: with `s` the number of bits in excess of 53, the nearest multiple of
`2 ^ s`, and of two nearest ones the one whose quotient by `2 ^ s` is even
(round to nearest, ties to even).  A magnitude below `2 ^ 53`, which covers the
subnormal range, is kept as it is.  For `m < 2 ^ 4096`, the range of
`bitLength`. -/
def roundMagnitude (m : Nat) : Nat :=
  let s := bitLength m - 53
  let q := m >>> s
  let r := m - (q <<< s)
  if 2 * r < 1 <<< s ∨ (2 * r = 1 <<< s ∧ q % 2 = 0) then q <<< s else (q + 1) <<< s

/-- The double an exact result of `n` units rounds to: the rounded magnitude
with the sign of `n`, and an infinity when the rounded magnitude reaches
`2 ^ 2098` units, the value `2 ^ 1024`. -/
def JsNumber.ofUnits (n : Int) : JsNumber :=
  if n.natAbs < 1 <<< 2098 ∧ roundMagnitude n.natAbs < 1 <<< 2098 then
    JsNumber.finite
      (if n < 0 then -(roundMagnitude n.natAbs : Int) else (roundMagnitude n.natAbs : Int))
  else if n < 0 then JsNumber.negInf
  else JsNumber.posInf

/-- The double nearest to `n / 2 ^ k`, for `k ≤ 1074`: what a numeric literal of
that exact value denotes.  `dyadic 25 1` is `12.5`, and
`dyadic 3602879701896397 55` is the double written `0.1`. -/
def JsNumber.dyadic (n : Int) (k : Nat) : JsNumber :=
  JsNumber.ofUnits (n * ((1 <<< (1074 - k) : Nat) : Int))

/-- A numeral is the double nearest to it. -/
instance JsNumber.instOfNat (n : Nat) : OfNat JsNumber n := ⟨JsNumber.dyadic (n : Int) 0⟩

/-- The unary `-`. -/
def JsNumber.neg : JsNumber → JsNumber
  | JsNumber.nan => JsNumber.nan
  | JsNumber.negInf => JsNumber.posInf
  | JsNumber.finite n => JsNumber.finite (-n)
  | JsNumber.posInf => JsNumber.negInf

/-- The operator `+` on two numbers: the exact sum of two finite doubles,
rounded; `NaN` when an operand is `NaN` or the operands are infinities of
opposite sign. -/
def JsNumber.add : JsNumber → JsNumber → JsNumber
  | JsNumber.finite a, JsNumber.finite b => JsNumber.ofUnits (a + b)
  | JsNumber.nan, _ => JsNumber.nan
  | _, JsNumber.nan => JsNumber.nan
  | JsNumber.posInf, JsNumber.negInf => JsNumber.nan
  | JsNumber.negInf, JsNumber.posInf => JsNumber.nan
  | JsNumber.posInf, _ => JsNumber.posInf
  | _, JsNumber.posInf => JsNumber.posInf
  | JsNumber.negInf, _ => JsNumber.negInf
  | _, JsNumber.negInf => JsNumber.negInf

/-- The operator `-` on two numbers: `x - y` is `x + (-y)`. -/
def JsNumber.sub (x y : JsNumber) : JsNumber := x.add y.neg

/-- The test `x > 0`; false for `NaN`. -/
def JsNumber.isPositive : JsNumber → Bool
  | JsNumber.finite n => decide (0 < n)
  | JsNumber.posInf => true
  | _ => false

/-- The test `x <= y`; false when an operand is `NaN`. -/
def JsNumber.le : JsNumber → JsNumber → Bool
  | JsNumber.nan, _ => false
  | _, JsNumber.nan => false
  | JsNumber.negInf, _ => true
  | _, JsNumber.posInf => true
  | JsNumber.finite a, JsNumber.finite b => decide (a ≤ b)
  | _, _ => false

/-- The process record built by `getRunningProcesses` (the fields the embedded
functions read).  `cpu` and `mem` are the numbers `p.cpu || 0` and `p.mem || 0`,
percentages.  `cwd` is the value a call `p.cwd()` on the record would return
when the record carries a callable member of that name; the records built by
`getRunningProcesses` carry none. -/
structure Process where
  pid : Nat := 0
  name : String
  command : String := ""
  path : String := ""
  cpu : JsNumber := JsNumber.finite 0
  mem : JsNumber := JsNumber.finite 0
  user : String := ""
  cwd : Option String := none
  deriving DecidableEq, Repr

/-- The keys of the object `cat` of `categorizeProcesses`, in declaration order. -/
inductive Category where
  | development | gaming | office | browsers | media
  | system | database | networking | security | virtualization
  | cloudStorage | communication | ai | streaming | other
  deriving DecidableEq, Repr

namespace Category

/-- The property name of a bucket. -/
def key : Category → String
  | development => "development"
  | gaming => "gaming"
  | office => "office"
  | browsers => "browsers"
  | media => "media"
  | system => "system"
  | database => "database"
  | networking => "networking"
  | security => "security"
  | virtualization => "virtualization"
  | cloudStorage => "cloudStorage"
  | communication => "communication"
  | ai => "ai"
  | streaming => "streaming"
  | other => "other"

/-- `Object.entries(cat)` order: the declaration order of the buckets. -/
def all : List Category :=
  [development, gaming, office, browsers, media, system, database, networking,
   security, virtualization, cloudStorage, communication, ai, streaming, other]

end Category

/-- A value read from the JSON the service returns, as far as the code looks at
it: `undefined` for a missing field, the primitives, and `object` for an array
or object, given by what `ToNumber` (`none` for `NaN`) and `ToString` make of
it.  `num q` is the exact value of the parsed number. -/
inductive JsVal where
  | undefined
  | null
  | bool (b : Bool)
  | num (q : ℚ)
  | str (s : String)
  | object (asNumber : Option ℚ) (asString : String)
  deriving DecidableEq, Repr

/-- The truthiness of a value, as tested by `&&`, `||` and `if`. -/
def JsVal.truthy : JsVal → Bool
  | JsVal.undefined => false
  | JsVal.null => false
  | JsVal.bool b => b
  | JsVal.num q => decide (q ≠ 0)
  | JsVal.str s => decide (s ≠ "")
  | JsVal.object _ _ => true

/-- The abstract operation `ToNumber` (`none` for `NaN`); `stringToNumber` is
its case for strings. -/
def JsVal.toNumber (stringToNumber : String → Option ℚ) : JsVal → Option ℚ
  | JsVal.undefined => none
  | JsVal.null => some 0
  | JsVal.bool b => some (if b then 1 else 0)
  | JsVal.num q => some q
  | JsVal.str s => stringToNumber s
  | JsVal.object n _ => n

/-- The value of `a || b`. -/
def JsVal.orElse (a b : JsVal) : JsVal := if a.truthy then a else b

/-! ## Strings -/

/-- `txt.includes(k)` on character lists: `k` starts at some position of `txt`. -/
def includesChars : List Char → List Char → Bool
  | [], k => k.isEmpty
  | c :: t, k => k.isPrefixOf (c :: t) || includesChars t k

/-- `txt.includes(k)`. -/
def includes (txt k : String) : Bool :=
  includesChars txt.data k.data

/-- Lower-casing of the ASCII letters, the instance of `toLowerCase` used for
concrete runs. -/
def asciiLower (s : String) : String :=
  ⟨s.data.map Char.toLower⟩

/-! ## `categorizeProcesses` -/

/-- The table `kw` of `categorizeProcesses`, in `Object.entries` order. -/
def kw : List (Category × List String) :=
  [ (Category.development,
      ["code.exe", "vscode", "git", "node.exe", "python", "java", "npm",
       "visual studio", "devenv", "rider", "intellij", "pycharm", "webstorm",
       "sublime", "notepad++", "atom", "vim", "neovim", "emacs", "cursor",
       "gradle", "maven", "cmake", "msbuild", "webpack", "vite", "esbuild",
       "docker", "podman", "containerd", "kubernetes", "kubectl", "minikube",
       "github", "gitlab", "gitkraken", "sourcetree", "tortoisegit",
       "windowsterminal", "wt.exe", "alacritty", "hyper", "terminus",
       "yarn", "pnpm", "pip", "cargo", "composer", "nuget",
       "debugger", "gdb", "lldb", "windbg"]),
    (Category.gaming,
      ["steam", "epicgameslauncher", "gog", "origin", "uplay", "ubisoft",
       "battlenet", "riotclient", "ea app", "xbox", "playnite",
       "league of legends", "valorant", "csgo", "cs2", "dota2", "fortnite",
       "minecraft", "roblox", "genshin", "apex", "overwatch", "warzone",
       "pubg", "rainbow six", "elden ring", "hogwarts", "baldur",
       "reshade", "msi afterburner", "rtss", "rivatuner", "fraps",
       "nvidia broadcast", "geforce", "razer", "logitech", "corsair icue",
       "steelseries", "hyperx", "roccat"]),
    (Category.office,
      ["winword", "excel", "powerpnt", "outlook", "teams", "onenote",
       "access.exe", "publisher", "visio", "project",
       "libreoffice", "openoffice", "wps", "notion", "evernote", "obsidian",
       "todoist", "trello", "asana", "monday", "clickup", "jira",
       "confluence", "acrobat", "foxit", "sumatra", "calibre"]),
    (Category.browsers,
      ["chrome.exe", "firefox.exe", "msedge.exe", "brave.exe", "opera",
       "vivaldi", "safari", "chromium", "tor browser", "arc.exe",
       "librewolf", "waterfox", "floorp", "zen browser"]),
    (Category.media,
      ["spotify", "vlc.exe", "mpc-hc", "mpv", "foobar", "musicbee",
       "winamp", "itunes", "amazon music", "tidal", "deezer",
       "premiere", "afterfx", "davinci", "vegas", "filmora", "shotcut",
       "kdenlive", "avidemux", "handbrake",
       "photoshop", "lightroom", "gimp", "paint.net", "krita", "inkscape",
       "affinity", "canva", "figma", "sketch",
       "audacity", "audition", "reaper", "ableton", "fl studio",
       "cubase", "logic", "garageband", "pro tools",
       "blender", "maya", "3dsmax", "cinema4d", "zbrush", "substance",
       "unreal", "unity"]),
    (Category.communication,
      ["discord", "slack", "telegram", "whatsapp", "skype", "zoom",
       "webex", "signal", "element", "wire", "viber", "line",
       "messenger", "google meet", "facetime", "mumble", "teamspeak",
       "ventrilo", "guilded"]),
    (Category.database,
      ["postgres", "mysql", "mongodb", "redis", "sqlserver", "oracle",
       "sqlite", "mariadb", "cassandra", "couchdb", "elasticsearch",
       "influxdb", "neo4j", "dbeaver", "datagrip", "heidisql",
       "pgadmin", "robo3t", "mongodb compass", "tableplus"]),
    (Category.networking,
      ["nordvpn", "expressvpn", "surfshark", "protonvpn", "mullvad",
       "wireshark", "putty", "winscp", "filezilla", "cyberduck",
       "teamviewer", "anydesk", "parsec", "moonlight", "sunshine",
       "remotedesktop", "mstsc", "realvnc", "tightvnc", "rustdesk",
       "nmap", "fiddler", "postman", "insomnia", "charles", "proxyman",
       "ngrok", "tailscale", "zerotier", "netsetman"]),
    (Category.security,
      ["antivirus", "defender", "msmpeng", "mpcmdrun", "mpdefender",
       "nissrv", "malware", "kaspersky", "avast", "norton", "bitdefender",
       "eset", "avg", "mcafee", "sophos", "f-secure", "trendmicro",
       "keepass", "lastpass", "1password", "bitwarden", "dashlane",
       "smartscreen", "securityhealth", "comodo", "glasswire",
       "veracrypt", "truecrypt", "cryptomator", "gpg4win"]),
    (Category.virtualization,
      ["vmware", "virtualbox", "hyperv", "qemu", "wsl", "wslhost",
       "vagrant", "multipass", "parallels", "proxmox", "virt-manager",
       "vmcompute", "vmms", "vmmem"]),
    (Category.cloudStorage,
      ["dropbox", "onedrive", "googledrive", "icloud", "mega",
       "sync.com", "pcloud", "nextcloud", "owncloud", "box",
       "spideroak", "tresorit", "resilio", "syncthing"]),
    (Category.ai,
      ["ollama", "lmstudio", "gpt4all", "koboldcpp", "text-generation",
       "oobabooga", "llamacpp", "localai",
       "jupyter", "jupyterlab", "colab", "kaggle",
       "tensorboard", "mlflow", "wandb",
       "stable diffusion", "comfyui", "automatic1111", "invoke",
       "midjourney", "dall-e", "fooocus",
       "whisper", "tortoise", "bark", "coqui"]),
    (Category.streaming,
      ["obs", "obs64", "streamlabs", "xsplit", "twitch studio",
       "nvidia shadowplay", "geforce experience", "radeon software",
       "netflix", "prime video", "disney", "hulu", "hbo max",
       "peacock", "paramount", "crunchyroll", "funimation", "plex",
       "jellyfin", "emby", "kodi",
       "parsec", "moonlight", "steam link", "stadia", "xcloud",
       "geforce now", "playstation", "remote play"]),
    (Category.system,
      ["system", "svchost", "explorer.exe", "dwm.exe", "csrss",
       "winlogon", "services.exe", "lsass", "smss", "wininit",
       "taskhostw", "runtimebroker", "dllhost", "conhost", "sihost",
       "ctfmon", "fontdrvhost", "spoolsv", "searchhost", "searchindexer",
       "shellexperiencehost", "startmenuexperiencehost", "textinputhost",
       "applicationframehost", "systemsettings", "settingssynchost",
       "backgroundtaskhost", "gamingservices", "securityhealthsystray",
       "useroobe", "lockapp", "logonui", "dashost", "apphelp",
       "wudfhost", "wmiprvse", "msiexec", "trustedinstaller",
       "tiworker", "searchprotocol", "audiodg", "nvcontainer",
       "nvdisplay", "amdrsserv", "radeonsoft", "igfx"]) ]

/-- The text scanned for keywords:
`(p.name + ' ' + p.command + ' ' + p.path).toLowerCase()`. -/
def processText (toLowerCase : String → String) (p : Process) : String :=
  toLowerCase (p.name ++ " " ++ p.command ++ " " ++ p.path)

/-- The loop `for (const [c, ks] of Object.entries(kw))` with its `break`: the
category of the first entry one of whose keywords the text includes. -/
def keywordScan (txt : String) : List (Category × List String) → Option Category
  | [] => none
  | (c, ks) :: rest => if ks.any (fun k => includes txt k) then some c else keywordScan txt rest

/-- The keyword category of a process, if the scan finds one. -/
def keywordCategory (toLowerCase : String → String) (p : Process) : Option Category :=
  keywordScan (processText toLowerCase p) kw

/-- The association list standing for a JavaScript object with string values. -/
abbrev JsMap (β : Type) := List (String × β)

/-- The property read `m[k]` on an object used as a map: the value of the
entry of key `k`, if there is one. -/
def JsMap.get {β : Type} : JsMap β → String → Option β
  | [], _ => none
  | (k, v) :: rest, key => if k = key then some v else JsMap.get rest key

/-- The spread `{...a, ...b}`: the entries of `b` take precedence. -/
def JsMap.spread {β : Type} (a b : JsMap β) : JsMap β := b ++ a

/-- The assignment `m[k] = v` on an object used as a map: the value of an
existing key is replaced in place, a new key is added at the end. -/
def JsMap.set {β : Type} : JsMap β → String → β → JsMap β
  | [], key, v => [(key, v)]
  | (k, w) :: rest, key, v =>
    if k = key then (key, v) :: rest else (k, w) :: JsMap.set rest key v

/-- The list `Object.keys(m)`. -/
def JsMap.keys {β : Type} (m : JsMap β) : List String := m.map (fun e => e.1)

/-- The map `llmCategorizations`: lower-cased process name to category name. -/
abbrev LlmMap := JsMap String

/-- The names every object literal inherits from `Object.prototype`. -/
def objectPrototypeKeys : List String :=
  ["constructor", "__defineGetter__", "__defineSetter__", "hasOwnProperty",
   "__lookupGetter__", "__lookupSetter__", "isPrototypeOf", "propertyIsEnumerable",
   "toString", "valueOf", "__proto__", "toLocaleString"]

/-- The value of `cat[llmCategory]`: one of the bucket arrays, a member inherited
from `Object.prototype` (truthy, and without a `push` method), or `undefined`. -/
inductive CatMember where
  | bucket (c : Category)
  | inherited
  | undefined
  deriving DecidableEq, Repr

/-- The property read `cat[llmCategory]` on the object `cat`. -/
def catMember (llmCategory : String) : CatMember :=
  match Category.all.find? (fun c => c.key = llmCategory) with
  | some c => CatMember.bucket c
  | none =>
    if llmCategory ∈ objectPrototypeKeys then CatMember.inherited else CatMember.undefined

/-- The object `cat`: one array of processes per category. -/
abbrev Buckets := Category → List Process

/-- The initial `cat`: every bucket empty. -/
def emptyBuckets : Buckets := fun _ => []

/-- The call `cat[c].push(p)`. -/
def push (cat : Buckets) (c : Category) (p : Process) : Buckets :=
  fun c' => if c' = c then cat c' ++ [p] else cat c'

/-- The callback of `processes.forEach` in `categorizeProcesses`: keyword match
first; without one, the category the LLM map gives for the lower-cased name when
`cat` has a member of that name; otherwise `other`.  The call
`cat[llmCategory].push(p)` on an inherited member throws a `TypeError` (`none`). -/
def placeProcess (toLowerCase : String → String) (llmCategorizations : Option LlmMap)
    (cat : Buckets) (p : Process) : Option Buckets :=
  match keywordCategory toLowerCase p with
  | some c => some (push cat c p)
  | none =>
    match llmCategorizations with
    | none => some (push cat Category.other p)
    | some m =>
      match m.get (toLowerCase p.name) with
      | none => some (push cat Category.other p)
      | some llmCategory =>
        match catMember llmCategory with
        | CatMember.bucket c => some (push cat c p)
        | CatMember.inherited => none
        | CatMember.undefined => some (push cat Category.other p)

/-- The loop `processes.forEach` from a given state of `cat`. -/
def placeAll (toLowerCase : String → String) (llmCategorizations : Option LlmMap) :
    Buckets → List Process → Option Buckets
  | cat, [] => some cat
  | cat, p :: rest =>
    match placeProcess toLowerCase llmCategorizations cat p with
    | none => none
    | some cat' => placeAll toLowerCase llmCategorizations cat' rest

/-- The function `categorizeProcesses(processes, llmCategorizations = null)`;
`none` when the call throws. -/
def categorizeProcesses (toLowerCase : String → String) (processes : List Process)
    (llmCategorizations : Option LlmMap) : Option Buckets :=
  placeAll toLowerCase llmCategorizations emptyBuckets processes

/-! ## `generateProcessSummary` -/

/-- The entry `summary.categories[c]`: `count` and the names `processes`. -/
structure CategorySummary where
  count : Nat
  processes : List String
  deriving DecidableEq, Repr

/-- The fields of the summary that the convergence loop and the claims read. -/
structure Summary where
  totalProcesses : Nat
  categories : Category → CategorySummary

/-- The object `summary` built by `generateProcessSummary` from the process list
and the buckets: `totalProcesses: ps.length` and, for every entry of
`Object.entries(cat)`, `count: procs.length` and
`processes: procs.map(p => p.name)`. -/
def summarize (ps : List Process) (cat : Buckets) : Summary :=
  { totalProcesses := ps.length
    categories := fun c =>
      { count := (cat c).length, processes := (cat c).map (fun p => p.name) } }

/-- The function `generateProcessSummary(pd, llmCategorizations = null)` on
`pd.processes`; `none` when `categorizeProcesses` throws. -/
def generateProcessSummary (toLowerCase : String → String) (ps : List Process)
    (llmCategorizations : Option LlmMap) : Option Summary :=
  match categorizeProcesses toLowerCase ps llmCategorizations with
  | none => none
  | some cat => some (summarize ps cat)

/-! ## `runLlmAnalysis` -/

/-- The entry of `details` that `categorizeUnknownProcesses` stores per name:
`category` and `confidence` as the service sent them, `reason` and
`threatLevel` with their defaults. -/
structure Detail where
  category : JsVal
  confidence : JsVal
  reason : JsVal
  threatLevel : JsVal
  analysisMethod : String := "LLM Forensic Analysis"
  deriving DecidableEq, Repr

/-- The value `categorizeUnknownProcesses` resolves to, after the defaults
`llmResult.categorizations || {}` and `llmResult.details || {}`. -/
structure LlmResult where
  categorizations : LlmMap
  details : JsMap Detail

/-- The inference service seen from the loop: the answer of the call number `i`
(counted from 0) of `categorizeUnknownProcesses` on a batch.  Any function is a
behaviour of the service. -/
abbrev Service := Nat → List Process → LlmResult

/-- The variables of `runLlmAnalysis`, with the batches passed so far to
`categorizeUnknownProcesses`. -/
structure LoopState where
  iteration : Int
  processSummary : Summary
  allLlmCategorizations : LlmMap
  allLlmDetails : JsMap Detail
  calls : List (List Process)

/-- The way the loop was left. -/
inductive Exit where
  | exhausted
  | converged
  | stalled
  | threw
  | outOfFuel
  deriving DecidableEq, Repr

/-- The state at the end of the loop and the way it was left: the `while`
condition false (`exhausted`), the `break` on `otherCount <= 10` (`converged`),
the `break` on `categorizedCount === 0` (`stalled`), or the `TypeError` of
`generateProcessSummary` (`threw`). -/
structure RunResult where
  state : LoopState
  exit : Exit

/-- The names of the processes the summary of a loop state lists under `other`:
`processSummary.categories.other?.processes || []`. -/
def LoopState.otherProcesses (st : LoopState) : List String :=
  (st.processSummary.categories Category.other).processes

/-- The batch `allProcesses.filter(p => otherProcesses.includes(p.name))`. -/
def unknownProcessObjs (processes : List Process) (otherProcesses : List String) :
    List Process :=
  processes.filter (fun p => decide (p.name ∈ otherProcesses))

/-- The `while (iteration <= settings.maxIterations)` loop of `runLlmAnalysis`,
unrolled at most `fuel` times.  `categorizedCount` is
`Object.keys(newCategorizations).length`, which the loop only compares with 0:
it is 0 exactly when the association list is empty. -/
def runLoop (toLowerCase : String → String) (svc : Service) (processes : List Process)
    (maxIterations : Int) : Nat → LoopState → RunResult
  | 0, st => { state := st, exit := Exit.outOfFuel }
  | fuel + 1, st =>
    if st.iteration ≤ maxIterations then
      let otherProcesses := st.otherProcesses
      let otherCount := otherProcesses.length
      if otherCount ≤ 10 then
        { state := st, exit := Exit.converged }
      else
        let batch := unknownProcessObjs processes otherProcesses
        let llmResult := svc st.calls.length batch
        let newCategorizations := llmResult.categorizations
        let newDetails := llmResult.details
        let calls := st.calls ++ [batch]
        let categorizedCount := newCategorizations.length
        if categorizedCount = 0 then
          { state := { st with calls := calls }, exit := Exit.stalled }
        else
          let allLlmCategorizations := st.allLlmCategorizations.spread newCategorizations
          let allLlmDetails := st.allLlmDetails.spread newDetails
          match generateProcessSummary toLowerCase processes (some allLlmCategorizations) with
          | none =>
            { state := { st with allLlmCategorizations := allLlmCategorizations
                                 allLlmDetails := allLlmDetails
                                 calls := calls }
              exit := Exit.threw }
          | some processSummary =>
            runLoop toLowerCase svc processes maxIterations fuel
              { iteration := st.iteration + 1
                processSummary := processSummary
                allLlmCategorizations := allLlmCategorizations
                allLlmDetails := allLlmDetails
                calls := calls }
    else
      { state := st, exit := Exit.exhausted }

/-- The variables of `runLlmAnalysis` before the loop. -/
def initialState (initialSummary : Summary) : LoopState :=
  { iteration := 1
    processSummary := initialSummary
    allLlmCategorizations := []
    allLlmDetails := []
    calls := [] }

/-- The function `runLlmAnalysis(processes, initialSummary, settings)`.  The loop
starts at `iteration = 1` and every pass that does not leave it increments
`iteration`, so `maxIterations` passes reach `iteration > maxIterations`; one
more unrolling evaluates the failing `while` condition. -/
def runLlmAnalysis (toLowerCase : String → String) (svc : Service) (processes : List Process)
    (initialSummary : Summary) (maxIterations : Int) : RunResult :=
  runLoop toLowerCase svc processes maxIterations (maxIterations.toNat + 1)
    (initialState initialSummary)

/-- The lines of `main` around the loop: the summary without an LLM map, then
`runLlmAnalysis` on it.  `none` when the first summary throws. -/
def analysis (toLowerCase : String → String) (svc : Service) (processes : List Process)
    (maxIterations : Int) : Option RunResult :=
  match generateProcessSummary toLowerCase processes none with
  | none => none
  | some initialSummary =>
    some (runLlmAnalysis toLowerCase svc processes initialSummary maxIterations)

/-! ## `categorizeUnknownProcesses` -/

/-- The number `p.cpu + p.mem`, as the comparator computes it. -/
def usage (p : Process) : JsNumber := p.cpu.add p.mem

/-- The comparator of `unknownProcesses.sort`:
`(a, b) => (b.cpu + b.mem) - (a.cpu + a.mem)`. -/
def compareUsage (a b : Process) : JsNumber := (usage b).sub (usage a)

/-- The order `Array.prototype.sort` reads off the comparator: `a` may stand
before `b` when the comparator's value for `(a, b)` is not positive; the sort
takes a value `NaN` for `+0`. -/
def usageOrder (a b : Process) : Prop := (compareUsage a b).isPositive = false

instance usageOrderDecidable : DecidableRel usageOrder :=
  fun a b => inferInstanceAs (Decidable ((compareUsage a b).isPositive = false))

/-- The array `topUnknown`:
`unknownProcesses.sort((a, b) => (b.cpu + b.mem) - (a.cpu + a.mem)).slice(0, 30)`.
`Array.prototype.sort` is a stable sort: when the comparator is consistent,
which it is when no `p.cpu + p.mem` is `NaN`, every stable sort returns the same
array, here insertion sort.  With a `NaN` among the sums the comparator is not
consistent and the language leaves the order to the implementation. -/
def topUnknown (unknownProcesses : List Process) : List Process :=
  (unknownProcesses.insertionSort usageOrder).take 30

/-- The test `/^[a-z]:\\[^\\]+\.exe$/i` on a character list: a letter, `:`, a
backslash, then at least one character and no further backslash up to a final
`.exe` in any case. -/
def matchesRootExe : List Char → Bool
  | c :: ':' :: '\\' :: rest =>
    (c.isLower || c.isUpper) && rest.all (fun x => decide (x ≠ '\\')) &&
      decide (5 ≤ rest.length) &&
      decide ((rest.drop (rest.length - 4)).map Char.toLower = ['.', 'e', 'x', 'e'])
  | _ => false

/-- The helper `analyzePathSecurity(path)`; `none` is a missing path. -/
def analyzePathSecurity (toLowerCase : String → String) (path : Option String) : String :=
  match path with
  | none => "unknown"
  | some p =>
    if p = "" ∨ p = "N/A" then "unknown"
    else
      let lowerPath := toLowerCase p
      if includes lowerPath "windows\\system32" || includes lowerPath "windows\\syswow64" then
        "system_trusted"
      else if includes lowerPath "program files" then "installed_app"
      else if includes lowerPath "appdata\\local" || includes lowerPath "appdata\\roaming" then
        "user_app"
      else if includes lowerPath "temp" || includes lowerPath "tmp" then "suspicious_temp"
      else if matchesRootExe lowerPath.data then "suspicious_root"
      else "unknown_location"

/-- The helper `analyzeUserType(user)`; `none` is a missing user. -/
def analyzeUserType (toUpperCase : String → String) (user : Option String) : String :=
  match user with
  | none => "no_user_info"
  | some u =>
    if u = "" ∨ u = "N/A" then "no_user_info"
    else
      let upperUser := toUpperCase u
      if includes upperUser "SYSTEM" || includes upperUser "NT AUTHORITY" then "system_service"
      else if includes upperUser "LOCAL SERVICE" || includes upperUser "NETWORK SERVICE" then
        "limited_service"
      else "user_process"

/-- The fields of an element of `processDetails` that depend on the helpers:
what the prompt says about a candidate. -/
structure ProcessDetail where
  name : String
  path : String
  pathAnalysis : String
  user : String
  userType : String
  deriving DecidableEq, Repr

/-- The array `processDetails`, one element per candidate of `topUnknown`. -/
def processDetails (toLowerCase toUpperCase : String → String) (top : List Process) :
    List ProcessDetail :=
  top.map (fun p =>
    { name := p.name
      path := if p.path = "" then "N/A" else p.path
      pathAnalysis := analyzePathSecurity toLowerCase (some p.path)
      user := if p.user = "" then "N/A" else p.user
      userType := analyzeUserType toUpperCase (some p.user) })

/-- The match of `/\{[\s\S]*\}/` on a character list: from the first `{` to the
last `}` after it. -/
def extractSpanChars (txt : List Char) : Option (List Char) :=
  match txt.dropWhile (fun c => decide (c ≠ '{')) with
  | [] => none
  | _ :: rest =>
    match rest.reverse.dropWhile (fun c => decide (c ≠ '}')) with
    | [] => none
    | c :: l => some ('{' :: (c :: l).reverse)

/-- The value `match[0]` of `response.match(/\{[\s\S]*\}/)`, `none` when there
is no match. -/
def extractSpan (response : String) : Option String :=
  (extractSpanChars response.data).map (fun l => ⟨l⟩)

/-- An element `cat` of `parsed.categorizations`, by the fields the code reads. -/
structure RawEntry where
  process : JsVal := JsVal.undefined
  category : JsVal := JsVal.undefined
  confidence : JsVal := JsVal.undefined
  reason : JsVal := JsVal.undefined
  threat_level : JsVal := JsVal.undefined
  deriving DecidableEq, Repr

/-- What `JSON.parse(match[0])` and the test
`parsed.categorizations && Array.isArray(parsed.categorizations)` give: a thrown
`SyntaxError`, no array, or the elements of the array (`none` for an element
`null`, on which reading a field throws). -/
inductive ParseOutcome where
  | invalid
  | noArray
  | entries (l : List (Option RawEntry))
  deriving DecidableEq, Repr

/-- The test `cat.confidence > 50`. -/
def greaterThan50 (stringToNumber : String → Option ℚ) (v : JsVal) : Bool :=
  match v.toNumber stringToNumber with
  | some q => decide (50 < q)
  | none => false

/-- The test `cat.process && cat.category && cat.confidence > 50`. -/
def RawEntry.accepted (stringToNumber : String → Option ℚ) (e : RawEntry) : Bool :=
  e.process.truthy && e.category.truthy && greaterThan50 stringToNumber e.confidence

/-- The objects `result` and `fullDetails`. -/
abbrev ResultMaps := JsMap JsVal × JsMap Detail

/-- The callback of `parsed.categorizations.forEach`; `none` when it throws
(`cat` is `null`, or `cat.process` is truthy and has no `toLowerCase`).  An
assignment to the key `__proto__` creates no property. -/
def keepEntry (toLowerCase : String → String) (stringToNumber : String → Option ℚ)
    (maps : ResultMaps) (cat : Option RawEntry) : Option ResultMaps :=
  match cat with
  | none => none
  | some e =>
    if e.accepted stringToNumber then
      match e.process with
      | JsVal.str s =>
        let key := toLowerCase s
        if key = "__proto__" then some maps
        else
          some (maps.1.set key e.category,
            maps.2.set key
              { category := e.category
                confidence := e.confidence
                reason := e.reason.orElse (JsVal.str "No reason provided")
                threatLevel := e.threat_level.orElse (JsVal.str "unknown") })
      | _ => none
    else some maps

/-- The loop `parsed.categorizations.forEach` from given `result` and
`fullDetails`. -/
def collectEntries (toLowerCase : String → String) (stringToNumber : String → Option ℚ) :
    ResultMaps → List (Option RawEntry) → Option ResultMaps
  | maps, [] => some maps
  | maps, cat :: rest =>
    match keepEntry toLowerCase stringToNumber maps cat with
    | none => none
    | some maps' => collectEntries toLowerCase stringToNumber maps' rest

/-- The value `categorizeUnknownProcesses` resolves to: `{}` for an empty batch,
otherwise `{ categorizations, details }`. -/
inductive CategorizeResult where
  | emptyObject
  | maps (categorizations : JsMap JsVal) (details : JsMap Detail)
  deriving DecidableEq, Repr

/-- The function `categorizeUnknownProcesses(unknownProcesses, ollamaClient)`.
`generate` is `client.generate` as a function of what the prompt describes
(`none` when the call fails, times out or returns no text), `parseJson` the JSON
parser.  Every failure inside the `try` ends in the final
`return { categorizations: {}, details: {} }`. -/
def categorizeUnknownProcesses (toLowerCase toUpperCase : String → String)
    (stringToNumber : String → Option ℚ) (parseJson : String → ParseOutcome)
    (generate : List ProcessDetail → Option String) (unknownProcesses : List Process) :
    CategorizeResult :=
  if unknownProcesses = [] then CategorizeResult.emptyObject
  else
    let prompt := processDetails toLowerCase toUpperCase (topUnknown unknownProcesses)
    match generate prompt with
    | none => CategorizeResult.maps [] []
    | some response =>
      match extractSpan response with
      | none => CategorizeResult.maps [] []
      | some span =>
        match parseJson span with
        | ParseOutcome.invalid => CategorizeResult.maps [] []
        | ParseOutcome.noArray => CategorizeResult.maps [] []
        | ParseOutcome.entries l =>
          match collectEntries toLowerCase stringToNumber ([], []) l with
          | none => CategorizeResult.maps [] []
          | some maps => CategorizeResult.maps maps.1 maps.2

/-! ## `LlmCache` -/

/-- The fields of an `LlmCache` object. -/
structure LlmCache where
  cacheDir : String
  ttlHours : Int
  enabled : Bool

/-- The content of a file of the store: the entry `JSON.parse` returns
(`timestamp`, `processName`, `data`), or text that `JSON.parse` rejects. -/
inductive FileContent where
  | entry (timestamp : Int) (processName : String) (data : String)
  | corrupt
  deriving DecidableEq, Repr

/-- The file system: for a directory path, the files in it by name (`none` when
the directory does not exist). -/
abbrev FileSystem := String → Option (JsMap FileContent)

/-- The call `path.join(a, b)`. -/
def pathJoin (a b : String) : String := a ++ "/" ++ b

/-- The call `fs.writeFileSync` on the file `file` of directory `dir`; `none`
when it throws because the directory does not exist. -/
def writeFile (store : FileSystem) (dir file : String) (content : FileContent) :
    Option FileSystem :=
  match store dir with
  | none => none
  | some files =>
    some (fun d => if d = dir then some ((file, content) :: files.filter (fun f => f.1 ≠ file))
                   else store d)

/-- The call `fs.unlinkSync` on the file `file` of directory `dir`. -/
def unlinkFile (store : FileSystem) (dir file : String) : FileSystem :=
  fun d => if d = dir then (store d).map (fun files => files.filter (fun f => f.1 ≠ file))
           else store d

/-- The method `generateKey(process)`: `hash n p c` is the MD5 hex digest of the
JSON text of the lower-cased name `n`, lower-cased path `p` and the first 100
characters `c` of the lower-cased command. -/
def LlmCache.generateKey (toLowerCase : String → String) (hash : String → String → String → String)
    (p : Process) : String :=
  hash (toLowerCase p.name) (toLowerCase p.path) ⟨(toLowerCase p.command).data.take 100⟩

/-- The method `get(process)` at time `now`: the value returned (`none` for
`null`) and the store afterwards.  Inside the method `process` is the parameter,
so `process.cwd()` is a call on the record: when the record has no callable
`cwd` the call throws inside the `try` and the method returns `null`. -/
def LlmCache.get (toLowerCase : String → String) (hash : String → String → String → String)
    (cache : LlmCache) (store : FileSystem) (now : Int) (p : Process) :
    Option String × FileSystem :=
  if cache.enabled = false then (none, store)
  else
    let key := LlmCache.generateKey toLowerCase hash p
    match p.cwd with
    | none => (none, store)
    | some cwd =>
      let dir := pathJoin cwd cache.cacheDir
      let file := key ++ ".json"
      match store dir with
      | none => (none, store)
      | some files =>
        match files.get file with
        | none => (none, store)
        | some FileContent.corrupt => (none, store)
        | some (FileContent.entry timestamp _ data) =>
          let age := now - timestamp
          let maxAge := cache.ttlHours * 60 * 60 * 1000
          if age > maxAge then (none, unlinkFile store dir file)
          else (some data, store)

/-- The method `set(process, data)` at time `now`: the store afterwards.  As in
`get`, `process.cwd()` is a call on the record, and every failure is swallowed. -/
def LlmCache.set (toLowerCase : String → String) (hash : String → String → String → String)
    (cache : LlmCache) (store : FileSystem) (now : Int) (p : Process) (data : String) :
    FileSystem :=
  if cache.enabled = false then store
  else
    let key := LlmCache.generateKey toLowerCase hash p
    match p.cwd with
    | none => store
    | some cwd =>
      match writeFile store (pathJoin cwd cache.cacheDir) (key ++ ".json")
          (FileContent.entry now p.name data) with
      | none => store
      | some store' => store'

/-- The value of `getStats()`: `{ enabled: false }`, the `entries` count, or the
`error` variant. -/
inductive CacheStats where
  | disabled
  | entries (n : Nat)
  | error
  deriving DecidableEq, Repr

/-- The method `getStats()`, run in working directory `cwd` (here `process` is
the runtime global): the number of `.json` files of the cache directory. -/
def LlmCache.getStats (cache : LlmCache) (cwd : String) (store : FileSystem) : CacheStats :=
  if cache.enabled = false then CacheStats.disabled
  else
    match store (pathJoin cwd cache.cacheDir) with
    | none => CacheStats.error
    | some files =>
      CacheStats.entries (files.filter (fun f => ".json".data.isSuffixOf f.1.data)).length

/-- The value of `getMultiple(processes)`: the object `cached`, the array
`notCached`, and the store afterwards. -/
structure MultipleResult where
  cached : JsMap String
  notCached : List Process
  store : FileSystem

/-- The body of the loop of `getMultiple` for one process: `get`, then the test
`if (cached)` on what it returned (an empty string is falsy). -/
def LlmCache.getMultipleStep (toLowerCase : String → String)
    (hash : String → String → String → String) (cache : LlmCache) (now : Int)
    (acc : MultipleResult) (p : Process) : MultipleResult :=
  match LlmCache.get toLowerCase hash cache acc.store now p with
  | (some data, store') =>
    if data ≠ "" then
      { cached := acc.cached.set (toLowerCase p.name) data
        notCached := acc.notCached
        store := store' }
    else { cached := acc.cached, notCached := acc.notCached ++ [p], store := store' }
  | (none, store') =>
    { cached := acc.cached, notCached := acc.notCached ++ [p], store := store' }

/-- The method `getMultiple(processes)` at time `now`. -/
def LlmCache.getMultiple (toLowerCase : String → String)
    (hash : String → String → String → String) (cache : LlmCache) (store : FileSystem)
    (now : Int) (processes : List Process) : MultipleResult :=
  processes.foldl (LlmCache.getMultipleStep toLowerCase hash cache now)
    { cached := [], notCached := [], store := store }

/-! ## `NetworkAnalyzer` -/

/-- The connection record built by `getConnections`; the ports are numbers. -/
structure Connection where
  protocol : String := "tcp"
  localAddress : String := ""
  localPort : Nat := 0
  peerAddress : String := ""
  peerPort : Nat := 0
  state : String := ""
  process : String := "unknown"
  pid : Nat := 0
  deriving DecidableEq, Repr

/-- The table `knownPorts` of `identifyService`. -/
def knownPorts : List (Nat × String) :=
  [ (20, "FTP Data"), (21, "FTP"), (22, "SSH"), (23, "Telnet"), (25, "SMTP"), (53, "DNS"),
    (80, "HTTP"), (110, "POP3"), (143, "IMAP"), (443, "HTTPS"), (445, "SMB"), (993, "IMAPS"),
    (995, "POP3S"), (1433, "SQL Server"), (1521, "Oracle"), (3000, "Dev Server"),
    (3306, "MySQL"), (3389, "RDP"), (5432, "PostgreSQL"), (5900, "VNC"), (6379, "Redis"),
    (8080, "HTTP Proxy"), (8443, "HTTPS Alt"), (11434, "Ollama"), (27017, "MongoDB") ]

/-- The method `identifyService(port)`: `knownPorts[port] || 'Unknown'`. -/
def identifyService (port : Nat) : String :=
  match knownPorts.lookup port with
  | some service => service
  | none => "Unknown"

/-- The call `address.startsWith(pre)`. -/
def startsWith (address pre : String) : Bool := pre.data.isPrefixOf address.data

/-- The method `isLocalAddress(address)`; the empty string is the falsy address. -/
def isLocalAddress (address : String) : Bool :=
  if address = "" then true
  else
    decide (address = "127.0.0.1") || decide (address = "::1") ||
      decide (address = "localhost") || startsWith address "192.168." ||
      startsWith address "10." || startsWith address "172.16." ||
      decide (address = "0.0.0.0") || decide (address = "::")

/-- The method `getGeoHint(address)`. -/
def getGeoHint (address : String) : String :=
  if isLocalAddress address then "Local" else "External"

/-- The test `conn.state === 'LISTEN' || conn.state === 'LISTENING'`. -/
def isListening (conn : Connection) : Bool :=
  decide (conn.state = "LISTEN") || decide (conn.state = "LISTENING")

/-- A value of `analysis.byState` or `analysis.byProtocol`: a count, or the
string that `+ 1` makes of a value that is not a number. -/
inductive Tally where
  | count (n : Nat)
  | garbage
  deriving DecidableEq, Repr

/-- The statement `m[key] = (m[key] || 0) + 1` on an object `m` that starts as
`{}`: a key inherited from `Object.prototype` reads as a function or object, so
the sum is a string; an assignment to `__proto__` creates no property. -/
def tally (m : JsMap Tally) (key : String) : JsMap Tally :=
  if key = "__proto__" then m
  else
    match m.get key with
    | some (Tally.count n) => m.set key (Tally.count (n + 1))
    | some Tally.garbage => m.set key Tally.garbage
    | none =>
      if key ∈ objectPrototypeKeys then m.set key Tally.garbage
      else m.set key (Tally.count 1)

/-- An element of `analysis.listeningPorts`. -/
structure ListeningPort where
  port : Nat
  address : String
  process : String
  pid : Nat
  service : String
  deriving DecidableEq, Repr

/-- An element of `analysis.externalConnections`: `{ ...conn, geoHint }`. -/
structure ExternalConnection where
  conn : Connection
  geoHint : String
  deriving DecidableEq, Repr

/-- The object `analysis` of `analyzeConnections`. -/
structure ConnectionAnalysis where
  total : Nat
  byState : JsMap Tally
  byProtocol : JsMap Tally
  listeningPorts : List ListeningPort
  establishedConnections : List Connection
  externalConnections : List ExternalConnection
  deriving DecidableEq, Repr

/-- The callback of `connections.forEach` in `analyzeConnections`. -/
def analyzeConnection (analysis : ConnectionAnalysis) (conn : Connection) :
    ConnectionAnalysis :=
  let byState := tally analysis.byState conn.state
  let byProtocol := tally analysis.byProtocol conn.protocol
  let listeningPorts :=
    if isListening conn then
      analysis.listeningPorts ++
        [{ port := conn.localPort, address := conn.localAddress, process := conn.process,
           pid := conn.pid, service := identifyService conn.localPort }]
    else analysis.listeningPorts
  let establishedConnections :=
    if conn.state = "ESTABLISHED" then analysis.establishedConnections ++ [conn]
    else analysis.establishedConnections
  let externalConnections :=
    if conn.state = "ESTABLISHED" ∧ isLocalAddress conn.peerAddress = false then
      analysis.externalConnections ++ [{ conn := conn, geoHint := getGeoHint conn.peerAddress }]
    else analysis.externalConnections
  { total := analysis.total
    byState := byState
    byProtocol := byProtocol
    listeningPorts := listeningPorts
    establishedConnections := establishedConnections
    externalConnections := externalConnections }

/-- The method `analyzeConnections(connections)`. -/
def analyzeConnections (connections : List Connection) : ConnectionAnalysis :=
  connections.foldl analyzeConnection
    { total := connections.length
      byState := []
      byProtocol := []
      listeningPorts := []
      establishedConnections := []
      externalConnections := [] }

/-- The counts of `generateSummary` that are computed from the connections. -/
structure NetworkSummary where
  totalConnections : Nat
  listeningPorts : Nat
  establishedConnections : Nat
  deriving DecidableEq, Repr

/-- The method `generateSummary(connections, interfaces)`, without the fields
computed from `interfaces`. -/
def generateSummary (connections : List Connection) : NetworkSummary :=
  { totalConnections := connections.length
    listeningPorts := (connections.filter isListening).length
    establishedConnections :=
      (connections.filter (fun c => decide (c.state = "ESTABLISHED"))).length }

/-- An element of `risks`. -/
structure Risk where
  type : String
  port : Nat
  service : String
  process : String
  recommendation : String
  deriving DecidableEq, Repr

/-- An element of `warnings`. -/
structure Warning where
  type : String
  peerAddress : String
  peerPort : Nat
  process : String
  note : String
  deriving DecidableEq, Repr

/-- The array `dangerousPorts`. -/
def dangerousPorts : List Nat := [23, 21, 445, 3389, 5900]

/-- The array `[80, 443, 53, 8080, 8443]` of the outbound test. -/
def commonPorts : List Nat := [80, 443, 53, 8080, 8443]

/-- The object pushed to `risks` for a connection. -/
def dangerousPortRisk (conn : Connection) : Risk :=
  { type := "dangerous_port"
    port := conn.localPort
    service := identifyService conn.localPort
    process := conn.process
    recommendation := "La porta " ++ toString conn.localPort ++ " (" ++
      identifyService conn.localPort ++ ") è aperta. Considera di chiuderla se non necessaria." }

/-- The object pushed to `warnings` for a connection. -/
def unusualOutboundWarning (conn : Connection) : Warning :=
  { type := "unusual_outbound"
    peerAddress := conn.peerAddress
    peerPort := conn.peerPort
    process := conn.process
    note := "Connessione a porta non standard: " ++ toString conn.peerPort }

/-- The first test of the callback of `analyzeSecurityRisks`: a listening
connection on a dangerous port. -/
def isDangerousListener (conn : Connection) : Bool :=
  isListening conn && decide (conn.localPort ∈ dangerousPorts)

/-- The second test of the callback: `ESTABLISHED`, a peer address that is not
local, a truthy peer port, and a peer port outside the common ports. -/
def isUnusualOutbound (conn : Connection) : Bool :=
  decide (conn.state = "ESTABLISHED") && !isLocalAddress conn.peerAddress &&
    decide (conn.peerPort ≠ 0) && !decide (conn.peerPort ∈ commonPorts)

/-- The callback of `connections.forEach` in `analyzeSecurityRisks`, on the
arrays `risks` and `warnings`. -/
def scanConnection (acc : List Risk × List Warning) (conn : Connection) :
    List Risk × List Warning :=
  let risks := if isDangerousListener conn then acc.1 ++ [dangerousPortRisk conn] else acc.1
  let warnings :=
    if isUnusualOutbound conn then acc.2 ++ [unusualOutboundWarning conn] else acc.2
  (risks, warnings)

/-- The method `generateSecurityRecommendations(risks)`. -/
def generateSecurityRecommendations (risks : List Risk) : List String :=
  let r1 := if risks.any (fun r => decide (r.port = 23)) then
    ["Disabilita Telnet e usa SSH per accesso remoto sicuro"] else []
  let r2 := if risks.any (fun r => decide (r.port = 21)) then
    r1 ++ ["Considera SFTP o FTPS invece di FTP non criptato"] else r1
  let r3 := if risks.any (fun r => decide (r.port = 3389)) then
    r2 ++ ["Proteggi RDP con VPN o Network Level Authentication"] else r2
  let r4 := if risks.any (fun r => decide (r.port = 445)) then
    r3 ++ ["Assicurati che SMB sia protetto da firewall per reti non fidate"] else r3
  if r4.length = 0 then r4 ++ ["Nessun rischio significativo rilevato"] else r4

/-- The object returned by `analyzeSecurityRisks`. -/
structure SecurityAnalysis where
  riskLevel : String
  risks : List Risk
  warnings : List Warning
  recommendations : List String
  deriving DecidableEq, Repr

/-- The method `analyzeSecurityRisks(connections)`. -/
def analyzeSecurityRisks (connections : List Connection) : SecurityAnalysis :=
  let found := connections.foldl scanConnection ([], [])
  { riskLevel := if found.1.length > 0 then "elevated" else "normal"
    risks := found.1
    warnings := found.2
    recommendations := generateSecurityRecommendations found.1 }

/-! ## Specification-side notions -/

/-- The keyword `k` occurs as a substring of `txt`. -/
def Occurs (k txt : String) : Prop := List.IsInfix k.data txt.data

/-- The entry `e` of the keyword table has a keyword occurring in `txt`. -/
def EntryMatches (txt : String) (e : Category × List String) : Prop :=
  ∃ k ∈ e.2, Occurs k txt

/-- The category `c` is the first one, in the declared order of the table, with
a keyword occurring in `txt`. -/
def FirstMatch (txt : String) (c : Category) : Prop :=
  ∃ before e after, kw = before ++ e :: after ∧ e.1 = c ∧ EntryMatches txt e ∧
    ∀ e' ∈ before, ¬ EntryMatches txt e'

/-- No category of the table has a keyword occurring in `txt`. -/
def NoMatch (txt : String) : Prop := ∀ e ∈ kw, ¬ EntryMatches txt e

/-- The bucket a process is placed in when no LLM map is given: the first
matching category, `other` without a match. -/
def PlacedIn (toLowerCase : String → String) (p : Process) (c : Category) : Prop :=
  FirstMatch (processText toLowerCase p) c ∨
    (c = Category.other ∧ NoMatch (processText toLowerCase p))

/-- The bucket the callback of `categorizeProcesses` pushes `p` to (`none` when
it throws): a helper for the proofs, shown equal to `placeProcess`. -/
def placement (toLowerCase : String → String) (llmCategorizations : Option LlmMap)
    (p : Process) : Option Category :=
  match keywordCategory toLowerCase p with
  | some c => some c
  | none =>
    match llmCategorizations with
    | none => some Category.other
    | some m =>
      match m.get (toLowerCase p.name) with
      | none => some Category.other
      | some llmCategory =>
        match catMember llmCategory with
        | CatMember.bucket c => some c
        | CatMember.inherited => none
        | CatMember.undefined => some Category.other

/-- The LLM map `m` gives the process a category that names a bucket other
than `other`. -/
def classifies (toLowerCase : String → String) (m : LlmMap) (p : Process) : Bool :=
  match m.get (toLowerCase p.name) with
  | none => false
  | some v =>
    match catMember v with
    | CatMember.bucket c => decide (c ≠ Category.other)
    | CatMember.inherited => false
    | CatMember.undefined => false

/-- A summary that lists the given names under `other` and nothing elsewhere. -/
def summaryOfOther (names : List String) : Summary :=
  { totalProcesses := names.length
    categories := fun c =>
      if c = Category.other then { count := names.length, processes := names }
      else { count := 0, processes := [] } }

/-- The shortest prefix of the text after which the brace depth `depth` is back
to 0. -/
def balancedFrom : Nat → List Char → Option (List Char)
  | _, [] => none
  | depth, c :: rest =>
    if c = '{' then (balancedFrom (depth + 1) rest).map (fun l => c :: l)
    else if c = '}' then
      if depth ≤ 1 then some [c] else (balancedFrom (depth - 1) rest).map (fun l => c :: l)
    else (balancedFrom depth rest).map (fun l => c :: l)

/-- The first balanced `{...}` span of a text: from the first `{` to its
matching `}`. -/
def firstBalancedSpan (txt : List Char) : Option (List Char) :=
  match txt.dropWhile (fun c => decide (c ≠ '{')) with
  | [] => none
  | c :: rest => (balancedFrom 1 rest).map (fun l => c :: l)

/-- The category names a bucket of the taxonomy. -/
def inTaxonomy (category : String) : Prop := category ∈ Category.all.map Category.key

/-- The entry is one that `forEach` stores under key `key`. -/
def StoredUnder (toLowerCase : String → String) (stringToNumber : String → Option ℚ)
    (entries : List (Option RawEntry)) (key : String) : Prop :=
  ∃ e s, some e ∈ entries ∧ e.accepted stringToNumber = true ∧ e.process = JsVal.str s ∧
    toLowerCase s = key ∧ key ≠ "__proto__"

/-- The objects `result` and `fullDetails` hold the same keys in the same
order, and `fullDetails[k].category` is `result[k]`. -/
def Aligned (maps : ResultMaps) : Prop :=
  maps.1 = maps.2.map (fun e => (e.1, e.2.category))

/-! ## Concrete inputs -/

/-- A service that never categorizes anything. -/
def emptyService : Service := fun _ _ => { categorizations := [], details := [] }

/-- A process whose command line contains the keyword `git`. -/
def agentWithGit : Process :=
  { pid := 12, name := "agent.exe", command := "agent.exe --repo git" }

/-- Eleven processes named `agent.exe` that match no keyword, and a twelfth of
the same name whose command line matches the keyword `git`. -/
def sameNameProcesses : List Process :=
  (List.range 11).map (fun i => ({ pid := i + 1, name := "agent.exe" } : Process))
    ++ [agentWithGit]

/-- A process matching the keyword `code.exe`. -/
def editorProcess : Process := { pid := 1, name := "Code.exe" }

/-- A process matching no keyword. -/
def updaterProcess : Process := { pid := 2, name := "updater.exe" }

/-- An LLM map with an entry for both processes above. -/
def editorLlmMap : LlmMap := [("code.exe", "gaming"), ("updater.exe", "office")]

/-- An LLM map whose category names a member inherited from `Object.prototype`. -/
def constructorLlmMap : LlmMap := [("updater.exe", "constructor")]

/-- Fifteen processes that match no keyword. -/
def fifteenProcesses : List Process :=
  [ { pid := 1, name := "Zeta01.exe" }, { pid := 2, name := "Zeta02.exe" },
    { pid := 3, name := "Zeta03.exe" }, { pid := 4, name := "Zeta04.exe" },
    { pid := 5, name := "Zeta05.exe" }, { pid := 6, name := "Zeta06.exe" },
    { pid := 7, name := "Zeta07.exe" }, { pid := 8, name := "Zeta08.exe" },
    { pid := 9, name := "Zeta09.exe" }, { pid := 10, name := "Zeta10.exe" },
    { pid := 11, name := "Zeta11.exe" }, { pid := 12, name := "Zeta12.exe" },
    { pid := 13, name := "Zeta13.exe" }, { pid := 14, name := "Zeta14.exe" },
    { pid := 15, name := "Zeta15.exe" } ]

/-- The categorizations of the mocked service on its first call: eight of the
fifteen processes. -/
def eightCategorizations : LlmMap :=
  [ ("zeta01.exe", "office"), ("zeta02.exe", "office"), ("zeta03.exe", "media"),
    ("zeta04.exe", "media"), ("zeta05.exe", "gaming"), ("zeta06.exe", "security"),
    ("zeta07.exe", "system"), ("zeta08.exe", "ai") ]

/-- A mocked service that classifies eight processes on its first call and none
on any later call. -/
def mockedService : Service := fun i _ =>
  if i = 0 then { categorizations := eightCategorizations, details := [] }
  else { categorizations := [], details := [] }

/-- An enabled cache with the default directory and a TTL of 24 hours. -/
def defaultCache : LlmCache :=
  { cacheDir := ".pc-analyzer-cache", ttlHours := 24, enabled := true }

/-- A file system whose only directory is `dir`, holding the single file `file`. -/
def storeWith (dir file : String) (content : FileContent) : FileSystem :=
  fun d => if d = dir then some [(file, content)] else none

/-- The cache directory of `defaultCache` for a run in `/home/user`, holding one
entry, written at time 0, under the key of `updater.exe`. -/
def updaterStore (toLowerCase : String → String) (hash : String → String → String → String) :
    FileSystem :=
  storeWith (pathJoin "/home/user" defaultCache.cacheDir)
    (LlmCache.generateKey toLowerCase hash updaterProcess ++ ".json")
    (FileContent.entry 0 "updater.exe" "office")

/-- A record of `chrome.exe`. -/
def chromeA : Process :=
  { pid := 10, name := "Chrome.EXE", path := "C:\\Apps\\Chrome.exe",
    command := "chrome --type=renderer", cpu := 12, mem := 3 }

/-- Another record of `chrome.exe`, with another pid and other resource usage. -/
def chromeB : Process :=
  { pid := 99, name := "chrome.exe", path := "c:\\apps\\chrome.exe",
    command := "CHROME --type=renderer", cpu := 0, mem := 40 }

/-- A string-to-number conversion that finds no number in any string. -/
def noNumber : String → Option ℚ := fun _ => none

/-- An entry with confidence 90 and a category that names no bucket. -/
def offTaxonomyEntry : RawEntry :=
  { process := JsVal.str "Updater.exe", category := JsVal.str "astrology",
    confidence := JsVal.num 90 }

/-- The details stored for `offTaxonomyEntry`. -/
def offTaxonomyDetail : Detail :=
  { category := JsVal.str "astrology", confidence := JsVal.num 90,
    reason := JsVal.str "No reason provided", threatLevel := JsVal.str "unknown" }

/-- An entry with confidence 150. -/
def overconfidentEntry : RawEntry :=
  { process := JsVal.str "Updater.exe", category := JsVal.str "security",
    confidence := JsVal.num 150 }

/-- An entry with confidence 95 and a reason. -/
def defenderEntry : RawEntry :=
  { process := JsVal.str "MsMpEng.exe", category := JsVal.str "security",
    confidence := JsVal.num 95, reason := JsVal.str "Windows Defender engine",
    threat_level := JsVal.str "safe" }

/-- A response with two brace groups. -/
def twoGroupResponse : String := "\x7b\"categorizations\": []\x7d Note: \x7bdone\x7d"

/-! ## Further helpers and concrete inputs -/

/-- A stand-in for the digest in concrete runs: the three strings joined. -/
def joinedKey : String → String → String → String :=
  fun n p c => n ++ "|" ++ p ++ "|" ++ c

/-- The entry of `fullDetails` stored for an accepted entry. -/
def detailOf (e : RawEntry) : Detail :=
  { category := e.category
    confidence := e.confidence
    reason := e.reason.orElse (JsVal.str "No reason provided")
    threatLevel := e.threat_level.orElse (JsVal.str "unknown") }

/-- The number a value of `byState` or `byProtocol` stands for; 0 for a value
that is not a number. -/
def Tally.value : Tally → Nat
  | Tally.count n => n
  | Tally.garbage => 0

/-- The sum of the counts of `byState` or `byProtocol` over its keys. -/
def tallyTotal (m : JsMap Tally) : Nat := (m.map (fun e => e.2.value)).sum

/-- The element of `listeningPorts` pushed for a connection. -/
def listeningPortOf (conn : Connection) : ListeningPort :=
  { port := conn.localPort, address := conn.localAddress, process := conn.process,
    pid := conn.pid, service := identifyService conn.localPort }

/-- A listening connection on the Telnet port. -/
def telnetListener : Connection := { state := "LISTEN", localPort := 23, process := "telnetd" }

/-- A listening connection on the VNC port. -/
def vncListener : Connection := { state := "LISTEN", localPort := 5900, process := "vncserver" }

/-- An established connection to `8.8.8.8`, port 4444. -/
def outboundTo4444 : Connection :=
  { state := "ESTABLISHED", peerAddress := "8.8.8.8", peerPort := 4444 }

/-- An established connection to `8.8.8.8` whose peer port is 0. -/
def outboundToPortZero : Connection :=
  { state := "ESTABLISHED", peerAddress := "8.8.8.8", peerPort := 0 }

/-- An established connection to `192.168.1.1`, port 9999. -/
def outboundToLan : Connection :=
  { state := "ESTABLISHED", peerAddress := "192.168.1.1", peerPort := 9999 }

/-- An established connection to `172.20.0.1`, an address of `172.16.0.0/12`,
port 9999. -/
def outboundToPrivate172 : Connection :=
  { state := "ESTABLISHED", peerAddress := "172.20.0.1", peerPort := 9999 }

/-- An established connection to `127.0.0.2`, an address of `127.0.0.0/8`,
port 9999. -/
def outboundToLoopback2 : Connection :=
  { state := "ESTABLISHED", peerAddress := "127.0.0.2", peerPort := 9999 }

/-- Three connections: two listeners and one established. -/
def threeConnections : List Connection :=
  [ { protocol := "tcp", state := "LISTEN", localPort := 22, process := "sshd" },
    { protocol := "tcp", state := "ESTABLISHED", peerAddress := "8.8.8.8", peerPort := 443 },
    { protocol := "udp", state := "LISTEN", localPort := 53, process := "dnsmasq" } ]

/-- The answers of the service merged in call order, starting from call number
`i` and the accumulated map `acc`: what the loop accumulates over the batches. -/
def mergeAnswers (svc : Service) : Nat → LlmMap → List (List Process) → LlmMap
  | _, acc, [] => acc
  | i, acc, batch :: rest =>
    mergeAnswers svc (i + 1) (acc.spread (svc i batch).categorizations) rest

/-- The first of the fifteen processes. -/
def zetaProcess : Process := { pid := 1, name := "Zeta01.exe" }

/-- The cache directory of `defaultCache` for a run in `/home/user`, holding an
entry written at time 0 under the key of `Zeta01.exe`. -/
def zetaStore : FileSystem :=
  storeWith (pathJoin "/home/user" defaultCache.cacheDir)
    (LlmCache.generateKey asciiLower joinedKey zetaProcess ++ ".json")
    (FileContent.entry 0 "Zeta01.exe" "office")

/-- The default of the configuration key `excludeProcesses`. -/
def excludeProcesses : List String := ["system idle process", "system", "registry"]

/-- A process whose name is in the default `excludeProcesses`. -/
def registryProcess : Process := { pid := 4, name := "registry" }

/-- The six classes of the path classification. -/
def pathClasses : List String :=
  ["system_trusted", "installed_app", "user_app", "suspicious_temp", "suspicious_root",
   "unknown_location"]

/-- Upper-casing of the ASCII letters, the instance of `toUpperCase` used for
concrete runs. -/
def asciiUpper (s : String) : String :=
  ⟨s.data.map Char.toUpper⟩

/-- The process of the game-streaming client Parsec. -/
def parsecProcess : Process := { pid := 7, name := "parsecd.exe" }

/-- The value of the test `if (cached)` of `getMultiple` for a process, on a
given store: `get` returns a value that is not the empty string. -/
def isHit (toLowerCase : String → String) (hash : String → String → String → String)
    (cache : LlmCache) (store : FileSystem) (now : Int) (p : Process) : Bool :=
  match (LlmCache.get toLowerCase hash cache store now p).1 with
  | some data => decide (data ≠ "")
  | none => false

/-- A process with `cpu` `2 ^ 53` and `mem` 0. -/
def steadyProcess : Process := { pid := 21, name := "steady.exe", cpu := 9007199254740992, mem := 0 }

/-- A process with `cpu` `2 ^ 53` and `mem` 1: the exact sum `2 ^ 53 + 1` is no
double and rounds to `2 ^ 53`. -/
def busyProcess : Process := { pid := 22, name := "busy.exe", cpu := 9007199254740992, mem := 1 }

/-- A process with `cpu` `0.3` and `mem` 0. -/
def lightProcess : Process :=
  { pid := 23, name := "light.exe", cpu := JsNumber.dyadic 5404319552844595 54, mem := 0 }

/-- A process with `cpu` `0.1` and `mem` `0.2`: the sum is the double
`0.30000000000000004`. -/
def splitProcess : Process :=
  { pid := 24, name := "split.exe", cpu := JsNumber.dyadic 3602879701896397 55,
    mem := JsNumber.dyadic 3602879701896397 54 }

/-! ## Lemmas on strings and the keyword scan -/

theorem includesChars_iff (txt k : List Char) :
    includesChars txt k = true ↔ List.IsInfix k txt := by
  induction txt with
  | nil =>
    cases k <;> simp [includesChars]
  | cons c t ih =>
    simp only [includesChars, Bool.or_eq_true, ih, List.isPrefixOf_iff_prefix]
    constructor
    · rintro (h | h)
      · exact h.isInfix
      · exact h.trans (List.suffix_cons c t).isInfix
    · intro h
      rcases List.infix_cons_iff.mp h with h | h
      · exact Or.inl h
      · exact Or.inr h

theorem includes_iff (txt k : String) : includes txt k = true ↔ Occurs k txt :=
  includesChars_iff txt.data k.data

theorem any_includes_iff (txt : String) (e : Category × List String) :
    e.2.any (fun k => includes txt k) = true ↔ EntryMatches txt e := by
  simp [EntryMatches, List.any_eq_true, includes_iff]

theorem keywordScan_some_iff (txt : String) (c : Category) (l : List (Category × List String)) :
    keywordScan txt l = some c ↔
      ∃ before e after, l = before ++ e :: after ∧ e.1 = c ∧ EntryMatches txt e ∧
        ∀ e' ∈ before, ¬ EntryMatches txt e' := by
  induction l with
  | nil => simp [keywordScan]
  | cons hd rest ih =>
    obtain ⟨c0, ks⟩ := hd
    by_cases hm : EntryMatches txt (c0, ks)
    · have hany := (any_includes_iff txt (c0, ks)).mpr hm
      simp only at hany
      simp only [keywordScan, hany, if_true, Option.some.injEq]
      constructor
      · intro h
        exact ⟨[], (c0, ks), rest, rfl, h, hm, by simp⟩
      · rintro ⟨before, e, after, heq, hc, _, hbefore⟩
        cases before with
        | nil =>
          simp only [List.nil_append, List.cons.injEq] at heq
          rw [← heq.1] at hc
          exact hc
        | cons b bs =>
          simp only [List.cons_append, List.cons.injEq] at heq
          exact absurd (heq.1 ▸ hm) (hbefore b (by simp))
    · have hany : ks.any (fun k => includes txt k) = false := by
        rw [← Bool.not_eq_true]
        exact fun h => hm ((any_includes_iff txt (c0, ks)).mp h)
      simp only [keywordScan, hany, Bool.false_eq_true, if_false, ih]
      constructor
      · rintro ⟨before, e, after, heq, hc, he, hbefore⟩
        refine ⟨(c0, ks) :: before, e, after, by simp [heq], hc, he, ?_⟩
        intro e' he'
        rcases List.mem_cons.mp he' with h | h
        · exact h ▸ hm
        · exact hbefore e' h
      · rintro ⟨before, e, after, heq, hc, he, hbefore⟩
        cases before with
        | nil =>
          simp only [List.nil_append, List.cons.injEq] at heq
          exact absurd (heq.1 ▸ he) hm
        | cons b bs =>
          simp only [List.cons_append, List.cons.injEq] at heq
          exact ⟨bs, e, after, heq.2, hc, he, fun e' h => hbefore e' (List.mem_cons_of_mem _ h)⟩

theorem keywordScan_none_iff (txt : String) (l : List (Category × List String)) :
    keywordScan txt l = none ↔ ∀ e ∈ l, ¬ EntryMatches txt e := by
  induction l with
  | nil => simp [keywordScan]
  | cons hd rest ih =>
    obtain ⟨c0, ks⟩ := hd
    by_cases hm : EntryMatches txt (c0, ks)
    · have hany := (any_includes_iff txt (c0, ks)).mpr hm
      simp only at hany
      simp only [keywordScan, hany, if_true, List.mem_cons, forall_eq_or_imp]
      constructor
      · intro h; cases h
      · intro h; exact absurd hm h.1
    · have hany : ks.any (fun k => includes txt k) = false := by
        rw [← Bool.not_eq_true]
        exact fun h => hm ((any_includes_iff txt (c0, ks)).mp h)
      simp only [keywordScan, hany, Bool.false_eq_true, if_false, ih, List.mem_cons,
        forall_eq_or_imp]
      exact ⟨fun h => ⟨hm, h⟩, fun h => h.2⟩

/-! ## Lemmas on `categorizeProcesses` -/

theorem placeProcess_eq (toLowerCase : String → String) (llm : Option LlmMap) (cat : Buckets)
    (p : Process) :
    placeProcess toLowerCase llm cat p =
      (placement toLowerCase llm p).map (fun c => push cat c p) := by
  unfold placeProcess placement
  cases keywordCategory toLowerCase p with
  | some c => rfl
  | none =>
    cases llm with
    | none => rfl
    | some m =>
      simp only
      cases m.get (toLowerCase p.name) with
      | none => rfl
      | some llmCategory =>
        simp only
        cases catMember llmCategory <;> rfl

theorem placeAll_some (toLowerCase : String → String) (llm : Option LlmMap) (ps : List Process) :
    ∀ cat cat', placeAll toLowerCase llm cat ps = some cat' →
      ∀ c, cat' c = cat c ++ ps.filter (fun p => decide (placement toLowerCase llm p = some c)) := by
  induction ps with
  | nil =>
    intro cat cat' h c
    simp only [placeAll, Option.some.injEq] at h
    simp [h]
  | cons p rest ih =>
    intro cat cat' h c
    simp only [placeAll, placeProcess_eq] at h
    cases hp : placement toLowerCase llm p with
    | none => simp [hp] at h
    | some c0 =>
      simp only [hp, Option.map_some'] at h
      rw [ih _ _ h c]
      by_cases hc : c = c0
      · subst hc
        simp [push, List.filter_cons, hp]
      · have hne : ¬ c0 = c := fun h => hc h.symm
        simp [push, hc, hne, List.filter_cons, hp]

theorem placeAll_isSome (toLowerCase : String → String) (llm : Option LlmMap) (ps : List Process) :
    ∀ cat, (∀ p ∈ ps, placement toLowerCase llm p ≠ none) →
      ∃ cat', placeAll toLowerCase llm cat ps = some cat' := by
  induction ps with
  | nil => intro cat _; exact ⟨cat, rfl⟩
  | cons p rest ih =>
    intro cat h
    simp only [placeAll, placeProcess_eq]
    cases hp : placement toLowerCase llm p with
    | none => exact absurd hp (h p (by simp))
    | some c0 =>
      simp only [Option.map_some']
      exact ih _ (fun q hq => h q (List.mem_cons_of_mem _ hq))

theorem placeAll_none_of_mem (toLowerCase : String → String) (llm : Option LlmMap)
    (ps : List Process) :
    ∀ cat, (∃ p ∈ ps, placement toLowerCase llm p = none) →
      placeAll toLowerCase llm cat ps = none := by
  induction ps with
  | nil => intro cat h; simp at h
  | cons p rest ih =>
    intro cat h
    simp only [placeAll, placeProcess_eq]
    cases hp : placement toLowerCase llm p with
    | none => rfl
    | some c0 =>
      simp only [Option.map_some']
      obtain ⟨q, hq, hqn⟩ := h
      rcases List.mem_cons.mp hq with h1 | h1
      · rw [h1, hp] at hqn; cases hqn
      · exact ih _ ⟨q, h1, hqn⟩

theorem categorizeProcesses_some (toLowerCase : String → String) (llm : Option LlmMap)
    (ps : List Process) (cat : Buckets) (h : categorizeProcesses toLowerCase ps llm = some cat)
    (c : Category) :
    cat c = ps.filter (fun p => decide (placement toLowerCase llm p = some c)) := by
  have := placeAll_some toLowerCase llm ps emptyBuckets cat h c
  simpa [emptyBuckets] using this

theorem placement_none_llm_ne_none (toLowerCase : String → String) (p : Process) :
    placement toLowerCase none p ≠ none := by
  unfold placement
  cases keywordCategory toLowerCase p <;> simp

theorem placement_none_llm_iff (toLowerCase : String → String) (p : Process) (c : Category) :
    placement toLowerCase none p = some c ↔ PlacedIn toLowerCase p c := by
  unfold placement PlacedIn FirstMatch NoMatch
  cases hk : keywordCategory toLowerCase p with
  | some c0 =>
    have h0 := hk
    unfold keywordCategory at hk
    simp only [Option.some.injEq]
    constructor
    · intro h
      subst h
      exact Or.inl ((keywordScan_some_iff _ _ _).mp hk)
    · rintro (h | ⟨_, h⟩)
      · have := (keywordScan_some_iff _ _ _).mpr h
        rw [hk] at this
        exact Option.some.inj this
      · have := (keywordScan_none_iff _ _).mpr h
        rw [hk] at this
        cases this
  | none =>
    unfold keywordCategory at hk
    simp only [Option.some.injEq]
    constructor
    · intro h
      exact Or.inr ⟨h.symm, (keywordScan_none_iff _ _).mp hk⟩
    · rintro (h | ⟨h, _⟩)
      · have := (keywordScan_some_iff _ _ _).mpr h
        rw [hk] at this
        cases this
      · exact h.symm

theorem placement_ne_none_of_some (toLowerCase : String → String) (llm : Option LlmMap)
    (ps : List Process) (cat : Buckets) (h : categorizeProcesses toLowerCase ps llm = some cat)
    (p : Process) (hp : p ∈ ps) : placement toLowerCase llm p ≠ none := by
  intro hn
  have := placeAll_none_of_mem toLowerCase llm ps emptyBuckets ⟨p, hp, hn⟩
  unfold categorizeProcesses at h
  rw [this] at h
  cases h

theorem sum_filter_lengths (pl : Process → Option Category) (ps : List Process)
    (h : ∀ p ∈ ps, pl p ≠ none) :
    (Category.all.map (fun c => (ps.filter (fun p => decide (pl p = some c))).length)).sum
      = ps.length := by
  induction ps with
  | nil => simp [Category.all]
  | cons p rest ih =>
    have ih' := ih (fun q hq => h q (List.mem_cons_of_mem _ hq))
    cases hp : pl p with
    | none => exact absurd hp (h p (by simp))
    | some c0 =>
      simp only [Category.all, List.map, List.sum_cons, List.sum_nil, List.filter_cons, hp,
        Option.some.injEq, List.length_cons] at ih' ⊢
      cases c0 <;> simp <;> omega

/-- Whenever `categorizeProcesses` returns, its buckets partition the list: the
bucket sizes sum to the number of processes and every process of the list is in
exactly one bucket. -/
theorem categorizeProcesses_partition (toLowerCase : String → String) (llm : Option LlmMap)
    (ps : List Process) (cat : Buckets) (h : categorizeProcesses toLowerCase ps llm = some cat) :
    (Category.all.map (fun c => (cat c).length)).sum = ps.length ∧
      ∀ p ∈ ps, ∃ c, p ∈ cat c ∧ ∀ c', p ∈ cat c' → c' = c := by
  have hne := placement_ne_none_of_some toLowerCase llm ps cat h
  have hcat : cat = fun c => ps.filter (fun p => decide (placement toLowerCase llm p = some c)) :=
    funext (categorizeProcesses_some toLowerCase llm ps cat h)
  constructor
  · rw [hcat]
    exact sum_filter_lengths (placement toLowerCase llm) ps hne
  · intro p hp
    cases hpl : placement toLowerCase llm p with
    | none => exact absurd hpl (hne p hp)
    | some c0 =>
      refine ⟨c0, ?_, ?_⟩
      · rw [hcat]; simp [List.mem_filter, hp, hpl]
      · intro c' hc'
        rw [hcat] at hc'
        simp only [List.mem_filter, hpl, decide_eq_true_eq, Option.some.injEq] at hc'
        exact hc'.2.symm

/-- Whenever `generateProcessSummary` returns, its per-category counts sum to
`totalProcesses`. -/
theorem generateProcessSummary_counts (toLowerCase : String → String) (llm : Option LlmMap)
    (ps : List Process) (s : Summary) (h : generateProcessSummary toLowerCase ps llm = some s) :
    (Category.all.map (fun c => (s.categories c).count)).sum = s.totalProcesses := by
  unfold generateProcessSummary at h
  cases hc : categorizeProcesses toLowerCase ps llm with
  | none => rw [hc] at h; cases h
  | some cat =>
    rw [hc] at h
    simp only [Option.some.injEq] at h
    subst h
    exact (categorizeProcesses_partition toLowerCase llm ps cat hc).1

/-- The call `categorizeProcesses` returns exactly when no process without a
keyword match has an LLM category naming an inherited member. -/
theorem categorizeProcesses_isSome_iff (toLowerCase : String → String) (llm : Option LlmMap)
    (ps : List Process) :
    (categorizeProcesses toLowerCase ps llm).isSome = true ↔
      ∀ p ∈ ps, placement toLowerCase llm p ≠ none := by
  constructor
  · intro h p hp
    obtain ⟨cat, hcat⟩ := Option.isSome_iff_exists.mp h
    exact placement_ne_none_of_some toLowerCase llm ps cat hcat p hp
  · intro h
    obtain ⟨cat, hcat⟩ := placeAll_isSome toLowerCase llm ps emptyBuckets h
    exact Option.isSome_iff_exists.mpr ⟨cat, hcat⟩

/-! ## Lemmas on the loop of `runLlmAnalysis` -/

theorem runLoop_succ (toLowerCase : String → String) (svc : Service) (ps : List Process)
    (N : Int) (fuel : Nat) (st : LoopState) :
    runLoop toLowerCase svc ps N (fuel + 1) st =
      if st.iteration ≤ N then
        if st.otherProcesses.length ≤ 10 then { state := st, exit := Exit.converged }
        else if (svc st.calls.length (unknownProcessObjs ps st.otherProcesses)).categorizations.length
            = 0 then
          { state := { st with calls := st.calls ++ [unknownProcessObjs ps st.otherProcesses] }
            exit := Exit.stalled }
        else
          match generateProcessSummary toLowerCase ps
              (some (st.allLlmCategorizations.spread
                (svc st.calls.length (unknownProcessObjs ps st.otherProcesses)).categorizations)) with
          | none =>
            { state :=
                { st with
                  allLlmCategorizations := st.allLlmCategorizations.spread
                    (svc st.calls.length (unknownProcessObjs ps st.otherProcesses)).categorizations
                  allLlmDetails := st.allLlmDetails.spread
                    (svc st.calls.length (unknownProcessObjs ps st.otherProcesses)).details
                  calls := st.calls ++ [unknownProcessObjs ps st.otherProcesses] }
              exit := Exit.threw }
          | some processSummary =>
            runLoop toLowerCase svc ps N fuel
              { iteration := st.iteration + 1
                processSummary := processSummary
                allLlmCategorizations := st.allLlmCategorizations.spread
                  (svc st.calls.length (unknownProcessObjs ps st.otherProcesses)).categorizations
                allLlmDetails := st.allLlmDetails.spread
                  (svc st.calls.length (unknownProcessObjs ps st.otherProcesses)).details
                calls := st.calls ++ [unknownProcessObjs ps st.otherProcesses] }
      else { state := st, exit := Exit.exhausted } := by
  rfl

theorem runLoop_calls_extend (toLowerCase : String → String) (svc : Service) (ps : List Process)
    (N : Int) : ∀ (fuel : Nat) (st : LoopState),
      ∃ more, (runLoop toLowerCase svc ps N fuel st).state.calls = st.calls ++ more ∧
        more.length ≤ (N + 1 - st.iteration).toNat := by
  intro fuel
  induction fuel with
  | zero => intro st; exact ⟨[], by simp [runLoop]⟩
  | succ fuel ih =>
    intro st
    rw [runLoop_succ]
    split_ifs with h1 h2 h3
    · exact ⟨[], by simp⟩
    · refine ⟨[unknownProcessObjs ps st.otherProcesses], rfl, ?_⟩
      simp only [List.length_singleton]
      omega
    · split
      · refine ⟨[unknownProcessObjs ps st.otherProcesses], rfl, ?_⟩
        simp only [List.length_singleton]
        omega
      · rename_i s1 _
        obtain ⟨more, hmore, hlen⟩ := ih
          { iteration := st.iteration + 1
            processSummary := s1
            allLlmCategorizations := st.allLlmCategorizations.spread
              (svc st.calls.length (unknownProcessObjs ps st.otherProcesses)).categorizations
            allLlmDetails := st.allLlmDetails.spread
              (svc st.calls.length (unknownProcessObjs ps st.otherProcesses)).details
            calls := st.calls ++ [unknownProcessObjs ps st.otherProcesses] }
        refine ⟨unknownProcessObjs ps st.otherProcesses :: more, ?_, ?_⟩
        · rw [hmore]; simp
        · simp only [List.length_cons] at hlen ⊢
          omega
    · exact ⟨[], by simp⟩

theorem runLoop_exit (toLowerCase : String → String) (svc : Service) (ps : List Process)
    (N : Int) : ∀ (fuel : Nat) (st : LoopState), (N + 1 - st.iteration).toNat < fuel →
      (runLoop toLowerCase svc ps N fuel st).exit ≠ Exit.outOfFuel := by
  intro fuel
  induction fuel with
  | zero => intro st h; omega
  | succ fuel ih =>
    intro st h
    rw [runLoop_succ]
    split_ifs with h1 h2 h3
    · simp
    · simp
    · split
      · simp
      · apply ih
        simp only
        omega
    · simp

theorem runLoop_fuel (toLowerCase : String → String) (svc : Service) (ps : List Process)
    (N : Int) : ∀ (fuel : Nat) (st : LoopState), (N + 1 - st.iteration).toNat < fuel →
      ∀ k, runLoop toLowerCase svc ps N (fuel + k) st = runLoop toLowerCase svc ps N fuel st := by
  intro fuel
  induction fuel with
  | zero => intro st h; omega
  | succ fuel ih =>
    intro st h k
    rw [Nat.add_right_comm, runLoop_succ, runLoop_succ]
    split_ifs with h1 h2 h3
    · rfl
    · rfl
    · split
      · rfl
      · apply ih
        simp only
        omega
    · rfl

theorem placement_of_no_keyword (toLowerCase : String → String) (p : Process)
    (hk : keywordCategory toLowerCase p = none) :
    placement toLowerCase none p = some Category.other := by
  unfold placement
  rw [hk]

theorem placement_llm_of_no_keyword (toLowerCase : String → String) (m : LlmMap) (p : Process)
    (hk : keywordCategory toLowerCase p = none)
    (hok : ∀ v, m.get (toLowerCase p.name) = some v → catMember v ≠ CatMember.inherited) :
    placement toLowerCase (some m) p ≠ none ∧
      (placement toLowerCase (some m) p = some Category.other ↔
        classifies toLowerCase m p = false) := by
  unfold placement classifies
  rw [hk]
  cases hg : m.get (toLowerCase p.name) with
  | none => simp [hg]
  | some v =>
    have hv := hok v hg
    cases hc : catMember v with
    | bucket c => simp [hg, hc]
    | inherited => exact absurd hc hv
    | undefined => simp [hg, hc]

theorem unknownProcessObjs_names (ps : List Process) :
    unknownProcessObjs ps (ps.map (fun p => p.name)) = ps := by
  unfold unknownProcessObjs
  rw [List.filter_eq_self]
  intro a ha
  simp only [decide_eq_true_eq, List.mem_map]
  exact ⟨a, ha, rfl⟩

theorem summary_without_llm (toLowerCase : String → String) (ps : List Process)
    (hkw : ∀ p ∈ ps, keywordCategory toLowerCase p = none) :
    ∃ s0, generateProcessSummary toLowerCase ps none = some s0 ∧
      (s0.categories Category.other).processes = ps.map (fun p => p.name) := by
  obtain ⟨cat, hcat⟩ := placeAll_isSome toLowerCase none ps emptyBuckets
    (fun p _ => placement_none_llm_ne_none toLowerCase p)
  have hother := categorizeProcesses_some toLowerCase none ps cat hcat Category.other
  have hall : ps.filter (fun p => decide (placement toLowerCase none p = some Category.other))
      = ps := by
    rw [List.filter_eq_self]
    intro a ha
    simp [placement_of_no_keyword toLowerCase a (hkw a ha)]
  rw [hall] at hother
  refine ⟨summarize ps cat, ?_, ?_⟩
  · unfold generateProcessSummary
    rw [show categorizeProcesses toLowerCase ps none = some cat from hcat]
  · simp only [summarize, hother]

theorem summary_with_llm (toLowerCase : String → String) (ps : List Process) (m : LlmMap)
    (hkw : ∀ p ∈ ps, keywordCategory toLowerCase p = none)
    (hok : ∀ p ∈ ps, ∀ v, m.get (toLowerCase p.name) = some v →
      catMember v ≠ CatMember.inherited) :
    ∃ s1, generateProcessSummary toLowerCase ps (some m) = some s1 ∧
      (s1.categories Category.other).count
        = ps.length - (ps.filter (classifies toLowerCase m)).length ∧
      (s1.categories Category.other).processes.length
        = ps.length - (ps.filter (classifies toLowerCase m)).length := by
  obtain ⟨cat, hcat⟩ := placeAll_isSome toLowerCase (some m) ps emptyBuckets
    (fun p hp => (placement_llm_of_no_keyword toLowerCase m p (hkw p hp) (hok p hp)).1)
  have hother := categorizeProcesses_some toLowerCase (some m) ps cat hcat Category.other
  have hfilter : ps.filter (fun p => decide (placement toLowerCase (some m) p = some Category.other))
      = ps.filter (fun p => ! classifies toLowerCase m p) := by
    apply List.filter_congr
    intro a ha
    have := (placement_llm_of_no_keyword toLowerCase m a (hkw a ha) (hok a ha)).2
    by_cases hcl : classifies toLowerCase m a = false
    · simp [hcl, this.mpr hcl]
    · have hne : ¬ placement toLowerCase (some m) a = some Category.other :=
        fun h => hcl (this.mp h)
      simp only [Bool.not_eq_false] at hcl
      simp [hcl, hne]
  rw [hfilter] at hother
  have hlen := List.length_eq_length_filter_add (l := ps) (classifies toLowerCase m)
  refine ⟨summarize ps cat, ?_, ?_, ?_⟩
  · unfold generateProcessSummary
    rw [show categorizeProcesses toLowerCase ps (some m) = some cat from hcat]
  · simp only [summarize, hother]
    omega
  · simp only [summarize, hother, List.length_map]
    omega

theorem batch_covers_other (toLowerCase : String → String) (llm : Option LlmMap)
    (ps : List Process) (s : Summary) (h : generateProcessSummary toLowerCase ps llm = some s) :
    (s.categories Category.other).processes.length
      ≤ (unknownProcessObjs ps (s.categories Category.other).processes).length := by
  unfold generateProcessSummary at h
  cases hc : categorizeProcesses toLowerCase ps llm with
  | none => rw [hc] at h; cases h
  | some cat =>
    rw [hc] at h
    simp only [Option.some.injEq] at h
    subst h
    have hother := categorizeProcesses_some toLowerCase llm ps cat hc Category.other
    simp only [summarize, List.length_map, unknownProcessObjs]
    have hsub : List.Sublist (cat Category.other)
        (ps.filter (fun p => decide (p.name ∈ (cat Category.other).map (fun q => q.name)))) := by
      have hmem : ∀ p ∈ cat Category.other,
          decide (p.name ∈ (cat Category.other).map (fun q => q.name)) = true := by
        intro p hp
        simp only [decide_eq_true_eq, List.mem_map]
        exact ⟨p, hp, rfl⟩
      have h1 : List.Sublist (cat Category.other) ps := by
        rw [hother]; exact List.filter_sublist _
      have h2 := List.Sublist.filter
        (fun p => decide (p.name ∈ (cat Category.other).map (fun q => q.name))) h1
      rwa [List.filter_eq_self.mpr hmem] at h2
    exact hsub.length_le

/-! ## Lemmas on `LlmCache` -/

theorem JsMap.get_cons_self {β : Type} (k : String) (v : β) (rest : JsMap β) :
    JsMap.get ((k, v) :: rest) k = some v := by
  simp [JsMap.get]

theorem isSuffixOf_json (key : String) :
    ".json".data.isSuffixOf (key ++ ".json").data = true := by
  rw [List.isSuffixOf_iff_suffix, String.data_append]
  exact List.suffix_append _ _

/-- For a record that does carry a callable `cwd`, into an existing directory,
`set` followed by `get` at the same time returns the data stored. -/
theorem get_set_of_callable_cwd (toLowerCase : String → String)
    (hash : String → String → String → String) (cache : LlmCache) (store : FileSystem)
    (now : Int) (p : Process) (data dir : String) (files : JsMap FileContent)
    (henabled : cache.enabled = true) (httl : 0 ≤ cache.ttlHours) (hcwd : p.cwd = some dir)
    (hdir : store (pathJoin dir cache.cacheDir) = some files) :
    (LlmCache.get toLowerCase hash cache
      (LlmCache.set toLowerCase hash cache store now p data) now p).1 = some data := by
  have hage : ¬ (0 > cache.ttlHours * 60 * 60 * 1000) := by omega
  simp [LlmCache.get, LlmCache.set, henabled, hcwd, writeFile, hdir, JsMap.get_cons_self, hage]

/-- For a record that does carry a callable `cwd`, `get` on a stored entry
returns the data unless `now - timestamp > ttlHours * 3600000`, in which case it
returns `null` and unlinks the file. -/
theorem get_entry_of_callable_cwd (toLowerCase : String → String)
    (hash : String → String → String → String) (cache : LlmCache) (store : FileSystem)
    (now timestamp : Int) (p : Process) (name data dir : String) (files : JsMap FileContent)
    (henabled : cache.enabled = true) (hcwd : p.cwd = some dir)
    (hdir : store (pathJoin dir cache.cacheDir) = some files)
    (hfile : files.get (LlmCache.generateKey toLowerCase hash p ++ ".json")
      = some (FileContent.entry timestamp name data)) :
    LlmCache.get toLowerCase hash cache store now p =
      if now - timestamp > cache.ttlHours * 3600000 then
        (none, unlinkFile store (pathJoin dir cache.cacheDir)
          (LlmCache.generateKey toLowerCase hash p ++ ".json"))
      else (some data, store) := by
  have h : cache.ttlHours * 60 * 60 * 1000 = cache.ttlHours * 3600000 := by ring
  simp [LlmCache.get, henabled, hcwd, hdir, hfile, h]

/-! ## Lemmas on `categorizeUnknownProcesses`, `NetworkAnalyzer` and `getMultiple` -/

theorem JsMap.mem_keys_set {β : Type} (m : JsMap β) (key k : String) (v : β) :
    k ∈ (m.set key v).keys ↔ k = key ∨ k ∈ m.keys := by
  induction m with
  | nil => simp [JsMap.set, JsMap.keys]
  | cons hd rest ih =>
    obtain ⟨k0, w⟩ := hd
    unfold JsMap.keys at ih ⊢
    by_cases h : k0 = key
    · subst h
      simp [JsMap.set]
    · simp only [JsMap.set, h, if_false, List.map_cons, List.mem_cons, ih]
      tauto

theorem JsMap.get_set {β : Type} (m : JsMap β) (key k : String) (v : β) :
    (m.set key v).get k = if key = k then some v else m.get k := by
  induction m with
  | nil => simp [JsMap.set, JsMap.get]
  | cons hd rest ih =>
    obtain ⟨k0, w⟩ := hd
    by_cases h : k0 = key
    · subst h
      by_cases h2 : k0 = k <;> simp [JsMap.set, JsMap.get, h2]
    · by_cases h2 : k0 = k
      · subst h2
        simp [JsMap.set, JsMap.get, h, Ne.symm h]
      · simp [JsMap.set, JsMap.get, h, h2, ih]

theorem JsMap.map_set {β γ : Type} (f : β → γ) (m : JsMap β) (key : String) (v : β) :
    (m.set key v).map (fun e => (e.1, f e.2)) = JsMap.set (m.map (fun e => (e.1, f e.2))) key (f v) := by
  induction m with
  | nil => simp [JsMap.set]
  | cons hd rest ih =>
    obtain ⟨k0, w⟩ := hd
    by_cases h : k0 = key
    · simp [JsMap.set, h]
    · simp [JsMap.set, h, ih]

theorem keepEntry_cases (toLowerCase : String → String) (stringToNumber : String → Option ℚ)
    (maps maps' : ResultMaps) (e : RawEntry)
    (h : keepEntry toLowerCase stringToNumber maps (some e) = some maps') :
    (maps' = maps ∧
        (e.accepted stringToNumber = false ∨
          ∃ s, e.process = JsVal.str s ∧ toLowerCase s = "__proto__")) ∨
      ∃ s, e.accepted stringToNumber = true ∧ e.process = JsVal.str s ∧
        toLowerCase s ≠ "__proto__" ∧
        maps' = (maps.1.set (toLowerCase s) e.category,
          maps.2.set (toLowerCase s)
            { category := e.category
              confidence := e.confidence
              reason := e.reason.orElse (JsVal.str "No reason provided")
              threatLevel := e.threat_level.orElse (JsVal.str "unknown") }) := by
  unfold keepEntry at h
  by_cases hacc : e.accepted stringToNumber = true
  · simp only [hacc, if_true] at h
    cases hp : e.process with
    | str s =>
      rw [hp] at h
      simp only at h
      by_cases hk : toLowerCase s = "__proto__"
      · simp only [hk, if_true, Option.some.injEq] at h
        exact Or.inl ⟨h.symm, Or.inr ⟨s, rfl, hk⟩⟩
      · simp only [hk, if_false, Option.some.injEq] at h
        exact Or.inr ⟨s, hacc, rfl, hk, h.symm⟩
    | undefined => rw [hp] at h; simp at h
    | null => rw [hp] at h; simp at h
    | bool b => rw [hp] at h; simp at h
    | num q => rw [hp] at h; simp at h
    | object n t => rw [hp] at h; simp at h
  · simp only [hacc, Bool.false_eq_true, if_false, Option.some.injEq] at h
    exact Or.inl ⟨h.symm, Or.inl (by simpa using hacc)⟩

theorem collectEntries_keys (toLowerCase : String → String) (stringToNumber : String → Option ℚ)
    (entries : List (Option RawEntry)) :
    ∀ maps maps', collectEntries toLowerCase stringToNumber maps entries = some maps' →
      ∀ k, (k ∈ maps'.1.keys ↔
          k ∈ maps.1.keys ∨ StoredUnder toLowerCase stringToNumber entries k) ∧
        (k ∈ maps'.2.keys ↔
          k ∈ maps.2.keys ∨ StoredUnder toLowerCase stringToNumber entries k) := by
  induction entries with
  | nil =>
    intro maps maps' h k
    simp only [collectEntries, Option.some.injEq] at h
    subst h
    simp [StoredUnder]
  | cons cat rest ih =>
    intro maps maps' h k
    simp only [collectEntries] at h
    cases hk : keepEntry toLowerCase stringToNumber maps cat with
    | none => rw [hk] at h; cases h
    | some mid =>
      rw [hk] at h
      simp only at h
      have hrest := ih mid maps' h k
      cases cat with
      | none => simp [keepEntry] at hk
      | some e =>
        have hsplit : StoredUnder toLowerCase stringToNumber (some e :: rest) k ↔
            (e.accepted stringToNumber = true ∧ ∃ s, e.process = JsVal.str s ∧
              toLowerCase s = k ∧ k ≠ "__proto__") ∨
            StoredUnder toLowerCase stringToNumber rest k := by
          unfold StoredUnder
          constructor
          · rintro ⟨e', s, hmem, hacc, hp, hl, hne⟩
            rcases List.mem_cons.mp hmem with h1 | h1
            · cases h1
              exact Or.inl ⟨hacc, s, hp, hl, hne⟩
            · exact Or.inr ⟨e', s, h1, hacc, hp, hl, hne⟩
          · rintro (⟨hacc, s, hp, hl, hne⟩ | ⟨e', s, hmem, hacc, hp, hl, hne⟩)
            · exact ⟨e, s, List.mem_cons_self _ _, hacc, hp, hl, hne⟩
            · exact ⟨e', s, List.mem_cons_of_mem _ hmem, hacc, hp, hl, hne⟩
        rw [hsplit, hrest.1, hrest.2]
        rcases keepEntry_cases toLowerCase stringToNumber maps mid e hk with
          ⟨hmid, hno⟩ | ⟨s, hacc, hp, hne, hmid⟩
        · subst hmid
          have hnot : ¬ (e.accepted stringToNumber = true ∧ ∃ s, e.process = JsVal.str s ∧
              toLowerCase s = k ∧ k ≠ "__proto__") := by
            rintro ⟨hacc, s, hp, hl, hne⟩
            rcases hno with h0 | ⟨s', hp', hl'⟩
            · rw [hacc] at h0; cases h0
            · rw [hp] at hp'
              cases hp'
              exact hne (hl ▸ hl')
          simp [hnot]
        · subst hmid
          have hiff : (e.accepted stringToNumber = true ∧ ∃ s, e.process = JsVal.str s ∧
              toLowerCase s = k ∧ k ≠ "__proto__") ↔ k = toLowerCase s := by
            constructor
            · rintro ⟨_, s', hp', hl, _⟩
              rw [hp] at hp'
              cases hp'
              exact hl.symm
            · intro hk'
              exact ⟨hacc, s, hp, hk'.symm, hk' ▸ hne⟩
          simp only [JsMap.mem_keys_set, hiff]
          constructor
          · constructor
            · rintro ((h1 | h1) | h1)
              · exact Or.inr (Or.inl h1)
              · exact Or.inl h1
              · exact Or.inr (Or.inr h1)
            · rintro (h1 | h1 | h1)
              · exact Or.inl (Or.inr h1)
              · exact Or.inl (Or.inl h1)
              · exact Or.inr h1
          · constructor
            · rintro ((h1 | h1) | h1)
              · exact Or.inr (Or.inl h1)
              · exact Or.inl h1
              · exact Or.inr (Or.inr h1)
            · rintro (h1 | h1 | h1)
              · exact Or.inl (Or.inr h1)
              · exact Or.inl (Or.inl h1)
              · exact Or.inr h1

theorem collectEntries_aligned (toLowerCase : String → String)
    (stringToNumber : String → Option ℚ) (entries : List (Option RawEntry)) :
    ∀ maps maps', collectEntries toLowerCase stringToNumber maps entries = some maps' →
      Aligned maps → Aligned maps' := by
  induction entries with
  | nil =>
    intro maps maps' h ha
    simp only [collectEntries, Option.some.injEq] at h
    exact h ▸ ha
  | cons cat rest ih =>
    intro maps maps' h ha
    simp only [collectEntries] at h
    cases hk : keepEntry toLowerCase stringToNumber maps cat with
    | none => rw [hk] at h; cases h
    | some mid =>
      rw [hk] at h
      simp only at h
      apply ih mid maps' h
      cases cat with
      | none => simp [keepEntry] at hk
      | some e =>
        rcases keepEntry_cases toLowerCase stringToNumber maps mid e hk with
          ⟨hmid, _⟩ | ⟨s, _, _, _, hmid⟩
        · exact hmid ▸ ha
        · subst hmid
          unfold Aligned at ha ⊢
          simp only
          rw [ha]
          exact (JsMap.map_set (fun d : Detail => d.category) maps.2 (toLowerCase s)
            { category := e.category
              confidence := e.confidence
              reason := e.reason.orElse (JsVal.str "No reason provided")
              threatLevel := e.threat_level.orElse (JsVal.str "unknown") }).symm

theorem Aligned.keys_eq (maps : ResultMaps) (h : Aligned maps) : maps.1.keys = maps.2.keys := by
  unfold Aligned at h
  rw [h]
  simp [JsMap.keys]

theorem Aligned.get_eq (maps : ResultMaps) (h : Aligned maps) (k : String) :
    maps.1.get k = (maps.2.get k).map (fun d => d.category) := by
  unfold Aligned at h
  rw [h]
  generalize maps.2 = m
  induction m with
  | nil => simp [JsMap.get]
  | cons hd rest ih =>
    obtain ⟨k0, d⟩ := hd
    by_cases h0 : k0 = k <;> simp [JsMap.get, h0, ih]

theorem collectEntries_details (toLowerCase : String → String)
    (stringToNumber : String → Option ℚ) (entries : List (Option RawEntry)) :
    ∀ maps maps', collectEntries toLowerCase stringToNumber maps entries = some maps' →
      ∀ k d, maps'.2.get k = some d →
        maps.2.get k = some d ∨
          ∃ e, some e ∈ entries ∧ e.accepted stringToNumber = true ∧ d = detailOf e := by
  induction entries with
  | nil =>
    intro maps maps' h k d hd
    simp only [collectEntries, Option.some.injEq] at h
    exact Or.inl (h ▸ hd)
  | cons cat rest ih =>
    intro maps maps' h k d hd
    simp only [collectEntries] at h
    cases hk : keepEntry toLowerCase stringToNumber maps cat with
    | none => rw [hk] at h; cases h
    | some mid =>
      rw [hk] at h
      simp only at h
      rcases ih mid maps' h k d hd with h1 | ⟨e, hmem, hacc, hde⟩
      · cases cat with
        | none => simp [keepEntry] at hk
        | some e =>
          rcases keepEntry_cases toLowerCase stringToNumber maps mid e hk with
            ⟨hmid, _⟩ | ⟨s, hacc, _, _, hmid⟩
          · exact Or.inl (hmid ▸ h1)
          · subst hmid
            simp only [JsMap.get_set] at h1
            by_cases hks : toLowerCase s = k
            · rw [if_pos hks] at h1
              exact Or.inr ⟨e, List.mem_cons_self _ _, hacc, (Option.some.inj h1).symm⟩
            · rw [if_neg hks] at h1
              exact Or.inl h1
      · exact Or.inr ⟨e, List.mem_cons_of_mem _ hmem, hacc, hde⟩

theorem accepted_greaterThan50 (stringToNumber : String → Option ℚ) (e : RawEntry)
    (h : e.accepted stringToNumber = true) : greaterThan50 stringToNumber e.confidence = true := by
  unfold RawEntry.accepted at h
  simp only [Bool.and_eq_true] at h
  exact h.2

theorem categorizeUnknownProcesses_maps (toLowerCase toUpperCase : String → String)
    (stringToNumber : String → Option ℚ) (parseJson : String → ParseOutcome)
    (generate : List ProcessDetail → Option String) (batch : List Process)
    (cats : JsMap JsVal) (details : JsMap Detail)
    (h : categorizeUnknownProcesses toLowerCase toUpperCase stringToNumber parseJson generate batch
      = CategorizeResult.maps cats details) :
    (cats = [] ∧ details = []) ∨
      ∃ entries, collectEntries toLowerCase stringToNumber ([], []) entries
        = some (cats, details) := by
  unfold categorizeUnknownProcesses at h
  split_ifs at h
  simp only at h
  split at h
  · simp only [CategorizeResult.maps.injEq] at h; exact Or.inl ⟨h.1.symm, h.2.symm⟩
  · split at h
    · simp only [CategorizeResult.maps.injEq] at h; exact Or.inl ⟨h.1.symm, h.2.symm⟩
    · split at h
      · simp only [CategorizeResult.maps.injEq] at h; exact Or.inl ⟨h.1.symm, h.2.symm⟩
      · simp only [CategorizeResult.maps.injEq] at h; exact Or.inl ⟨h.1.symm, h.2.symm⟩
      · rename_i l _
        split at h
        · simp only [CategorizeResult.maps.injEq] at h; exact Or.inl ⟨h.1.symm, h.2.symm⟩
        · rename_i maps hm
          simp only [CategorizeResult.maps.injEq] at h
          refine Or.inr ⟨l, ?_⟩
          rw [hm, ← h.1, ← h.2]

theorem dropWhile_ne_of_not_mem (c : Char) (pre rest : List Char) (h : c ∉ pre) :
    (pre ++ c :: rest).dropWhile (fun x => decide (x ≠ c)) = c :: rest := by
  induction pre with
  | nil => simp
  | cons a pre ih =>
    have ha : a ≠ c := fun e => h (e ▸ List.mem_cons_self _ _)
    have hpre : c ∉ pre := fun e => h (List.mem_cons_of_mem _ e)
    rw [List.cons_append, List.dropWhile_cons_of_pos (by simpa using ha)]
    exact ih hpre

theorem dropWhile_ne_split (c : Char) (txt : List Char) :
    (txt.dropWhile (fun x => decide (x ≠ c)) = [] ∧ c ∉ txt) ∨
      ∃ pre rest, txt = pre ++ c :: rest ∧ c ∉ pre ∧
        txt.dropWhile (fun x => decide (x ≠ c)) = c :: rest := by
  induction txt with
  | nil => exact Or.inl ⟨rfl, by simp⟩
  | cons a t ih =>
    by_cases ha : a = c
    · subst ha
      exact Or.inr ⟨[], t, rfl, by simp, by simp⟩
    · rcases ih with ⟨h1, h2⟩ | ⟨pre, rest, h1, h2, h3⟩
      · refine Or.inl ⟨?_, ?_⟩
        · rw [List.dropWhile_cons_of_pos (by simpa using ha)]
          exact h1
        · simp only [List.mem_cons, not_or]
          exact ⟨fun e => ha e.symm, h2⟩
      · refine Or.inr ⟨a :: pre, rest, by simp [h1], ?_, ?_⟩
        · simp only [List.mem_cons, not_or]
          exact ⟨fun e => ha e.symm, h2⟩
        · rw [List.dropWhile_cons_of_pos (by simpa using ha)]
          exact h3

theorem extractSpanChars_iff (txt span : List Char) :
    extractSpanChars txt = some span ↔
      ∃ pre mid post, txt = pre ++ ('{' :: mid) ++ ('}' :: post) ∧
        span = '{' :: mid ++ ['}'] ∧ '{' ∉ pre ∧ '}' ∉ post := by
  constructor
  · intro h
    unfold extractSpanChars at h
    rcases dropWhile_ne_split '{' txt with ⟨h1, _⟩ | ⟨pre, rest, htxt, hpre, h1⟩
    · rw [h1] at h; cases h
    · rw [h1] at h
      simp only at h
      rcases dropWhile_ne_split '}' rest.reverse with ⟨h2, _⟩ | ⟨post, l, hrev, hpost, h2⟩
      · rw [h2] at h; cases h
      · rw [h2] at h
        simp only [Option.some.injEq] at h
        have hrest : rest = l.reverse ++ '}' :: post.reverse := by
          have := congrArg List.reverse hrev
          simpa using this
        refine ⟨pre, l.reverse, post.reverse, ?_, ?_, hpre, ?_⟩
        · rw [htxt, hrest]; simp
        · rw [← h]; simp
        · simpa using hpost
  · rintro ⟨pre, mid, post, htxt, hspan, hpre, hpost⟩
    unfold extractSpanChars
    have h1 : txt.dropWhile (fun x => decide (x ≠ '{')) = '{' :: (mid ++ '}' :: post) := by
      rw [htxt]
      have := dropWhile_ne_of_not_mem '{' pre (mid ++ '}' :: post) hpre
      simpa using this
    rw [h1]
    simp only
    have h2 : (mid ++ '}' :: post).reverse.dropWhile (fun x => decide (x ≠ '}'))
        = '}' :: mid.reverse := by
      have := dropWhile_ne_of_not_mem '}' post.reverse mid.reverse (by simpa using hpost)
      simpa using this
    rw [h2, hspan]
    simp

/-! ## Lemmas on numbers and the sort of `categorizeUnknownProcesses` -/

theorem bitLengthAux_succ (k m : Nat) :
    bitLengthAux (k + 1) m
      = if m < 2 ^ 2 ^ k then bitLengthAux k m else 2 ^ k + bitLengthAux k (m / 2 ^ 2 ^ k) := by
  rw [bitLengthAux]
  simp only [Nat.one_shiftLeft, Nat.shiftRight_eq_div_pow]

theorem bitLengthAux_lower (k : Nat) : ∀ m, 0 < m → 2 ^ (bitLengthAux k m - 1) ≤ m := by
  induction k with
  | zero =>
    intro m hm
    simp [bitLengthAux, Nat.pos_iff_ne_zero.mp hm]
    omega
  | succ k ih =>
    intro m hm
    rw [bitLengthAux_succ]
    split_ifs with h
    · exact ih m hm
    · have hle : 2 ^ 2 ^ k ≤ m := not_lt.mp h
      have hq : 0 < m / 2 ^ 2 ^ k := Nat.div_pos hle (by positivity)
      have hih := ih _ hq
      have hpos : 0 < 2 ^ k := by positivity
      rcases Nat.eq_zero_or_pos (bitLengthAux k (m / 2 ^ 2 ^ k)) with h0 | h0
      · rw [h0]
        exact le_trans (Nat.pow_le_pow_right (by norm_num) (by omega)) hle
      · have heq : 2 ^ k + bitLengthAux k (m / 2 ^ 2 ^ k) - 1
            = 2 ^ k + (bitLengthAux k (m / 2 ^ 2 ^ k) - 1) := by omega
        rw [heq, pow_add]
        calc 2 ^ 2 ^ k * 2 ^ (bitLengthAux k (m / 2 ^ 2 ^ k) - 1)
            ≤ 2 ^ 2 ^ k * (m / 2 ^ 2 ^ k) := Nat.mul_le_mul_left _ hih
          _ ≤ m := Nat.mul_div_le m _

theorem bitLengthAux_upper (k : Nat) : ∀ m, m < 2 ^ 2 ^ k → m < 2 ^ bitLengthAux k m := by
  induction k with
  | zero =>
    intro m hm
    have : m = 0 ∨ m = 1 := by simp at hm; omega
    rcases this with h | h <;> simp [h, bitLengthAux]
  | succ k ih =>
    intro m hm
    rw [bitLengthAux_succ]
    split_ifs with h
    · exact ih m h
    · have hlt : m / 2 ^ 2 ^ k < 2 ^ 2 ^ k := by
        rw [Nat.div_lt_iff_lt_mul (by positivity), ← pow_add]
        have : 2 ^ (k + 1) = 2 ^ k + 2 ^ k := by ring
        rwa [this] at hm
      have hih := ih _ hlt
      rw [pow_add]
      calc m < 2 ^ 2 ^ k * (m / 2 ^ 2 ^ k + 1) := Nat.lt_mul_div_succ m (by positivity)
        _ ≤ 2 ^ 2 ^ k * 2 ^ bitLengthAux k (m / 2 ^ 2 ^ k) := Nat.mul_le_mul_left _ hih

/-- The bit length is no more than the number of bits of `m`. -/
theorem bitLength_lower (m : Nat) (hm : 0 < m) : 2 ^ (bitLength m - 1) ≤ m :=
  bitLengthAux_lower 12 m hm

/-- The bit length is no less than the number of bits of `m`, below `2 ^ 4096`. -/
theorem bitLength_upper (m : Nat) (hlt : m < 2 ^ 2 ^ 12) : m < 2 ^ bitLength m :=
  bitLengthAux_upper 12 m hlt

/-- The rounding in terms of quotient and remainder. -/
theorem roundMagnitude_eq (m : Nat) :
    roundMagnitude m =
      if 2 * (m % 2 ^ (bitLength m - 53)) < 2 ^ (bitLength m - 53) ∨
          (2 * (m % 2 ^ (bitLength m - 53)) = 2 ^ (bitLength m - 53) ∧
            m / 2 ^ (bitLength m - 53) % 2 = 0)
      then m / 2 ^ (bitLength m - 53) * 2 ^ (bitLength m - 53)
      else (m / 2 ^ (bitLength m - 53) + 1) * 2 ^ (bitLength m - 53) := by
  have hr : m - m / 2 ^ (bitLength m - 53) * 2 ^ (bitLength m - 53)
      = m % 2 ^ (bitLength m - 53) := by
    have := Nat.div_add_mod m (2 ^ (bitLength m - 53))
    rw [Nat.mul_comm] at this
    omega
  simp only [roundMagnitude, Nat.one_shiftLeft, Nat.shiftRight_eq_div_pow, Nat.shiftLeft_eq, hr,
    Nat.one_mul]

theorem roundMagnitude_zero : roundMagnitude 0 = 0 := by decide

/-- Rounding takes no magnitude other than 0 to 0: there is no underflow on an
integer count of units. -/
theorem roundMagnitude_pos (m : Nat) (hm : 0 < m) : 0 < roundMagnitude m := by
  have hs : 2 ^ (bitLength m - 53) ≤ m :=
    le_trans (Nat.pow_le_pow_right (by norm_num) (by omega)) (bitLength_lower m hm)
  have hq : 0 < m / 2 ^ (bitLength m - 53) := Nat.div_pos hs (by positivity)
  rw [roundMagnitude_eq]
  split_ifs
  · exact Nat.mul_pos hq (by positivity)
  · exact Nat.mul_pos (by omega) (by positivity)

/-- A magnitude of at most 53 bits is a double and rounds to itself. -/
theorem roundMagnitude_of_lt (m : Nat) (hm : m < 2 ^ 53) : roundMagnitude m = m := by
  have hb : bitLength m - 53 = 0 := by
    rcases Nat.eq_zero_or_pos m with h0 | h0
    · subst h0; decide
    · have := bitLength_lower m h0
      have h1 : 2 ^ (bitLength m - 1) < 2 ^ 53 := lt_of_le_of_lt this hm
      have := (Nat.pow_lt_pow_iff_right (by norm_num : 1 < 2)).mp h1
      omega
  rw [roundMagnitude_eq, hb]
  simp [Nat.mod_one]

/-- The rounded magnitude is a multiple of `2 ^ s`, for `s` the number of bits in
excess of 53, its quotient is at most `2 ^ 53`, and it is within half of
`2 ^ s` of the magnitude: it is a double nearest to the exact value. -/
theorem roundMagnitude_nearest (m : Nat) (hlt : m < 2 ^ 2 ^ 12) :
    (∃ q, q ≤ 2 ^ 53 ∧ roundMagnitude m = q * 2 ^ (bitLength m - 53)) ∧
      2 * (roundMagnitude m - m) ≤ 2 ^ (bitLength m - 53) ∧
      2 * (m - roundMagnitude m) ≤ 2 ^ (bitLength m - 53) := by
  have hup := bitLength_upper m hlt
  have hq : m / 2 ^ (bitLength m - 53) < 2 ^ 53 := by
    rw [Nat.div_lt_iff_lt_mul (by positivity), ← pow_add]
    exact lt_of_lt_of_le hup (Nat.pow_le_pow_right (by norm_num) (by omega))
  have hdm := Nat.div_add_mod m (2 ^ (bitLength m - 53))
  have hr : m % 2 ^ (bitLength m - 53) < 2 ^ (bitLength m - 53) :=
    Nat.mod_lt _ (by positivity)
  rw [roundMagnitude_eq]
  generalize 2 ^ (bitLength m - 53) = P at *
  generalize m / P = q at *
  generalize m % P = r at *
  split_ifs with h
  · refine ⟨⟨q, le_of_lt hq, rfl⟩, ?_, ?_⟩
    · have : q * P = P * q := Nat.mul_comm _ _
      omega
    · have : q * P = P * q := Nat.mul_comm _ _
      omega
  · refine ⟨⟨q + 1, hq, rfl⟩, ?_, ?_⟩
    · have : (q + 1) * P = P * q + P := by ring
      omega
    · have : (q + 1) * P = P * q + P := by ring
      omega

/-- Values of the arithmetic: `0.1 + 0.2` is `0.30000000000000004`, which is
above `0.3`; `2 ^ 53 + 1` rounds to `2 ^ 53` and `2 ^ 53 + 3` to `2 ^ 53 + 4`
(ties to even); the least positive double is kept; the largest double added
to itself overflows; a difference of two infinities is `NaN`. -/
theorem JsNumber.arithmetic_values :
    (JsNumber.dyadic 3602879701896397 55).add (JsNumber.dyadic 3602879701896397 54)
        = JsNumber.dyadic 5404319552844596 54 ∧
      (JsNumber.dyadic 5404319552844596 54).le (JsNumber.dyadic 5404319552844595 54) = false ∧
      (9007199254740992 : JsNumber).add 1 = 9007199254740992 ∧
      (9007199254740992 : JsNumber).add 3 = (9007199254740992 : JsNumber).add 4 ∧
      ((9007199254740992 : JsNumber).add 4).sub 9007199254740992 = 4 ∧
      (JsNumber.dyadic 1 1074).sub (JsNumber.dyadic 1 1073) = JsNumber.finite (-1) ∧
      (JsNumber.finite ((1 <<< 2098 - 1 <<< 2045 : Nat) : Int)).add
          (JsNumber.finite ((1 <<< 2098 - 1 <<< 2045 : Nat) : Int)) = JsNumber.posInf ∧
      JsNumber.posInf.sub JsNumber.posInf = JsNumber.nan := by
  decide

/-- The rounded result is positive exactly when the exact result is. -/
theorem JsNumber.ofUnits_isPositive (n : Int) : (JsNumber.ofUnits n).isPositive = decide (0 < n) := by
  rcases lt_trichotomy n 0 with h | h | h
  · have hpos : 0 < roundMagnitude n.natAbs := roundMagnitude_pos _ (by omega)
    have hn : ¬ 0 < n := by omega
    unfold JsNumber.ofUnits
    split_ifs
    · simp only [JsNumber.isPositive, hn, decide_False, decide_eq_false_iff_not]
      omega
    · simp [JsNumber.isPositive, hn]
  · subst h
    decide
  · have hpos : 0 < roundMagnitude n.natAbs := roundMagnitude_pos _ (by omega)
    have hn : ¬ n < 0 := by omega
    unfold JsNumber.ofUnits
    split_ifs
    · simp only [JsNumber.isPositive, h, decide_True, decide_eq_true_eq]
      omega
    · simp [JsNumber.isPositive, h]

theorem JsNumber.ofUnits_ne_nan (n : Int) : JsNumber.ofUnits n ≠ JsNumber.nan := by
  unfold JsNumber.ofUnits
  split_ifs <;> simp

/-- The sign of a difference of two numbers other than `NaN`: `x - y > 0`
exactly when `x <= y` is false. -/
theorem JsNumber.sub_isPositive (x y : JsNumber) (hx : x ≠ JsNumber.nan) (hy : y ≠ JsNumber.nan) :
    (x.sub y).isPositive = !x.le y := by
  cases x with
  | nan => exact absurd rfl hx
  | negInf => cases y <;> simp_all [JsNumber.sub, JsNumber.neg, JsNumber.add, JsNumber.le,
      JsNumber.isPositive]
  | posInf => cases y <;> simp_all [JsNumber.sub, JsNumber.neg, JsNumber.add, JsNumber.le,
      JsNumber.isPositive]
  | finite a =>
    cases y with
    | nan => exact absurd rfl hy
    | negInf => simp [JsNumber.sub, JsNumber.neg, JsNumber.add, JsNumber.le, JsNumber.isPositive]
    | posInf => simp [JsNumber.sub, JsNumber.neg, JsNumber.add, JsNumber.le, JsNumber.isPositive]
    | finite b =>
      have hsub : (JsNumber.finite a).sub (JsNumber.finite b) = JsNumber.ofUnits (a + -b) := rfl
      rw [hsub, JsNumber.ofUnits_isPositive]
      by_cases h : a ≤ b
      · have h2 : ¬ 0 < a + -b := by omega
        simp [JsNumber.le, h, h2]
      · have h2 : 0 < a + -b := by omega
        simp [JsNumber.le, h, h2]

theorem JsNumber.le_total (x y : JsNumber) (hx : x ≠ JsNumber.nan) (hy : y ≠ JsNumber.nan) :
    x.le y = true ∨ y.le x = true := by
  cases x <;> cases y <;> simp_all [JsNumber.le]
  omega

theorem JsNumber.le_trans (x y z : JsNumber) (h1 : x.le y = true) (h2 : y.le z = true) :
    x.le z = true := by
  cases x <;> cases y <;> cases z <;> simp_all [JsNumber.le]
  omega

/-- For sums other than `NaN` the sort order is `<=` on the sums, reversed. -/
theorem usageOrder_iff (a b : Process) (ha : usage a ≠ JsNumber.nan)
    (hb : usage b ≠ JsNumber.nan) : usageOrder a b ↔ (usage b).le (usage a) = true := by
  unfold usageOrder compareUsage
  rw [JsNumber.sub_isPositive _ _ hb ha]
  simp

/-- The sum of two finite numbers is not `NaN`. -/
theorem usage_ne_nan (p : Process) (hc : ∃ n, p.cpu = JsNumber.finite n)
    (hm : ∃ n, p.mem = JsNumber.finite n) : usage p ≠ JsNumber.nan := by
  obtain ⟨a, ha⟩ := hc
  obtain ⟨b, hb⟩ := hm
  unfold usage
  rw [ha, hb]
  exact JsNumber.ofUnits_ne_nan _

theorem pairwise_orderedInsert {α : Type} (r : α → α → Prop) [DecidableRel r]
    (P : α → Prop) (htot : ∀ a b, P a → P b → r a b ∨ r b a)
    (htrans : ∀ a b c, P a → P b → P c → r a b → r b c → r a c) (a : α) (ha : P a) :
    ∀ l : List α, (∀ x ∈ l, P x) → l.Pairwise r → (l.orderedInsert r a).Pairwise r := by
  intro l
  induction l with
  | nil => intro _ _; simp
  | cons b l ih =>
    intro hP hl
    have hPb : P b := hP b (List.mem_cons_self _ _)
    have hPl : ∀ x ∈ l, P x := fun x hx => hP x (List.mem_cons_of_mem _ hx)
    rw [List.orderedInsert]
    split_ifs with hab
    · refine List.Pairwise.cons ?_ hl
      intro x hx
      rcases List.mem_cons.mp hx with rfl | hx
      · exact hab
      · exact htrans a b x ha hPb (hPl x hx) hab ((List.pairwise_cons.mp hl).1 x hx)
    · refine List.Pairwise.cons ?_ (ih hPl (List.pairwise_cons.mp hl).2)
      intro x hx
      rcases (List.mem_orderedInsert r).mp hx with rfl | hx
      · rcases htot x b ha hPb with h | h
        · exact absurd h hab
        · exact h
      · exact (List.pairwise_cons.mp hl).1 x hx

theorem pairwise_insertionSort {α : Type} (r : α → α → Prop) [DecidableRel r]
    (P : α → Prop) (htot : ∀ a b, P a → P b → r a b ∨ r b a)
    (htrans : ∀ a b c, P a → P b → P c → r a b → r b c → r a c) :
    ∀ l : List α, (∀ x ∈ l, P x) → (l.insertionSort r).Pairwise r := by
  intro l
  induction l with
  | nil => intro _; simp
  | cons b l ih =>
    intro hP
    have hPl : ∀ x ∈ l, P x := fun x hx => hP x (List.mem_cons_of_mem _ hx)
    rw [List.insertionSort]
    refine pairwise_orderedInsert r P htot htrans b (hP b (List.mem_cons_self _ _)) _ ?_ (ih hPl)
    intro x hx
    exact hPl x ((List.perm_insertionSort r l).subset hx)

/-- The sorted array is in non-increasing order of `cpu + mem`. -/
theorem sorted_by_usage (ps : List Process) (hnum : ∀ p ∈ ps, usage p ≠ JsNumber.nan) :
    (ps.insertionSort usageOrder).Pairwise (fun a b => (usage b).le (usage a) = true) := by
  have h := pairwise_insertionSort usageOrder (fun p => usage p ≠ JsNumber.nan)
    (fun a b ha hb => by
      rw [usageOrder_iff a b ha hb, usageOrder_iff b a hb ha]
      exact (JsNumber.le_total (usage a) (usage b) ha hb).symm)
    (fun a b c ha hb hc hab hbc => by
      rw [usageOrder_iff a b ha hb] at hab
      rw [usageOrder_iff b c hb hc] at hbc
      rw [usageOrder_iff a c ha hc]
      exact JsNumber.le_trans _ _ _ hbc hab)
    ps hnum
  have hmem : ∀ x ∈ ps.insertionSort usageOrder, usage x ≠ JsNumber.nan :=
    fun x hx => hnum x ((List.perm_insertionSort usageOrder ps).subset hx)
  refine List.Pairwise.imp_of_mem ?_ h
  intro a b ha hb hab
  exact (usageOrder_iff a b (hmem a ha) (hmem b hb)).mp hab

theorem scanConnection_foldl (conns : List Connection) :
    ∀ acc : List Risk × List Warning,
      conns.foldl scanConnection acc =
        (acc.1 ++ (conns.filter isDangerousListener).map dangerousPortRisk,
          acc.2 ++ (conns.filter isUnusualOutbound).map unusualOutboundWarning) := by
  induction conns with
  | nil => intro acc; simp
  | cons c rest ih =>
    intro acc
    rw [List.foldl_cons, ih]
    unfold scanConnection
    by_cases h1 : isDangerousListener c = true <;> by_cases h2 : isUnusualOutbound c = true <;>
      simp [h1, h2, List.filter_cons]

theorem analyzeSecurityRisks_risks (conns : List Connection) :
    (analyzeSecurityRisks conns).risks = (conns.filter isDangerousListener).map dangerousPortRisk := by
  simp [analyzeSecurityRisks, scanConnection_foldl]

theorem analyzeSecurityRisks_warnings (conns : List Connection) :
    (analyzeSecurityRisks conns).warnings
      = (conns.filter isUnusualOutbound).map unusualOutboundWarning := by
  simp [analyzeSecurityRisks, scanConnection_foldl]

theorem JsMap.get_eq_none_iff {β : Type} (m : JsMap β) (k : String) :
    m.get k = none ↔ k ∉ m.keys := by
  induction m with
  | nil => simp [JsMap.get, JsMap.keys]
  | cons hd rest ih =>
    obtain ⟨k0, w⟩ := hd
    unfold JsMap.keys at ih ⊢
    by_cases h : k0 = k
    · simp [JsMap.get, h]
    · simp only [JsMap.get, h, if_false, ih, List.map_cons, List.mem_cons, not_or]
      exact ⟨fun h1 => ⟨fun e => h e.symm, h1⟩, fun h1 => h1.2⟩

theorem JsMap.keys_set {β : Type} (m : JsMap β) (key : String) (v : β) :
    (m.set key v).keys = if key ∈ m.keys then m.keys else m.keys ++ [key] := by
  induction m with
  | nil => simp [JsMap.set, JsMap.keys]
  | cons hd rest ih =>
    obtain ⟨k0, w⟩ := hd
    unfold JsMap.keys at ih ⊢
    by_cases h : k0 = key
    · subst h
      simp [JsMap.set]
    · have hne : ¬ key = k0 := fun e => h e.symm
      simp only [JsMap.set, h, if_false, List.map_cons, ih, List.mem_cons, hne, false_or]
      split_ifs <;> simp

theorem JsMap.nodup_keys_set {β : Type} (m : JsMap β) (key : String) (v : β)
    (h : m.keys.Nodup) : (m.set key v).keys.Nodup := by
  rw [JsMap.keys_set]
  split_ifs with hk
  · exact h
  · exact List.Nodup.append h (List.nodup_singleton key) (by simpa using hk)

theorem tallyTotal_set_of_get (m : JsMap Tally) (key : String) (v w : Tally)
    (h : m.get key = some v) : tallyTotal (m.set key w) + v.value = tallyTotal m + w.value := by
  induction m with
  | nil => simp [JsMap.get] at h
  | cons hd rest ih =>
    obtain ⟨k0, u⟩ := hd
    by_cases h0 : k0 = key
    · simp only [JsMap.get, h0, if_true, Option.some.injEq] at h
      subst h
      simp only [JsMap.set, h0, if_true, tallyTotal, List.map_cons, List.sum_cons]
      omega
    · simp only [JsMap.get, h0, if_false] at h
      have := ih h
      simp only [JsMap.set, h0, if_false, tallyTotal, List.map_cons, List.sum_cons] at this ⊢
      omega

theorem tallyTotal_set_of_get_none (m : JsMap Tally) (key : String) (w : Tally)
    (h : m.get key = none) : tallyTotal (m.set key w) = tallyTotal m + w.value := by
  induction m with
  | nil => simp [JsMap.set, tallyTotal]
  | cons hd rest ih =>
    obtain ⟨k0, u⟩ := hd
    by_cases h0 : k0 = key
    · simp [JsMap.get, h0] at h
    · simp only [JsMap.get, h0, if_false] at h
      have := ih h
      simp only [JsMap.set, h0, if_false, tallyTotal, List.map_cons, List.sum_cons] at this ⊢
      omega

/-- The invariant of the counting loop: after the keys `ks`, the map holds for
every key its number of occurrences, has no repeated key, and its counts sum to
the number of keys counted. -/
theorem tally_foldl (ks : List String) (h : ∀ k ∈ ks, k ∉ objectPrototypeKeys) :
    ∀ (m : JsMap Tally) (done : List String),
      (∀ s, m.get s = if done.count s = 0 then none else some (Tally.count (done.count s))) →
      m.keys.Nodup → tallyTotal m = done.length →
      (∀ s, (ks.foldl tally m).get s =
          if (done ++ ks).count s = 0 then none
          else some (Tally.count ((done ++ ks).count s))) ∧
        (ks.foldl tally m).keys.Nodup ∧ tallyTotal (ks.foldl tally m) = (done ++ ks).length := by
  induction ks with
  | nil => intro m done h1 h2 h3; simpa using ⟨h1, h2, h3⟩
  | cons k rest ih =>
    intro m done h1 h2 h3
    have hk : k ∉ objectPrototypeKeys := h k (List.mem_cons_self _ _)
    have hproto : k ≠ "__proto__" := by
      intro e
      apply hk
      rw [e]
      decide
    have hrest := ih (fun k' hk' => h k' (List.mem_cons_of_mem _ hk')) (tally m k) (done ++ [k])
    rw [List.foldl_cons]
    have happ : done ++ k :: rest = done ++ [k] ++ rest := by simp
    rw [happ]
    apply hrest
    · intro s
      unfold tally
      rw [if_neg hproto, h1 k]
      by_cases hc : done.count k = 0
      · simp only [hc, if_true, if_neg hk, JsMap.get_set]
        by_cases hs : k = s
        · subst hs
          simp [List.count_append, hc]
        · have : ([k] : List String).count s = 0 := by
            simp [List.count_singleton, hs]
          simp only [if_neg hs, h1 s, List.count_append, this, Nat.add_zero]
      · simp only [hc, if_false, JsMap.get_set]
        by_cases hs : k = s
        · subst hs
          simp [List.count_append]
        · have : ([k] : List String).count s = 0 := by
            simp [List.count_singleton, hs]
          simp only [if_neg hs, h1 s, List.count_append, this, Nat.add_zero]
    · unfold tally
      rw [if_neg hproto, h1 k]
      by_cases hc : done.count k = 0
      · simp only [hc, if_true, if_neg hk]
        exact JsMap.nodup_keys_set _ _ _ h2
      · simp only [hc, if_false]
        exact JsMap.nodup_keys_set _ _ _ h2
    · unfold tally
      rw [if_neg hproto]
      have hget := h1 k
      by_cases hc : done.count k = 0
      · rw [if_pos hc] at hget
        rw [hget]
        simp only [if_neg hk]
        rw [tallyTotal_set_of_get_none m k _ hget, h3]
        simp [Tally.value]
      · rw [if_neg hc] at hget
        rw [hget]
        simp only
        have := tallyTotal_set_of_get m k _ (Tally.count (done.count k + 1)) hget
        simp only [Tally.value] at this
        rw [List.length_append, List.length_singleton]
        omega

theorem analyzeConnection_foldl (conns : List Connection) :
    ∀ a : ConnectionAnalysis,
      conns.foldl analyzeConnection a =
        { total := a.total
          byState := (conns.map (fun c => c.state)).foldl tally a.byState
          byProtocol := (conns.map (fun c => c.protocol)).foldl tally a.byProtocol
          listeningPorts := a.listeningPorts ++ (conns.filter isListening).map listeningPortOf
          establishedConnections :=
            a.establishedConnections ++ conns.filter (fun c => decide (c.state = "ESTABLISHED"))
          externalConnections :=
            a.externalConnections ++
              (conns.filter (fun c => decide (c.state = "ESTABLISHED" ∧
                isLocalAddress c.peerAddress = false))).map
                (fun c => { conn := c, geoHint := getGeoHint c.peerAddress }) } := by
  induction conns with
  | nil => intro a; simp
  | cons c rest ih =>
    intro a
    rw [List.foldl_cons, ih]
    unfold analyzeConnection
    by_cases h1 : isListening c = true <;> by_cases h2 : c.state = "ESTABLISHED" <;>
      by_cases h3 : isLocalAddress c.peerAddress = false <;>
      simp [h1, h2, h3, List.filter_cons, listeningPortOf]

theorem runLoop_accumulates (toLowerCase : String → String) (svc : Service)
    (ps : List Process) (N : Int) : ∀ (fuel : Nat) (st : LoopState),
      ∃ more, (runLoop toLowerCase svc ps N fuel st).state.calls = st.calls ++ more ∧
        (runLoop toLowerCase svc ps N fuel st).state.allLlmCategorizations
          = mergeAnswers svc st.calls.length st.allLlmCategorizations more := by
  intro fuel
  induction fuel with
  | zero => intro st; exact ⟨[], by simp [runLoop], by simp [runLoop, mergeAnswers]⟩
  | succ fuel ih =>
    intro st
    rw [runLoop_succ]
    split_ifs with h1 h2 h3
    · exact ⟨[], by simp, by simp [mergeAnswers]⟩
    · refine ⟨[unknownProcessObjs ps st.otherProcesses], rfl, ?_⟩
      have hnil := List.length_eq_zero.mp h3
      simp [mergeAnswers, JsMap.spread, hnil]
    · split
      · exact ⟨[unknownProcessObjs ps st.otherProcesses], rfl, by simp [mergeAnswers]⟩
      · rename_i s1 _
        obtain ⟨more, hmore, hacc⟩ := ih
          { iteration := st.iteration + 1
            processSummary := s1
            allLlmCategorizations := st.allLlmCategorizations.spread
              (svc st.calls.length (unknownProcessObjs ps st.otherProcesses)).categorizations
            allLlmDetails := st.allLlmDetails.spread
              (svc st.calls.length (unknownProcessObjs ps st.otherProcesses)).details
            calls := st.calls ++ [unknownProcessObjs ps st.otherProcesses] }
        refine ⟨unknownProcessObjs ps st.otherProcesses :: more, ?_, ?_⟩
        · rw [hmore]; simp
        · rw [hacc]
          simp [mergeAnswers]
    · exact ⟨[], by simp, by simp [mergeAnswers]⟩

theorem keywordScan_of_match (txt : String) (e : Category × List String)
    (he : EntryMatches txt e) (l2 : List (Category × List String)) :
    ∀ l1 : List (Category × List String),
      ∃ c, keywordScan txt (l1 ++ e :: l2) = some c ∧ c ∈ l1.map (fun x => x.1) ++ [e.1] := by
  intro l1
  induction l1 with
  | nil =>
    obtain ⟨c0, ks⟩ := e
    have hany := (any_includes_iff txt (c0, ks)).mpr he
    simp only at hany
    exact ⟨c0, by simp [keywordScan, hany], by simp⟩
  | cons hd rest ih =>
    obtain ⟨c0, ks⟩ := hd
    by_cases hm : ks.any (fun k => includes txt k) = true
    · exact ⟨c0, by simp [keywordScan, hm], by simp⟩
    · obtain ⟨c, hc, hmem⟩ := ih
      refine ⟨c, ?_, ?_⟩
      · simp only [List.cons_append, keywordScan, hm, Bool.false_eq_true, if_false]
        exact hc
      · simp only [List.map_cons, List.cons_append, List.mem_cons]
        exact Or.inr hmem

theorem JsMap.get_filter_ne_self {β : Type} (m : JsMap β) (k : String) :
    JsMap.get (m.filter (fun f => decide (f.1 ≠ k))) k = none := by
  induction m with
  | nil => simp [JsMap.get]
  | cons hd rest ih =>
    obtain ⟨k0, w⟩ := hd
    by_cases h : k0 = k
    · rw [List.filter_cons_of_neg (by simpa using h)]
      exact ih
    · rw [List.filter_cons_of_pos (by simpa using h)]
      simp only [JsMap.get, h, if_false]
      exact ih

theorem JsMap.get_filter_of_ne {β : Type} (m : JsMap β) (k k' : String) (hne : k' ≠ k) :
    JsMap.get (m.filter (fun f => decide (f.1 ≠ k))) k' = JsMap.get m k' := by
  induction m with
  | nil => simp [JsMap.get]
  | cons hd rest ih =>
    obtain ⟨k0, w⟩ := hd
    by_cases h : k0 = k
    · have h2 : ¬ k0 = k' := fun e => hne (e ▸ h)
      rw [List.filter_cons_of_neg (by simpa using h)]
      simp only [JsMap.get, h2, if_false]
      exact ih
    · rw [List.filter_cons_of_pos (by simpa using h)]
      by_cases h2 : k0 = k'
      · simp only [JsMap.get, h2, if_true]
      · simp only [JsMap.get, h2, if_false]
        exact ih

theorem get_store_cases (toLowerCase : String → String)
    (hash : String → String → String → String) (cache : LlmCache) (store : FileSystem)
    (now : Int) (q : Process) :
    (LlmCache.get toLowerCase hash cache store now q).2 = store ∨
      ∃ dir file files timestamp name data,
        store dir = some files ∧
        files.get file = some (FileContent.entry timestamp name data) ∧
        now - timestamp > cache.ttlHours * 60 * 60 * 1000 ∧
        (LlmCache.get toLowerCase hash cache store now q).2 = unlinkFile store dir file := by
  unfold LlmCache.get
  by_cases he : cache.enabled = false
  · simp [he]
  · simp only [he, if_false]
    cases hc : q.cwd with
    | none => simp
    | some cwd =>
      simp only
      cases hd : store (pathJoin cwd cache.cacheDir) with
      | none => simp
      | some files =>
        simp only
        cases hf : files.get (LlmCache.generateKey toLowerCase hash q ++ ".json") with
        | none => simp
        | some content =>
          cases content with
          | corrupt => simp
          | entry timestamp name data =>
            simp only
            by_cases hage : now - timestamp > cache.ttlHours * 60 * 60 * 1000
            · simp only [hage, if_true]
              exact Or.inr ⟨_, _, files, timestamp, name, data, hd, hf, hage, rfl⟩
            · simp [hage]

theorem get_fst_unlink (toLowerCase : String → String)
    (hash : String → String → String → String) (cache : LlmCache) (store : FileSystem)
    (now : Int) (p : Process) (dir file : String) (files : JsMap FileContent)
    (timestamp : Int) (name data : String) (hdir : store dir = some files)
    (hfile : files.get file = some (FileContent.entry timestamp name data))
    (hage : now - timestamp > cache.ttlHours * 60 * 60 * 1000) :
    (LlmCache.get toLowerCase hash cache (unlinkFile store dir file) now p).1
      = (LlmCache.get toLowerCase hash cache store now p).1 := by
  unfold LlmCache.get
  by_cases he : cache.enabled = false
  · simp [he]
  · simp only [he, if_false]
    cases hc : p.cwd with
    | none => rfl
    | some cwd =>
      simp only
      by_cases hd : pathJoin cwd cache.cacheDir = dir
      · have hu : unlinkFile store dir file (pathJoin cwd cache.cacheDir)
            = some (files.filter (fun f => decide (f.1 ≠ file))) := by
          simp [unlinkFile, hd, hdir]
        rw [hu, hd, hdir]
        simp only
        by_cases hf : LlmCache.generateKey toLowerCase hash p ++ ".json" = file
        · rw [hf, JsMap.get_filter_ne_self, hfile]
          simp [hage]
        · rw [JsMap.get_filter_of_ne _ _ _ hf]
          cases hg : files.get (LlmCache.generateKey toLowerCase hash p ++ ".json") with
          | none => rfl
          | some content =>
            cases content with
            | corrupt => rfl
            | entry t n d =>
              simp only
              by_cases ha : now - t > cache.ttlHours * 60 * 60 * 1000 <;> simp [ha]
      · have hu : unlinkFile store dir file (pathJoin cwd cache.cacheDir)
            = store (pathJoin cwd cache.cacheDir) := by
          simp [unlinkFile, hd]
        rw [hu]
        cases hs : store (pathJoin cwd cache.cacheDir) with
        | none => rfl
        | some fs =>
          simp only
          cases hg : fs.get (LlmCache.generateKey toLowerCase hash p ++ ".json") with
          | none => rfl
          | some content =>
            cases content with
            | corrupt => rfl
            | entry t n d =>
              simp only
              by_cases ha : now - t > cache.ttlHours * 60 * 60 * 1000 <;> simp [ha]

theorem get_fst_after_get (toLowerCase : String → String)
    (hash : String → String → String → String) (cache : LlmCache) (store : FileSystem)
    (now : Int) (q p : Process) :
    (LlmCache.get toLowerCase hash cache
        (LlmCache.get toLowerCase hash cache store now q).2 now p).1
      = (LlmCache.get toLowerCase hash cache store now p).1 := by
  rcases get_store_cases toLowerCase hash cache store now q with h |
    ⟨dir, file, files, timestamp, name, data, hdir, hfile, hage, h⟩
  · rw [h]
  · rw [h]
    exact get_fst_unlink toLowerCase hash cache store now p dir file files timestamp name data
      hdir hfile hage

theorem getMultipleStep_eq (toLowerCase : String → String)
    (hash : String → String → String → String) (cache : LlmCache) (now : Int)
    (acc : MultipleResult) (p : Process) :
    (LlmCache.getMultipleStep toLowerCase hash cache now acc p).store
        = (LlmCache.get toLowerCase hash cache acc.store now p).2 ∧
      ((isHit toLowerCase hash cache acc.store now p = false ∧
          (LlmCache.getMultipleStep toLowerCase hash cache now acc p).cached = acc.cached ∧
          (LlmCache.getMultipleStep toLowerCase hash cache now acc p).notCached
            = acc.notCached ++ [p]) ∨
        ∃ data, (LlmCache.get toLowerCase hash cache acc.store now p).1 = some data ∧
          isHit toLowerCase hash cache acc.store now p = true ∧
          (LlmCache.getMultipleStep toLowerCase hash cache now acc p).cached
            = acc.cached.set (toLowerCase p.name) data ∧
          (LlmCache.getMultipleStep toLowerCase hash cache now acc p).notCached
            = acc.notCached) := by
  unfold LlmCache.getMultipleStep isHit
  cases hg : LlmCache.get toLowerCase hash cache acc.store now p with
  | mk r store' =>
    cases r with
    | none => simp
    | some data =>
      by_cases hd : data = ""
      · simp [hd]
      · simp [hd]

theorem getMultiple_foldl (toLowerCase : String → String)
    (hash : String → String → String → String) (cache : LlmCache) (now : Int)
    (store0 : FileSystem) (batch : List Process) :
    ∀ acc : MultipleResult,
      (∀ p, (LlmCache.get toLowerCase hash cache acc.store now p).1
        = (LlmCache.get toLowerCase hash cache store0 now p).1) →
      (batch.foldl (LlmCache.getMultipleStep toLowerCase hash cache now) acc).notCached
          = acc.notCached ++
            batch.filter (fun p => !isHit toLowerCase hash cache store0 now p) ∧
        (∀ k, k ∈ (batch.foldl (LlmCache.getMultipleStep toLowerCase hash cache now)
              acc).cached.keys ↔
          k ∈ acc.cached.keys ∨
            ∃ p ∈ batch, isHit toLowerCase hash cache store0 now p = true ∧
              toLowerCase p.name = k) ∧
        (∀ k d, (batch.foldl (LlmCache.getMultipleStep toLowerCase hash cache now)
              acc).cached.get k = some d →
          acc.cached.get k = some d ∨
            ∃ p ∈ batch, toLowerCase p.name = k ∧
              (LlmCache.get toLowerCase hash cache store0 now p).1 = some d) := by
  induction batch with
  | nil => intro acc _; simp
  | cons p rest ih =>
    intro acc hinv
    have hhit : isHit toLowerCase hash cache acc.store now p
        = isHit toLowerCase hash cache store0 now p := by
      unfold isHit; rw [hinv p]
    obtain ⟨hstore, hstep⟩ := getMultipleStep_eq toLowerCase hash cache now acc p
    have hinv' : ∀ q, (LlmCache.get toLowerCase hash cache
        (LlmCache.getMultipleStep toLowerCase hash cache now acc p).store now q).1
        = (LlmCache.get toLowerCase hash cache store0 now q).1 := by
      intro q
      rw [hstore, get_fst_after_get, hinv q]
    obtain ⟨h1, h2, h3⟩ := ih (LlmCache.getMultipleStep toLowerCase hash cache now acc p) hinv'
    rw [List.foldl_cons]
    rcases hstep with ⟨hmiss, hc, hn⟩ | ⟨data, hdata, hh, hc, hn⟩
    · rw [hhit] at hmiss
      refine ⟨?_, ?_, ?_⟩
      · rw [h1, hn, List.filter_cons_of_pos (by simp [hmiss])]
        simp
      · intro k
        rw [h2 k, hc]
        constructor
        · rintro (h | ⟨q, hq, hqh, hqk⟩)
          · exact Or.inl h
          · exact Or.inr ⟨q, List.mem_cons_of_mem _ hq, hqh, hqk⟩
        · rintro (h | ⟨q, hq, hqh, hqk⟩)
          · exact Or.inl h
          · rcases List.mem_cons.mp hq with e | e
            · rw [e, hmiss] at hqh; cases hqh
            · exact Or.inr ⟨q, e, hqh, hqk⟩
      · intro k d hd
        rcases h3 k d hd with h | ⟨q, hq, hqk, hqd⟩
        · exact Or.inl (hc ▸ h)
        · exact Or.inr ⟨q, List.mem_cons_of_mem _ hq, hqk, hqd⟩
    · rw [hhit] at hh
      rw [hinv p] at hdata
      refine ⟨?_, ?_, ?_⟩
      · rw [h1, hn, List.filter_cons_of_neg (by simp [hh])]
      · intro k
        rw [h2 k, hc, JsMap.mem_keys_set]
        constructor
        · rintro ((h | h) | ⟨q, hq, hqh, hqk⟩)
          · exact Or.inr ⟨p, List.mem_cons_self _ _, hh, h.symm⟩
          · exact Or.inl h
          · exact Or.inr ⟨q, List.mem_cons_of_mem _ hq, hqh, hqk⟩
        · rintro (h | ⟨q, hq, hqh, hqk⟩)
          · exact Or.inl (Or.inr h)
          · rcases List.mem_cons.mp hq with e | e
            · exact Or.inl (Or.inl (by rw [← hqk, e]))
            · exact Or.inr ⟨q, e, hqh, hqk⟩
      · intro k d hd
        rcases h3 k d hd with h | ⟨q, hq, hqk, hqd⟩
        · rw [hc, JsMap.get_set] at h
          by_cases hk : toLowerCase p.name = k
          · rw [if_pos hk] at h
            cases h
            exact Or.inr ⟨p, List.mem_cons_self _ _, hk, hdata⟩
          · rw [if_neg hk] at h
            exact Or.inl h
        · exact Or.inr ⟨q, List.mem_cons_of_mem _ hq, hqk, hqd⟩

/-- The loop of `runLlmAnalysis` does not use `LlmCache`: whatever a cache holds,
the first call is made on the by-name batch of the initial summary, and the
accumulated categorizations are exactly the answers of the service to the
calls made, merged in call order. -/
theorem runLlmAnalysis_results_from_service (toLowerCase : String → String) (svc : Service)
    (ps : List Process) (initialSummary : Summary) (N : Int) :
    (runLlmAnalysis toLowerCase svc ps initialSummary N).state.allLlmCategorizations
        = mergeAnswers svc 0 []
            (runLlmAnalysis toLowerCase svc ps initialSummary N).state.calls ∧
      ∀ batch rest,
        (runLlmAnalysis toLowerCase svc ps initialSummary N).state.calls = batch :: rest →
        batch = unknownProcessObjs ps (initialSummary.categories Category.other).processes := by
  constructor
  · obtain ⟨more, hmore, hacc⟩ := runLoop_accumulates toLowerCase svc ps N (N.toNat + 1)
      (initialState initialSummary)
    unfold runLlmAnalysis
    rw [hacc, hmore]
    simp [initialState]
  · intro batch rest h
    unfold runLlmAnalysis at h
    rw [runLoop_succ] at h
    split_ifs at h with h1 h2 h3
    · simp [initialState] at h
    · simp only [initialState, List.nil_append, List.cons.injEq] at h
      exact h.1.symm
    · split at h
      · simp only [initialState, List.nil_append, List.cons.injEq] at h
        exact h.1.symm
      · rename_i s1 _
        obtain ⟨more, hmore, _⟩ := runLoop_calls_extend toLowerCase svc ps N N.toNat
          { iteration := (initialState initialSummary).iteration + 1
            processSummary := s1
            allLlmCategorizations := (initialState initialSummary).allLlmCategorizations.spread
              (svc (initialState initialSummary).calls.length
                (unknownProcessObjs ps (initialState initialSummary).otherProcesses)).categorizations
            allLlmDetails := (initialState initialSummary).allLlmDetails.spread
              (svc (initialState initialSummary).calls.length
                (unknownProcessObjs ps (initialState initialSummary).otherProcesses)).details
            calls := (initialState initialSummary).calls ++
              [unknownProcessObjs ps (initialState initialSummary).otherProcesses] }
        rw [hmore] at h
        simp only [initialState, List.nil_append, List.singleton_append, List.cons.injEq] at h
        exact h.1.symm
    · simp [initialState] at h

/-! ## Claims -/

/-- C1: called without an LLM map, `categorizeProcesses` returns, and a process
is in bucket `c` exactly when it is in the list and `c` is the first category,
in the declared order of the keyword table, with a keyword occurring as a
substring of the lower-cased text `name command path`, or `c` is `other` and no
category has such a keyword; every bucket keeps the order of the list. -/
theorem C1_keyword_first_match (toLowerCase : String → String) (ps : List Process) :
    ∃ cat, categorizeProcesses toLowerCase ps none = some cat ∧
      (∀ c, List.Sublist (cat c) ps) ∧
      ∀ p c, p ∈ cat c ↔ p ∈ ps ∧ PlacedIn toLowerCase p c := by
  obtain ⟨cat, hcat⟩ := placeAll_isSome toLowerCase none ps emptyBuckets
    (fun p _ => placement_none_llm_ne_none toLowerCase p)
  refine ⟨cat, hcat, ?_, ?_⟩
  · intro c
    rw [categorizeProcesses_some toLowerCase none ps cat hcat c]
    exact List.filter_sublist _
  · intro p c
    rw [categorizeProcesses_some toLowerCase none ps cat hcat c]
    simp [List.mem_filter, placement_none_llm_iff]

/-- C2 (failing input): on twelve processes named `agent.exe`, eleven matching
no keyword and one matching `git` through its command line, the first
iteration passes all twelve to `categorizeUnknownProcesses`: the batch is
selected by name, so the keyword-matched process is sent to the service. -/
theorem C2_keyword_process_is_sent :
    keywordCategory asciiLower agentWithGit = some Category.development ∧
      (analysis asciiLower emptyService sameNameProcesses 5).map (fun r => r.state.calls)
        = some [sameNameProcesses] ∧
      agentWithGit ∈ sameNameProcesses := by
  decide

/-- C3: for every LLM map, the callback of `categorizeProcesses` pushes a
process that matches a taxonomy keyword to its keyword bucket, exactly as it
does without a map, and never throws on it; so in every list and every result
of `categorizeProcesses` with an LLM map the process is in its keyword bucket
and in no other, the bucket it has in the result without a map. -/
theorem C3_keyword_result_kept (toLowerCase : String → String) (llm : LlmMap)
    (p : Process) (c : Category) (hk : keywordCategory toLowerCase p = some c) :
    (∀ b, placeProcess toLowerCase (some llm) b p = some (push b c p) ∧
        placeProcess toLowerCase none b p = some (push b c p)) ∧
      (∀ ps cat, p ∈ ps → categorizeProcesses toLowerCase ps (some llm) = some cat →
        p ∈ cat c ∧ ∀ c', p ∈ cat c' → c' = c) ∧
      (∀ ps, p ∈ ps → ∃ cat0, categorizeProcesses toLowerCase ps none = some cat0 ∧
        p ∈ cat0 c ∧ ∀ c', p ∈ cat0 c' → c' = c) := by
  have hpl : ∀ m, placement toLowerCase m p = some c := by
    intro m; unfold placement; rw [hk]
  refine ⟨?_, ?_, ?_⟩
  · intro b
    simp [placeProcess_eq, hpl]
  · intro ps cat hp hcat
    constructor
    · rw [categorizeProcesses_some toLowerCase (some llm) ps cat hcat c]
      simp [List.mem_filter, hp, hpl]
    · intro c' hc'
      rw [categorizeProcesses_some toLowerCase (some llm) ps cat hcat c'] at hc'
      simp only [List.mem_filter, hpl, decide_eq_true_eq, Option.some.injEq] at hc'
      exact hc'.2.symm
  · intro ps hp
    obtain ⟨cat0, hcat0⟩ := placeAll_isSome toLowerCase none ps emptyBuckets
      (fun q _ => placement_none_llm_ne_none toLowerCase q)
    refine ⟨cat0, hcat0, ?_, ?_⟩
    · rw [categorizeProcesses_some toLowerCase none ps cat0 hcat0 c]
      simp [List.mem_filter, hp, hpl]
    · intro c' hc'
      rw [categorizeProcesses_some toLowerCase none ps cat0 hcat0 c'] at hc'
      simp only [List.mem_filter, hpl, decide_eq_true_eq, Option.some.injEq] at hc'
      exact hc'.2.symm

/-- C3 (witness): `Code.exe` matches the keyword `code.exe`; with an LLM map
that says `gaming` for it, `categorizeProcesses` returns and it is placed in
`development`. -/
theorem C3_keyword_result_kept_witness :
    keywordCategory asciiLower editorProcess = some Category.development ∧
      categorizeProcesses asciiLower [editorProcess, updaterProcess] (some editorLlmMap)
        = some (push (push emptyBuckets Category.development editorProcess)
            Category.office updaterProcess) ∧
      editorProcess ∈ (push (push emptyBuckets Category.development editorProcess)
            Category.office updaterProcess) Category.development :=
  ⟨by decide, by rfl,
    ((C3_keyword_result_kept asciiLower editorLlmMap editorProcess Category.development
      (by decide)).2.1 [editorProcess, updaterProcess] _ (by decide) (by rfl)).1⟩

/-- C4: for every process list, initial summary, behaviour of the service and
`maxIterations = N`, `runLlmAnalysis` leaves the loop (the unrolling never runs
out, and more unrolling gives the same result) after at most `N` calls to
`categorizeUnknownProcesses` (none when `N` is negative). -/
theorem C4_bounded_calls (toLowerCase : String → String) (svc : Service) (ps : List Process)
    (initialSummary : Summary) (N : Int) :
    (runLlmAnalysis toLowerCase svc ps initialSummary N).exit ≠ Exit.outOfFuel ∧
      ((runLlmAnalysis toLowerCase svc ps initialSummary N).state.calls.length : Int) ≤ max N 0 ∧
      ∀ k, runLoop toLowerCase svc ps N (N.toNat + 1 + k) (initialState initialSummary)
        = runLlmAnalysis toLowerCase svc ps initialSummary N := by
  have hfuel : (N + 1 - (initialState initialSummary).iteration).toNat < N.toNat + 1 := by
    simp only [initialState]
    omega
  refine ⟨runLoop_exit toLowerCase svc ps N _ _ hfuel, ?_, ?_⟩
  · obtain ⟨more, hmore, hlen⟩ :=
      runLoop_calls_extend toLowerCase svc ps N (N.toNat + 1) (initialState initialSummary)
    unfold runLlmAnalysis
    rw [hmore]
    simp only [initialState, List.nil_append] at hlen ⊢
    omega
  · intro k
    exact runLoop_fuel toLowerCase svc ps N _ _ hfuel k

/-- C5 (counterexample): with a single process, `maxIterations = 5` and a service
that always returns an empty map, `runLlmAnalysis` makes no call at all. -/
theorem C5_counterexample_no_call :
    (1 : Int) < 5 ∧ (emptyService 0 [updaterProcess]).categorizations = [] ∧
      (analysis asciiLower emptyService [updaterProcess] 5).map
        (fun r => (r.state.calls.length, r.exit)) = some (0, Exit.converged) := by
  decide

/-- C5 (amended): for every `maxIterations >= 1`, if the service returns an empty
categorization map on every call, `runLlmAnalysis` stops after exactly one call
when the initial summary lists more than 10 processes under `other`, and without
any call when it lists at most 10. -/
theorem C5_stall_after_one_call (toLowerCase : String → String) (svc : Service)
    (ps : List Process) (initialSummary : Summary) (N : Int) (hN : 1 ≤ N)
    (hempty : ∀ i batch, (svc i batch).categorizations = []) :
    (10 < (initialSummary.categories Category.other).processes.length →
        (runLlmAnalysis toLowerCase svc ps initialSummary N).state.calls.length = 1 ∧
        (runLlmAnalysis toLowerCase svc ps initialSummary N).exit = Exit.stalled) ∧
      ((initialSummary.categories Category.other).processes.length ≤ 10 →
        (runLlmAnalysis toLowerCase svc ps initialSummary N).state.calls.length = 0 ∧
        (runLlmAnalysis toLowerCase svc ps initialSummary N).exit = Exit.converged) := by
  have h1 : (initialState initialSummary).iteration ≤ N := by simpa [initialState] using hN
  unfold runLlmAnalysis
  rw [runLoop_succ, if_pos h1]
  constructor
  · intro h
    have h2 : ¬ (initialState initialSummary).otherProcesses.length ≤ 10 := by
      simp only [LoopState.otherProcesses, initialState]; omega
    rw [if_neg h2, hempty]
    simp [initialState]
  · intro h
    have h2 : (initialState initialSummary).otherProcesses.length ≤ 10 := by
      simpa only [LoopState.otherProcesses, initialState] using h
    rw [if_pos h2]
    simp [initialState]

/-- C5 (witness): eleven names under `other`, `maxIterations = 5`, the service
that always returns an empty map: one call, then the loop stalls. -/
theorem C5_stall_after_one_call_witness :
    (1 : Int) ≤ 5 ∧
      (runLlmAnalysis asciiLower emptyService sameNameProcesses
        (summaryOfOther (List.replicate 11 "agent.exe")) 5).state.calls.length = 1 :=
  ⟨by decide,
    ((C5_stall_after_one_call asciiLower emptyService sameNameProcesses
      (summaryOfOther (List.replicate 11 "agent.exe")) 5 (by decide) (fun _ _ => rfl)).1
      (by decide)).1⟩

/-- C6: given 15 processes that match no keyword, `maxIterations = 5` and a
service whose first answer classifies 8 of them (gives them a bucket other than
`other`), `runLlmAnalysis` calls the service once, on all 15, and stops in
iteration 2 on the `otherCount <= 10` test with 7 processes left under `other`;
the service is not asked a second time. -/
theorem C6_stops_in_second_iteration (toLowerCase : String → String) (svc : Service)
    (ps : List Process) (h15 : ps.length = 15)
    (hkw : ∀ p ∈ ps, keywordCategory toLowerCase p = none)
    (h8 : (ps.filter (classifies toLowerCase (svc 0 ps).categorizations)).length = 8)
    (hok : ∀ p ∈ ps, ∀ v, (svc 0 ps).categorizations.get (toLowerCase p.name) = some v →
      catMember v ≠ CatMember.inherited) :
    ∃ r, analysis toLowerCase svc ps 5 = some r ∧
      r.exit = Exit.converged ∧ r.state.iteration = 2 ∧ r.state.calls = [ps] ∧
      r.state.otherProcesses.length = 7 ∧
      (r.state.processSummary.categories Category.other).count = 7 ∧
      generateProcessSummary toLowerCase ps (some r.state.allLlmCategorizations)
        = some r.state.processSummary := by
  obtain ⟨s0, hs0, hs0o⟩ := summary_without_llm toLowerCase ps hkw
  obtain ⟨s1, hs1, hs1c, hs1l⟩ :=
    summary_with_llm toLowerCase ps (svc 0 ps).categorizations hkw hok
  have hm : (svc 0 ps).categorizations.length ≠ 0 := by
    intro h0
    have hnil : (svc 0 ps).categorizations = [] := List.length_eq_zero.mp h0
    have : ps.filter (classifies toLowerCase (svc 0 ps).categorizations) = [] := by
      rw [List.filter_eq_nil_iff]
      intro a _
      simp [classifies, hnil, JsMap.get]
    rw [this] at h8
    simp at h8
  have hrun : runLlmAnalysis toLowerCase svc ps s0 5 =
      { state :=
          { iteration := 2
            processSummary := s1
            allLlmCategorizations := (svc 0 ps).categorizations
            allLlmDetails := (svc 0 ps).details
            calls := [ps] }
        exit := Exit.converged } := by
    show runLoop toLowerCase svc ps 5 (4 + 1 + 1) (initialState s0) = _
    have e1 : (initialState s0).otherProcesses = ps.map (fun p => p.name) := hs0o
    have e2 : (initialState s0).calls = [] := rfl
    have e3 : (initialState s0).allLlmCategorizations = [] := rfl
    have e4 : (initialState s0).allLlmDetails = [] := rfl
    have e5 : (initialState s0).iteration = 1 := rfl
    rw [runLoop_succ, e1, e2, e3, e4, e5, unknownProcessObjs_names]
    simp only [List.length_map, h15, List.length_nil, JsMap.spread, List.append_nil,
      List.nil_append, hs1, if_neg hm]
    rw [runLoop_succ]
    simp only [LoopState.otherProcesses, hs1l, h15, h8]
    simp
  refine ⟨runLlmAnalysis toLowerCase svc ps s0 5, ?_, ?_⟩
  · simp [analysis, hs0]
  · rw [hrun]
    refine ⟨rfl, rfl, rfl, ?_, ?_, hs1⟩
    · simp only [LoopState.otherProcesses, hs1l, h15, h8]
    · simp only [hs1c, h15, h8]

/-- C6 (witness): fifteen processes `Zeta01.exe` .. `Zeta15.exe`, and a mocked
service that classifies the first eight on its first call and nothing later. -/
theorem C6_stops_in_second_iteration_witness :
    fifteenProcesses.length = 15 ∧
      (fifteenProcesses.filter
        (classifies asciiLower (mockedService 0 fifteenProcesses).categorizations)).length = 8 ∧
      (mockedService 1 fifteenProcesses).categorizations.length = 0 ∧
      ∃ r, analysis asciiLower mockedService fifteenProcesses 5 = some r ∧
        r.exit = Exit.converged ∧ r.state.iteration = 2 ∧ r.state.calls = [fifteenProcesses] ∧
        r.state.otherProcesses.length = 7 ∧
        (r.state.processSummary.categories Category.other).count = 7 ∧
        generateProcessSummary asciiLower fifteenProcesses (some r.state.allLlmCategorizations)
          = some r.state.processSummary :=
  ⟨by decide, by decide, by decide,
    C6_stops_in_second_iteration asciiLower mockedService fifteenProcesses (by decide)
      (by decide) (by decide) (by decide)⟩

/-- C7: when an iteration starts with at most 10 names under `other`, the loop
ends there, the state unchanged and no call made; when it starts with more than
10 and `iteration <= maxIterations`, `categorizeUnknownProcesses` is called on
the batch of the processes whose name is listed under `other`; and when the
summary is the one `generateProcessSummary` built from the process list, that
batch has at least as many processes as `other`, so it is not empty. -/
theorem C7_threshold (toLowerCase : String → String) (svc : Service) (ps : List Process)
    (N : Int) (fuel : Nat) (st : LoopState) :
    (st.otherProcesses.length ≤ 10 →
        (runLoop toLowerCase svc ps N (fuel + 1) st).state = st ∧
        ((runLoop toLowerCase svc ps N (fuel + 1) st).exit = Exit.converged ∨
          (runLoop toLowerCase svc ps N (fuel + 1) st).exit = Exit.exhausted)) ∧
      (10 < st.otherProcesses.length → st.iteration ≤ N →
        ∃ more, (runLoop toLowerCase svc ps N (fuel + 1) st).state.calls
          = st.calls ++ unknownProcessObjs ps st.otherProcesses :: more) ∧
      (∀ llm, generateProcessSummary toLowerCase ps llm = some st.processSummary →
        st.otherProcesses.length ≤ (unknownProcessObjs ps st.otherProcesses).length) := by
  refine ⟨?_, ?_, ?_⟩
  · intro h
    rw [runLoop_succ]
    split_ifs <;> simp
  · intro h hN
    rw [runLoop_succ, if_pos hN, if_neg (by omega)]
    split_ifs with h3
    · exact ⟨[], rfl⟩
    · split
      · exact ⟨[], rfl⟩
      · rename_i s1 _
        obtain ⟨more, hmore, _⟩ := runLoop_calls_extend toLowerCase svc ps N fuel
          { iteration := st.iteration + 1
            processSummary := s1
            allLlmCategorizations := st.allLlmCategorizations.spread
              (svc st.calls.length (unknownProcessObjs ps st.otherProcesses)).categorizations
            allLlmDetails := st.allLlmDetails.spread
              (svc st.calls.length (unknownProcessObjs ps st.otherProcesses)).details
            calls := st.calls ++ [unknownProcessObjs ps st.otherProcesses] }
        exact ⟨more, by rw [hmore]; simp⟩
  · intro llm h
    exact batch_covers_other toLowerCase llm ps st.processSummary h

/-- C7 (witness): with one name under `other` the first iteration makes no call;
with eleven it calls the service on the twelve processes of that name. -/
theorem C7_threshold_witness :
    (runLoop asciiLower emptyService sameNameProcesses 5 6
        (initialState (summaryOfOther ["agent.exe"]))).state
          = initialState (summaryOfOther ["agent.exe"]) ∧
      (unknownProcessObjs sameNameProcesses (List.replicate 11 "agent.exe")).length = 12 ∧
      ∃ more, (runLoop asciiLower emptyService sameNameProcesses 5 6
        (initialState (summaryOfOther (List.replicate 11 "agent.exe")))).state.calls
          = [] ++ unknownProcessObjs sameNameProcesses (List.replicate 11 "agent.exe") :: more :=
  ⟨((C7_threshold asciiLower emptyService sameNameProcesses 5 5
      (initialState (summaryOfOther ["agent.exe"]))).1 (by decide)).1,
    by decide,
    (C7_threshold asciiLower emptyService sameNameProcesses 5 5
      (initialState (summaryOfOther (List.replicate 11 "agent.exe")))).2.1
      (by decide) (by decide)⟩

/-- C8 (failing input): for the process `updater.exe`, which matches no keyword,
and an LLM map giving it the category `constructor`, `cat[llmCategory]` is the
inherited `Object` constructor, the call of its `push` throws, and
`categorizeProcesses` and `generateProcessSummary` return no buckets at all. -/
theorem C8_inherited_member_throws :
    keywordCategory asciiLower updaterProcess = none ∧
      catMember "constructor" = CatMember.inherited ∧
      (categorizeProcesses asciiLower [updaterProcess] (some constructorLlmMap)).isNone = true ∧
      (generateProcessSummary asciiLower [updaterProcess] (some constructorLlmMap)).isNone
        = true := by
  decide

/-- C9 (failing input): the record of `updater.exe`, as `getRunningProcesses`
builds it, has no `cwd` member; on an enabled cache with a TTL of 24 hours
`set` leaves the store as it was and the `get` that follows returns `null`,
whatever the store, the time and the hash. -/
theorem C9_set_then_get_returns_null (toLowerCase : String → String)
    (hash : String → String → String → String) (store : FileSystem) (now : Int) :
    LlmCache.set toLowerCase hash defaultCache store now updaterProcess "office" = store ∧
      (LlmCache.get toLowerCase hash defaultCache
        (LlmCache.set toLowerCase hash defaultCache store now updaterProcess "office")
        now updaterProcess).1 = none := by
  constructor <;> rfl

/-- C10 (failing input): the store holds an entry written at time 0 under the
key of `updater.exe`.  At time 1000, well within the TTL of 24 hours, `get`
returns `null`; at time 86400001, one millisecond past the TTL, `get` returns
`null` but leaves the store as it was, and `getStats` still counts the entry. -/
theorem C10_get_ignores_ttl (toLowerCase : String → String)
    (hash : String → String → String → String) :
    (LlmCache.get toLowerCase hash defaultCache (updaterStore toLowerCase hash) 1000
        updaterProcess).1 = none ∧
      (LlmCache.get toLowerCase hash defaultCache (updaterStore toLowerCase hash) 86400001
        updaterProcess) = (none, updaterStore toLowerCase hash) ∧
      LlmCache.getStats defaultCache "/home/user"
        (LlmCache.get toLowerCase hash defaultCache (updaterStore toLowerCase hash) 86400001
          updaterProcess).2 = CacheStats.entries 1 := by
  refine ⟨rfl, rfl, ?_⟩
  have h : (LlmCache.get toLowerCase hash defaultCache (updaterStore toLowerCase hash) 86400001
        updaterProcess).2 = updaterStore toLowerCase hash := rfl
  rw [h]
  simp [LlmCache.getStats, defaultCache, updaterStore, storeWith, isSuffixOf_json]

/-- C11: two process records that agree, after lower-casing, on name, path and
the first 100 characters of the command line get the same key from
`generateKey`, whatever their other fields. -/
theorem C11_same_fingerprint (toLowerCase : String → String)
    (hash : String → String → String → String) (p q : Process)
    (hname : toLowerCase p.name = toLowerCase q.name)
    (hpath : toLowerCase p.path = toLowerCase q.path)
    (hcommand : (toLowerCase p.command).data.take 100 = (toLowerCase q.command).data.take 100) :
    LlmCache.generateKey toLowerCase hash p = LlmCache.generateKey toLowerCase hash q := by
  unfold LlmCache.generateKey
  rw [hname, hpath, hcommand]

/-- C11 (witness): two records of `chrome.exe` that differ in pid, cpu, memory
and letter case get the same key. -/
theorem C11_same_fingerprint_witness :
    chromeA.pid ≠ chromeB.pid ∧ chromeA.cpu ≠ chromeB.cpu ∧ chromeA.mem ≠ chromeB.mem ∧
      LlmCache.generateKey asciiLower joinedKey chromeA
        = LlmCache.generateKey asciiLower joinedKey chromeB :=
  ⟨by decide, by decide, by decide,
    C11_same_fingerprint asciiLower joinedKey chromeA chromeB (by decide) (by decide)
      (by decide)⟩

/-- C12 (counterexample): an entry with confidence 90 whose category
`astrology` names no bucket of the taxonomy is kept, in both maps. -/
theorem C12_counterexample_off_taxonomy :
    "astrology" ∉ Category.all.map Category.key ∧
      categorizeUnknownProcesses asciiLower asciiLower noNumber
        (fun _ => ParseOutcome.entries [some offTaxonomyEntry]) (fun _ => some "\x7b\x7d")
        [updaterProcess]
        = CategorizeResult.maps [("updater.exe", JsVal.str "astrology")]
            [("updater.exe", offTaxonomyDetail)] := by
  decide

/-- C12 (amended): when the response parses to an array of entries and the loop
over it does not throw, `categorizeUnknownProcesses` returns maps whose keys are
exactly the lower-cased process names of the entries with a truthy process, a
truthy category and a confidence greater than 50; the category is not compared
with the taxonomy. -/
theorem C12_kept_entries (toLowerCase toUpperCase : String → String)
    (stringToNumber : String → Option ℚ) (parseJson : String → ParseOutcome)
    (generate : List ProcessDetail → Option String) (batch : List Process)
    (response span : String) (entries : List (Option RawEntry))
    (cats : JsMap JsVal) (details : JsMap Detail) (hbatch : batch ≠ [])
    (hgenerate : generate (processDetails toLowerCase toUpperCase (topUnknown batch))
      = some response)
    (hspan : extractSpan response = some span)
    (hparse : parseJson span = ParseOutcome.entries entries)
    (hloop : collectEntries toLowerCase stringToNumber ([], []) entries = some (cats, details)) :
    categorizeUnknownProcesses toLowerCase toUpperCase stringToNumber parseJson generate batch
        = CategorizeResult.maps cats details ∧
      ∀ k, (k ∈ cats.keys ↔ StoredUnder toLowerCase stringToNumber entries k) ∧
        (k ∈ details.keys ↔ StoredUnder toLowerCase stringToNumber entries k) := by
  constructor
  · unfold categorizeUnknownProcesses
    simp [hbatch, hgenerate, hspan, hparse, hloop]
  · intro k
    have := collectEntries_keys toLowerCase stringToNumber entries ([], []) (cats, details)
      hloop k
    simpa [JsMap.keys] using this

/-- C12 (witness): the entry with category `astrology` and confidence 90. -/
theorem C12_kept_entries_witness :
    categorizeUnknownProcesses asciiLower asciiLower noNumber
        (fun _ => ParseOutcome.entries [some offTaxonomyEntry]) (fun _ => some "\x7b\x7d")
        [updaterProcess]
        = CategorizeResult.maps [("updater.exe", JsVal.str "astrology")]
            [("updater.exe", offTaxonomyDetail)] :=
  (C12_kept_entries asciiLower asciiLower noNumber
    (fun _ => ParseOutcome.entries [some offTaxonomyEntry]) (fun _ => some "\x7b\x7d")
    [updaterProcess] "\x7b\x7d" "\x7b\x7d" [some offTaxonomyEntry] _ _ (by decide) rfl (by decide) rfl
    (by decide)).1

/-- C13: for a non-empty batch, when the generation call fails, or its response
has no `{...}` span, or the span is not valid JSON, or the JSON has no
`categorizations` array, `categorizeUnknownProcesses` returns
`{ categorizations: {}, details: {} }`. -/
theorem C13_failures_give_empty_result (toLowerCase toUpperCase : String → String)
    (stringToNumber : String → Option ℚ) (parseJson : String → ParseOutcome)
    (generate : List ProcessDetail → Option String) (batch : List Process)
    (hbatch : batch ≠ [])
    (hfail : generate (processDetails toLowerCase toUpperCase (topUnknown batch)) = none ∨
      ∃ response, generate (processDetails toLowerCase toUpperCase (topUnknown batch))
          = some response ∧
        (extractSpan response = none ∨
          ∃ span, extractSpan response = some span ∧
            (parseJson span = ParseOutcome.invalid ∨ parseJson span = ParseOutcome.noArray))) :
    categorizeUnknownProcesses toLowerCase toUpperCase stringToNumber parseJson generate batch
      = CategorizeResult.maps [] [] := by
  unfold categorizeUnknownProcesses
  rcases hfail with h | ⟨response, hg, h | ⟨span, hs, h | h⟩⟩
  · simp [hbatch, h]
  · simp [hbatch, hg, h]
  · simp [hbatch, hg, hs, h]
  · simp [hbatch, hg, hs, h]

/-- C13 (witness): a failed call, a response without braces, invalid JSON, and
JSON without the array, each on the batch of `updater.exe`. -/
theorem C13_failures_give_empty_result_witness :
    categorizeUnknownProcesses asciiLower asciiLower noNumber (fun _ => ParseOutcome.invalid)
        (fun _ => none) [updaterProcess] = CategorizeResult.maps [] [] ∧
      categorizeUnknownProcesses asciiLower asciiLower noNumber (fun _ => ParseOutcome.invalid)
        (fun _ => some "no json here") [updaterProcess] = CategorizeResult.maps [] [] ∧
      categorizeUnknownProcesses asciiLower asciiLower noNumber (fun _ => ParseOutcome.invalid)
        (fun _ => some "\x7boops\x7d") [updaterProcess] = CategorizeResult.maps [] [] ∧
      categorizeUnknownProcesses asciiLower asciiLower noNumber (fun _ => ParseOutcome.noArray)
        (fun _ => some "\x7b\x7d") [updaterProcess] = CategorizeResult.maps [] [] :=
  ⟨C13_failures_give_empty_result asciiLower asciiLower noNumber (fun _ => ParseOutcome.invalid)
      (fun _ => none) [updaterProcess] (by decide) (Or.inl rfl),
    C13_failures_give_empty_result asciiLower asciiLower noNumber (fun _ => ParseOutcome.invalid)
      (fun _ => some "no json here") [updaterProcess] (by decide)
      (Or.inr ⟨"no json here", rfl, Or.inl (by decide)⟩),
    C13_failures_give_empty_result asciiLower asciiLower noNumber (fun _ => ParseOutcome.invalid)
      (fun _ => some "\x7boops\x7d") [updaterProcess] (by decide)
      (Or.inr ⟨"\x7boops\x7d", rfl, Or.inr ⟨"\x7boops\x7d", by decide, Or.inl rfl⟩⟩),
    C13_failures_give_empty_result asciiLower asciiLower noNumber (fun _ => ParseOutcome.noArray)
      (fun _ => some "\x7b\x7d") [updaterProcess] (by decide)
      (Or.inr ⟨"\x7b\x7d", rfl, Or.inr ⟨"\x7b\x7d", by decide, Or.inr rfl⟩⟩)⟩

/-- C14 (counterexample): in a response with two brace groups the first
balanced span is the first group, but the span extracted and handed to the
parser is the whole text from the first `{` to the last `}`. -/
theorem C14_counterexample_two_groups :
    firstBalancedSpan twoGroupResponse.data = some "\x7b\"categorizations\": []\x7d".data ∧
      extractSpan twoGroupResponse = some "\x7b\"categorizations\": []\x7d Note: \x7bdone\x7d" ∧
      extractSpan twoGroupResponse ≠ some "\x7b\"categorizations\": []\x7d" := by
  decide

/-- C14 (amended): the span `categorizeUnknownProcesses` extracts from a response
is the text from the first `{` to the last `}` of the response; there is one
exactly when a `}` follows the first `{`. -/
theorem C14_first_brace_to_last_brace (response span : String) :
    extractSpan response = some span ↔
      ∃ pre mid post, response.data = pre ++ ('{' :: mid) ++ ('}' :: post) ∧
        span.data = '{' :: mid ++ ['}'] ∧ '{' ∉ pre ∧ '}' ∉ post := by
  unfold extractSpan
  constructor
  · intro h
    cases hc : extractSpanChars response.data with
    | none => rw [hc] at h; cases h
    | some l =>
      rw [hc] at h
      simp only [Option.map_some', Option.some.injEq] at h
      obtain ⟨pre, mid, post, h1, h2, h3, h4⟩ := (extractSpanChars_iff _ _).mp hc
      exact ⟨pre, mid, post, h1, by rw [← h, h2], h3, h4⟩
  · rintro ⟨pre, mid, post, h1, h2, h3, h4⟩
    have := (extractSpanChars_iff response.data span.data).mpr ⟨pre, mid, post, h1, h2, h3, h4⟩
    rw [this]
    rfl

/-- C15 (counterexample): an entry with confidence 150 is kept, and the
confidence stored in `details` is 150, outside `[0, 100]`. -/
theorem C15_counterexample_150 :
    (collectEntries asciiLower noNumber ([], []) [some overconfidentEntry]).map
        (fun maps => (maps.2.get "updater.exe").map (fun d => d.confidence))
        = some (some (JsVal.num 150)) ∧
      ¬ ((150 : ℚ) ≤ 100) := by
  decide

/-- C15 (amended): the confidence stored in `details` for a kept entry is the
value the service sent for some entry of the response, not coerced or clamped,
and its numeric value is greater than 50; an entry whose confidence is missing,
is a string that is no number, or has a numeric value of at most 50 is never
kept. -/
theorem C15_confidence_as_sent (toLowerCase : String → String)
    (stringToNumber : String → Option ℚ) (entries : List (Option RawEntry))
    (cats : JsMap JsVal) (details : JsMap Detail)
    (hloop : collectEntries toLowerCase stringToNumber ([], []) entries = some (cats, details)) :
    (∀ k d, details.get k = some d →
        (∃ q, d.confidence.toNumber stringToNumber = some q ∧ 50 < q) ∧
        ∃ e, some e ∈ entries ∧ d.confidence = e.confidence) ∧
      (∀ e maps, greaterThan50 stringToNumber e.confidence = false →
        keepEntry toLowerCase stringToNumber maps (some e) = some maps) ∧
      greaterThan50 stringToNumber JsVal.undefined = false ∧
      (∀ s, stringToNumber s = none → greaterThan50 stringToNumber (JsVal.str s) = false) ∧
      (∀ q : ℚ, q ≤ 50 → greaterThan50 stringToNumber (JsVal.num q) = false) := by
  refine ⟨?_, ?_, rfl, ?_, ?_⟩
  · intro k d hd
    rcases collectEntries_details toLowerCase stringToNumber entries ([], []) (cats, details)
      hloop k d hd with h | ⟨e, hmem, hacc, hde⟩
    · simp [JsMap.get] at h
    · have hgt := accepted_greaterThan50 stringToNumber e hacc
      subst hde
      refine ⟨?_, e, hmem, rfl⟩
      unfold greaterThan50 at hgt
      simp only [detailOf]
      cases hn : e.confidence.toNumber stringToNumber with
      | none => rw [hn] at hgt; cases hgt
      | some q =>
        rw [hn] at hgt
        exact ⟨q, rfl, by simpa using hgt⟩
  · intro e maps h
    unfold keepEntry RawEntry.accepted
    simp [h]
  · intro s hs
    simp [greaterThan50, JsVal.toNumber, hs]
  · intro q hq
    simp [greaterThan50, JsVal.toNumber, not_lt.mpr hq]

/-- C15 (witness): the entry with confidence 150 is stored with confidence 150. -/
theorem C15_confidence_as_sent_witness :
    collectEntries asciiLower noNumber ([], []) [some overconfidentEntry]
        = some ([("updater.exe", JsVal.str "security")],
            [("updater.exe", detailOf overconfidentEntry)]) ∧
      ∃ q, (detailOf overconfidentEntry).confidence.toNumber noNumber = some q ∧ 50 < q :=
  ⟨by decide,
    ((C15_confidence_as_sent asciiLower noNumber [some overconfidentEntry] _ _
      (by decide : collectEntries asciiLower noNumber ([], []) [some overconfidentEntry]
        = some ([("updater.exe", JsVal.str "security")],
            [("updater.exe", detailOf overconfidentEntry)]))).1
      "updater.exe" (detailOf overconfidentEntry) (by decide)).1⟩

/-- C16: for a batch in which no sum `cpu + mem` is `NaN` (as for the finite
percentages of the records `getRunningProcesses` builds), the candidates of the
prompt are the first 30 processes of the batch sorted by `cpu + mem`, the
number the comparator computes, in non-increasing order: `min(30, n)` of them,
every process left out has `cpu + mem` no greater than that of every
candidate, and `categorizeUnknownProcesses` passes the description of exactly
these to the generation call. -/
theorem C16_top_candidates (ps : List Process)
    (hnum : ∀ p ∈ ps, usage p ≠ JsNumber.nan) :
    (topUnknown ps).length = min 30 ps.length ∧
      List.Pairwise (fun a b => (usage b).le (usage a) = true) (topUnknown ps) ∧
      (∃ leftOut, List.Perm (topUnknown ps ++ leftOut) ps ∧
        ∀ x ∈ leftOut, ∀ y ∈ topUnknown ps, (usage x).le (usage y) = true) ∧
      (∀ (toLowerCase toUpperCase : String → String),
        (processDetails toLowerCase toUpperCase (topUnknown ps)).map (fun d => d.name)
          = (topUnknown ps).map (fun p => p.name)) ∧
      (∀ (toLowerCase toUpperCase : String → String) (stringToNumber : String → Option ℚ)
        (parseJson : String → ParseOutcome) (generate generate' : List ProcessDetail → Option String),
        generate (processDetails toLowerCase toUpperCase (topUnknown ps))
          = generate' (processDetails toLowerCase toUpperCase (topUnknown ps)) →
        categorizeUnknownProcesses toLowerCase toUpperCase stringToNumber parseJson generate ps
          = categorizeUnknownProcesses toLowerCase toUpperCase stringToNumber parseJson
              generate' ps) := by
  have hsorted := sorted_by_usage ps hnum
  have hsplit : ps.insertionSort usageOrder
      = topUnknown ps ++ (ps.insertionSort usageOrder).drop 30 := by
    unfold topUnknown
    exact (List.take_append_drop 30 _).symm
  refine ⟨?_, ?_, ?_, ?_, ?_⟩
  · unfold topUnknown
    rw [List.length_take, (List.perm_insertionSort usageOrder ps).length_eq]
  · rw [hsplit] at hsorted
    exact (List.pairwise_append.mp hsorted).1
  · refine ⟨(ps.insertionSort usageOrder).drop 30, ?_, ?_⟩
    · rw [← hsplit]
      exact List.perm_insertionSort usageOrder ps
    · intro x hx y hy
      rw [hsplit] at hsorted
      exact (List.pairwise_append.mp hsorted).2.2 y hy x hx
  · intro toLowerCase toUpperCase
    simp [processDetails]
  · intro toLowerCase toUpperCase stringToNumber parseJson generate generate' h
    unfold categorizeUnknownProcesses
    simp only [h]

/-- C16 (witness): four processes with the sums `0.3`, `2 ^ 53`,
`0.30000000000000004` (from `0.1 + 0.2`) and `2 ^ 53` again (from
`2 ^ 53 + 1`, which rounds).  The two processes of sum `2 ^ 53` come first, in
input order, then the process of `0.1 + 0.2`, then the process of `0.3`. -/
theorem C16_top_candidates_witness :
    (∀ p ∈ [lightProcess, steadyProcess, splitProcess, busyProcess], usage p ≠ JsNumber.nan) ∧
      usage busyProcess = usage steadyProcess ∧
      usage splitProcess = JsNumber.dyadic 5404319552844596 54 ∧
      topUnknown [lightProcess, steadyProcess, splitProcess, busyProcess]
        = [steadyProcess, busyProcess, splitProcess, lightProcess] ∧
      List.Pairwise (fun a b => (usage b).le (usage a) = true)
        (topUnknown [lightProcess, steadyProcess, splitProcess, busyProcess]) :=
  ⟨by decide, by decide, by decide, by decide,
    (C16_top_candidates [lightProcess, steadyProcess, splitProcess, busyProcess]
      (by decide)).2.1⟩

/-- C17: the `risks` of `analyzeSecurityRisks` are, in input order, one
`dangerous_port` risk for each connection in state `LISTEN` or `LISTENING`
whose local port is one of 21, 23, 445, 3389, 5900, carrying that port, the
process and the service of the port table (FTP, Telnet, SMB, RDP, VNC), and
nothing else; a listener on port 23 gives port 23, service `Telnet` and risk
level `elevated`. -/
theorem C17_dangerous_port_risks (conns : List Connection) :
    (analyzeSecurityRisks conns).risks =
        (conns.filter (fun c => decide ((c.state = "LISTEN" ∨ c.state = "LISTENING") ∧
          c.localPort ∈ [21, 23, 445, 3389, 5900]))).map dangerousPortRisk ∧
      (∀ c, (dangerousPortRisk c).type = "dangerous_port" ∧
        (dangerousPortRisk c).port = c.localPort ∧
        (dangerousPortRisk c).process = c.process ∧
        (dangerousPortRisk c).service = identifyService c.localPort) ∧
      identifyService 21 = "FTP" ∧ identifyService 23 = "Telnet" ∧
      identifyService 445 = "SMB" ∧ identifyService 3389 = "RDP" ∧
      identifyService 5900 = "VNC" ∧
      (analyzeSecurityRisks [telnetListener]).risks.map (fun r => (r.type, r.port, r.service))
        = [("dangerous_port", 23, "Telnet")] ∧
      (analyzeSecurityRisks [telnetListener]).riskLevel = "elevated" := by
  refine ⟨?_, fun c => ⟨rfl, rfl, rfl, rfl⟩, by decide, by decide, by decide, by decide,
    by decide, by decide, by decide⟩
  rw [analyzeSecurityRisks_risks]
  congr 1
  apply List.filter_congr
  intro c _
  rw [Bool.eq_iff_iff]
  simp only [isDangerousListener, isListening, dangerousPorts, List.mem_cons,
    List.mem_singleton, List.not_mem_nil, or_false, Bool.and_eq_true, Bool.or_eq_true,
    decide_eq_true_eq]
  tauto

/-- C18 (counterexample): an `ESTABLISHED` connection to `8.8.8.8` whose peer
port is 0, a port outside the common ports, produces no warning. -/
theorem C18_counterexample_port_zero :
    outboundToPortZero.state = "ESTABLISHED" ∧
      isLocalAddress outboundToPortZero.peerAddress = false ∧
      outboundToPortZero.peerPort ∉ [80, 443, 53, 8080, 8443] ∧
      (analyzeSecurityRisks [outboundToPortZero]).warnings = [] := by
  decide

/-- C18 (amended): the `warnings` of `analyzeSecurityRisks` are, in input order,
one `unusual_outbound` warning for each connection whose state is `ESTABLISHED`,
whose peer address is not local, whose peer port is not 0 and whose peer port is
outside 80, 443, 53, 8080, 8443, and nothing else; a connection to `8.8.8.8`
port 4444 gives a warning. -/
theorem C18_unusual_outbound_warnings (conns : List Connection) :
    (analyzeSecurityRisks conns).warnings =
        (conns.filter (fun c => decide (c.state = "ESTABLISHED" ∧
          isLocalAddress c.peerAddress = false ∧ c.peerPort ≠ 0 ∧
          c.peerPort ∉ [80, 443, 53, 8080, 8443]))).map unusualOutboundWarning ∧
      (∀ c, (unusualOutboundWarning c).type = "unusual_outbound" ∧
        (unusualOutboundWarning c).peerAddress = c.peerAddress ∧
        (unusualOutboundWarning c).peerPort = c.peerPort) ∧
      (analyzeSecurityRisks [outboundTo4444]).warnings.map
          (fun w => (w.type, w.peerAddress, w.peerPort))
        = [("unusual_outbound", "8.8.8.8", 4444)] := by
  refine ⟨?_, fun c => ⟨rfl, rfl, rfl⟩, by decide⟩
  rw [analyzeSecurityRisks_warnings]
  congr 1
  apply List.filter_congr
  intro c _
  rw [Bool.eq_iff_iff]
  simp only [isUnusualOutbound, commonPorts, Bool.and_eq_true, decide_eq_true_eq,
    Bool.not_eq_true', decide_eq_false_iff_not]
  tauto

/-- C19: the risk level of `analyzeSecurityRisks` is `elevated` exactly when
`risks` is not empty, that is when some connection is a listener on a dangerous
port, and `normal` otherwise; the warnings play no part. -/
theorem C19_risk_level (conns : List Connection) :
    ((analyzeSecurityRisks conns).riskLevel = "elevated" ↔
        (analyzeSecurityRisks conns).risks ≠ []) ∧
      ((analyzeSecurityRisks conns).riskLevel = "normal" ↔
        (analyzeSecurityRisks conns).risks = []) ∧
      ((analyzeSecurityRisks conns).riskLevel = "elevated" ↔
        ∃ c ∈ conns, (c.state = "LISTEN" ∨ c.state = "LISTENING") ∧
          c.localPort ∈ [21, 23, 445, 3389, 5900]) ∧
      (analyzeSecurityRisks [outboundTo4444]).warnings ≠ [] ∧
      (analyzeSecurityRisks [outboundTo4444]).riskLevel = "normal" := by
  have hlevel : (analyzeSecurityRisks conns).riskLevel
      = if (analyzeSecurityRisks conns).risks.length > 0 then "elevated" else "normal" := rfl
  have hne : ("elevated" : String) ≠ "normal" := by decide
  refine ⟨?_, ?_, ?_, by decide, by decide⟩
  · rw [hlevel]
    cases h : (analyzeSecurityRisks conns).risks with
    | nil => simp [hne.symm]
    | cons r rs => simp
  · rw [hlevel]
    cases h : (analyzeSecurityRisks conns).risks with
    | nil => simp
    | cons r rs => simp [hne]
  · rw [hlevel, analyzeSecurityRisks_risks]
    have hmem : (∃ c ∈ conns, (c.state = "LISTEN" ∨ c.state = "LISTENING") ∧
        c.localPort ∈ [21, 23, 445, 3389, 5900]) ↔ ∃ c ∈ conns, isDangerousListener c = true := by
      apply exists_congr
      intro c
      apply and_congr_right
      intro _
      simp only [isDangerousListener, isListening, dangerousPorts, List.mem_cons,
        List.mem_singleton, List.not_mem_nil, or_false, Bool.and_eq_true, Bool.or_eq_true,
        decide_eq_true_eq]
      tauto
    rw [hmem]
    cases h : conns.filter isDangerousListener with
    | nil =>
      simp only [List.map_nil, List.length_nil, gt_iff_lt, lt_self_iff_false, if_false]
      constructor
      · intro h0; exact absurd h0 hne.symm
      · rintro ⟨c, hc, hd⟩
        have : c ∈ conns.filter isDangerousListener := List.mem_filter.mpr ⟨hc, hd⟩
        rw [h] at this
        cases this
    | cons r rs =>
      simp only [List.map_cons, List.length_cons, gt_iff_lt, Nat.zero_lt_succ, if_true, true_iff]
      have : r ∈ conns.filter isDangerousListener := by rw [h]; exact List.mem_cons_self _ _
      exact ⟨r, (List.mem_filter.mp this).1, (List.mem_filter.mp this).2⟩

/-- C20 (failing input): `172.20.0.1` lies in `172.16.0.0/12` and `127.0.0.2`
in `127.0.0.0/8`, yet `isLocalAddress` returns false for both and an
`ESTABLISHED` connection to either on port 9999 produces an `unusual_outbound`
warning; the connection to `192.168.1.1` produces none. -/
theorem C20_private_address_not_local :
    isLocalAddress "172.20.0.1" = false ∧ isLocalAddress "127.0.0.2" = false ∧
      (analyzeSecurityRisks [outboundToPrivate172]).warnings
        = [unusualOutboundWarning outboundToPrivate172] ∧
      (analyzeSecurityRisks [outboundToLoopback2]).warnings
        = [unusualOutboundWarning outboundToLoopback2] ∧
      isLocalAddress "192.168.1.1" = true ∧
      (analyzeSecurityRisks [outboundToLan]).warnings = [] := by
  decide

/-- C21 (failing input): for the single risk of a listener on the VNC port
5900 `generateSecurityRecommendations` has no VNC string and returns the
`no significant risk` string, although the risk list is not empty and the risk
level is `elevated`. -/
theorem C21_no_vnc_recommendation :
    (analyzeSecurityRisks [vncListener]).risks = [dangerousPortRisk vncListener] ∧
      (analyzeSecurityRisks [vncListener]).riskLevel = "elevated" ∧
      generateSecurityRecommendations [dangerousPortRisk vncListener]
        = ["Nessun rischio significativo rilevato"] ∧
      (analyzeSecurityRisks [vncListener]).recommendations
        = ["Nessun rischio significativo rilevato"] := by
  decide

/-- C22: for connections whose states and protocols are not names of members of
`Object.prototype`, `analyzeConnections` counts by state and by protocol:
`byState[s]` is the number of connections with state `s` (no key for a state
that does not occur), no key is repeated and the counts sum to `total`, likewise
for `byProtocol`; `listeningPorts` has one entry, in input order, per connection
in state `LISTEN` or `LISTENING`, `establishedConnections` is the sub-list of
the `ESTABLISHED` connections, and their lengths are the `listeningPorts` and
`establishedConnections` counts of `generateSummary`. -/
theorem C22_connection_partition (conns : List Connection)
    (hwf : ∀ c ∈ conns, c.state ∉ objectPrototypeKeys ∧ c.protocol ∉ objectPrototypeKeys) :
    (analyzeConnections conns).total = conns.length ∧
      (∀ s, (analyzeConnections conns).byState.get s =
        if (conns.map (fun c => c.state)).count s = 0 then none
        else some (Tally.count ((conns.map (fun c => c.state)).count s))) ∧
      (analyzeConnections conns).byState.keys.Nodup ∧
      tallyTotal (analyzeConnections conns).byState = (analyzeConnections conns).total ∧
      (∀ s, (analyzeConnections conns).byProtocol.get s =
        if (conns.map (fun c => c.protocol)).count s = 0 then none
        else some (Tally.count ((conns.map (fun c => c.protocol)).count s))) ∧
      (analyzeConnections conns).byProtocol.keys.Nodup ∧
      tallyTotal (analyzeConnections conns).byProtocol = (analyzeConnections conns).total ∧
      (analyzeConnections conns).listeningPorts
        = (conns.filter (fun c => decide (c.state = "LISTEN" ∨ c.state = "LISTENING"))).map
            listeningPortOf ∧
      (analyzeConnections conns).establishedConnections
        = conns.filter (fun c => decide (c.state = "ESTABLISHED")) ∧
      (analyzeConnections conns).listeningPorts.length = (generateSummary conns).listeningPorts ∧
      (analyzeConnections conns).establishedConnections.length
        = (generateSummary conns).establishedConnections := by
  have hfold := analyzeConnection_foldl conns
    { total := conns.length, byState := [], byProtocol := [], listeningPorts := [],
      establishedConnections := [], externalConnections := [] }
  have hstate := tally_foldl (conns.map (fun c => c.state))
    (by
      intro k hk
      obtain ⟨c, hc, rfl⟩ := List.mem_map.mp hk
      exact (hwf c hc).1)
    [] [] (by intro s; simp [JsMap.get]) (by simp [JsMap.keys]) (by simp [tallyTotal])
  have hproto := tally_foldl (conns.map (fun c => c.protocol))
    (by
      intro k hk
      obtain ⟨c, hc, rfl⟩ := List.mem_map.mp hk
      exact (hwf c hc).2)
    [] [] (by intro s; simp [JsMap.get]) (by simp [JsMap.keys]) (by simp [tallyTotal])
  simp only [List.nil_append, List.length_map] at hstate hproto
  have hlisten : (fun c : Connection => decide (c.state = "LISTEN" ∨ c.state = "LISTENING"))
      = isListening := by
    funext c
    simp [isListening]
  unfold analyzeConnections
  rw [hfold]
  simp only [List.nil_append, List.length_map, hlisten, generateSummary]
  exact ⟨trivial, hstate.1, hstate.2.1, hstate.2.2, hproto.1, hproto.2.1, hproto.2.2, trivial,
    trivial, trivial, trivial⟩

/-- C22 (witness): two listeners and one established connection. -/
theorem C22_connection_partition_witness :
    (analyzeConnections threeConnections).total = 3 ∧
      (analyzeConnections threeConnections).byState.get "LISTEN" = some (Tally.count 2) ∧
      (analyzeConnections threeConnections).byProtocol.get "udp" = some (Tally.count 1) ∧
      tallyTotal (analyzeConnections threeConnections).byState
        = (analyzeConnections threeConnections).total :=
  ⟨by decide, by decide, by decide,
    (C22_connection_partition threeConnections (by decide)).2.2.2.1⟩

/-- C23 (failing input): the cache directory holds an entry for `Zeta01.exe`
written at time 0, unexpired at time 1000, yet the first iteration of
`runLlmAnalysis` sends `Zeta01.exe` to the service with the other fourteen:
the loop never consults the cache that `cache.js` provides to avoid repeated
analyses and that the configuration enables by default. -/
theorem C23_cached_process_is_sent :
    (zetaStore (pathJoin "/home/user" defaultCache.cacheDir)).bind
        (fun files => files.get (LlmCache.generateKey asciiLower joinedKey zetaProcess ++ ".json"))
        = some (FileContent.entry 0 "Zeta01.exe" "office") ∧
      ¬ ((1000 : Int) - 0 > defaultCache.ttlHours * 3600000) ∧
      zetaProcess ∈ fifteenProcesses ∧
      (analysis asciiLower mockedService fifteenProcesses 5).map (fun r => r.state.calls)
        = some [fifteenProcesses] := by
  decide

/-- C24: `getMultiple` partitions the batch by the test `if (cached)` on what
`get` returns for each process: `notCached` is the sub-list, in input order, of
the processes for which `get` returns `null` (or an empty value), the keys of
`cached` are the lower-cased names of the other processes, every value of
`cached` is what `get` returns for a process of that name, and the two groups
add up to the batch; for records without a callable `cwd`, as the program
builds them, `notCached` is the whole batch and `cached` is empty. -/
theorem C24_getMultiple_partition (toLowerCase : String → String)
    (hash : String → String → String → String) (cache : LlmCache) (store : FileSystem)
    (now : Int) (batch : List Process) :
    (LlmCache.getMultiple toLowerCase hash cache store now batch).notCached
        = batch.filter (fun p => !isHit toLowerCase hash cache store now p) ∧
      (∀ k, k ∈ (LlmCache.getMultiple toLowerCase hash cache store now batch).cached.keys ↔
        ∃ p ∈ batch, isHit toLowerCase hash cache store now p = true ∧ toLowerCase p.name = k) ∧
      (∀ k d, (LlmCache.getMultiple toLowerCase hash cache store now batch).cached.get k = some d →
        ∃ p ∈ batch, toLowerCase p.name = k ∧
          (LlmCache.get toLowerCase hash cache store now p).1 = some d) ∧
      (batch.filter (fun p => isHit toLowerCase hash cache store now p)).length +
          (LlmCache.getMultiple toLowerCase hash cache store now batch).notCached.length
        = batch.length ∧
      ((∀ p ∈ batch, p.cwd = none) →
        (LlmCache.getMultiple toLowerCase hash cache store now batch).notCached = batch ∧
        (LlmCache.getMultiple toLowerCase hash cache store now batch).cached.keys = []) := by
  obtain ⟨h1, h2, h3⟩ := getMultiple_foldl toLowerCase hash cache now store batch
    { cached := [], notCached := [], store := store } (fun _ => rfl)
  have hn : (LlmCache.getMultiple toLowerCase hash cache store now batch).notCached
      = batch.filter (fun p => !isHit toLowerCase hash cache store now p) := by
    unfold LlmCache.getMultiple
    rw [h1]
    simp
  have hk : ∀ k, k ∈ (LlmCache.getMultiple toLowerCase hash cache store now batch).cached.keys ↔
      ∃ p ∈ batch, isHit toLowerCase hash cache store now p = true ∧ toLowerCase p.name = k := by
    intro k
    unfold LlmCache.getMultiple
    rw [h2 k]
    simp [JsMap.keys]
  refine ⟨hn, hk, ?_, ?_, ?_⟩
  · intro k d hd
    unfold LlmCache.getMultiple at hd
    rcases h3 k d hd with h | h
    · simp [JsMap.get] at h
    · exact h
  · rw [hn]
    have := List.length_eq_length_filter_add (l := batch)
      (fun p => isHit toLowerCase hash cache store now p)
    omega
  · intro hcwd
    have hmiss : ∀ p ∈ batch, isHit toLowerCase hash cache store now p = false := by
      intro p hp
      unfold isHit LlmCache.get
      rw [hcwd p hp]
      by_cases he : cache.enabled = false <;> simp [he]
    constructor
    · rw [hn, List.filter_eq_self]
      intro p hp
      simp [hmiss p hp]
    · apply List.eq_nil_iff_forall_not_mem.mpr
      intro k hmem
      obtain ⟨p, hp, hh, _⟩ := (hk k).mp hmem
      rw [hmiss p hp] at hh
      cases hh

/-- C25 (failing input): a process named `registry`, a name of the default
`excludeProcesses`, is passed to `categorizeUnknownProcesses` in the first
iteration with the fifteen other unresolved processes: `runLlmAnalysis` never
reads `excludeProcesses`. -/
theorem C25_excluded_process_is_sent :
    registryProcess.name ∈ excludeProcesses ∧
      (analysis asciiLower emptyService (fifteenProcesses ++ [registryProcess]) 5).map
        (fun r => r.state.calls) = some [fifteenProcesses ++ [registryProcess]] ∧
      registryProcess ∈ fifteenProcesses ++ [registryProcess] := by
  decide

/-- C26 (counterexample): for a missing, an empty and an `N/A` path
`analyzePathSecurity` returns `unknown`, which is none of the six classes. -/
theorem C26_counterexample_unknown :
    analyzePathSecurity asciiLower none = "unknown" ∧
      analyzePathSecurity asciiLower (some "") = "unknown" ∧
      analyzePathSecurity asciiLower (some "N/A") = "unknown" ∧
      "unknown" ∉ pathClasses := by
  decide

/-- C26 (amended): `analyzePathSecurity` returns `unknown` for a missing, empty
or `N/A` path, and one of the six classes `system_trusted`, `installed_app`,
`user_app`, `suspicious_temp`, `suspicious_root`, `unknown_location` for every
other path. -/
theorem C26_path_classes (toLowerCase : String → String) (path : Option String) :
    ((path = none ∨ path = some "" ∨ path = some "N/A") →
        analyzePathSecurity toLowerCase path = "unknown") ∧
      (∀ p, path = some p → p ≠ "" → p ≠ "N/A" →
        analyzePathSecurity toLowerCase path ∈ pathClasses) := by
  constructor
  · rintro (h | h | h) <;> subst h <;> simp [analyzePathSecurity]
  · intro p hp h1 h2
    subst hp
    unfold analyzePathSecurity pathClasses
    simp only [h1, h2, or_self, if_false]
    split_ifs <;> simp

/-- C26 (witness): a path under `Program Files` and an executable in the root
of a drive. -/
theorem C26_path_classes_witness :
    analyzePathSecurity asciiLower (some "C:\\Program Files\\App\\app.exe") ∈ pathClasses ∧
      analyzePathSecurity asciiLower (some "C:\\miner.exe") = "suspicious_root" ∧
      analyzePathSecurity asciiLower none = "unknown" :=
  ⟨(C26_path_classes asciiLower (some "C:\\Program Files\\App\\app.exe")).2 _ rfl
      (by decide) (by decide),
    by decide,
    (C26_path_classes asciiLower none).1 (Or.inl rfl)⟩

/-- C27: for a process record without a callable `cwd` member, `get` returns
`null` and leaves the store as it is, whatever the store contains, and `set`
writes nothing. -/
theorem C27_shadowed_process (toLowerCase : String → String)
    (hash : String → String → String → String) (cache : LlmCache) (store : FileSystem)
    (now : Int) (p : Process) (data : String) (hcwd : p.cwd = none) :
    LlmCache.get toLowerCase hash cache store now p = (none, store) ∧
      LlmCache.set toLowerCase hash cache store now p data = store := by
  unfold LlmCache.get LlmCache.set
  rw [hcwd]
  by_cases he : cache.enabled = false <;> simp [he]

/-- C27 (witness): the record of `updater.exe` and a store that holds an
unexpired entry under its key. -/
theorem C27_shadowed_process_witness :
    updaterProcess.cwd = none ∧
      LlmCache.get asciiLower joinedKey defaultCache (updaterStore asciiLower joinedKey) 1000
        updaterProcess = (none, updaterStore asciiLower joinedKey) ∧
      LlmCache.set asciiLower joinedKey defaultCache (updaterStore asciiLower joinedKey) 1000
        updaterProcess "office" = updaterStore asciiLower joinedKey :=
  ⟨rfl, C27_shadowed_process asciiLower joinedKey defaultCache
    (updaterStore asciiLower joinedKey) 1000 updaterProcess "office" rfl⟩

/-- C28: the maps `categorizeUnknownProcesses` returns have the same keys, every
key is the lower-cased process name of an entry of the response, and
`details[k].category` is `categorizations[k]` for every key `k`. -/
theorem C28_maps_agree (toLowerCase toUpperCase : String → String)
    (stringToNumber : String → Option ℚ) (parseJson : String → ParseOutcome)
    (generate : List ProcessDetail → Option String) (batch : List Process)
    (cats : JsMap JsVal) (details : JsMap Detail)
    (h : categorizeUnknownProcesses toLowerCase toUpperCase stringToNumber parseJson generate batch
      = CategorizeResult.maps cats details) :
    cats.keys = details.keys ∧
      (∀ k ∈ cats.keys, ∃ s, k = toLowerCase s) ∧
      ∀ k, cats.get k = (details.get k).map (fun d => d.category) := by
  rcases categorizeUnknownProcesses_maps toLowerCase toUpperCase stringToNumber parseJson
    generate batch cats details h with ⟨h1, h2⟩ | ⟨entries, hloop⟩
  · subst h1 h2
    simp [JsMap.keys, JsMap.get]
  · have hal : Aligned (cats, details) :=
      collectEntries_aligned toLowerCase stringToNumber entries ([], []) (cats, details) hloop rfl
    refine ⟨Aligned.keys_eq _ hal, ?_, Aligned.get_eq _ hal⟩
    intro k hk
    have := (collectEntries_keys toLowerCase stringToNumber entries ([], []) (cats, details)
      hloop k).1.mp hk
    rcases this with h0 | ⟨e, s, _, _, _, hl, _⟩
    · simp [JsMap.keys] at h0
    · exact ⟨s, hl.symm⟩

/-- C28 (witness): the response with the entry of `MsMpEng.exe`. -/
theorem C28_maps_agree_witness :
    categorizeUnknownProcesses asciiLower asciiLower noNumber
        (fun _ => ParseOutcome.entries [some defenderEntry]) (fun _ => some "\x7b\x7d")
        [updaterProcess]
        = CategorizeResult.maps [("msmpeng.exe", JsVal.str "security")]
            [("msmpeng.exe", detailOf defenderEntry)] ∧
      JsMap.keys [("msmpeng.exe", JsVal.str "security")]
        = JsMap.keys [("msmpeng.exe", detailOf defenderEntry)] :=
  ⟨by decide,
    (C28_maps_agree asciiLower asciiLower noNumber
      (fun _ => ParseOutcome.entries [some defenderEntry]) (fun _ => some "\x7b\x7d")
      [updaterProcess] _ _ (by decide)).1⟩

/-- C29: for an upper-casing that leaves the empty string and `N/A` as they
are, every user string whose upper-case form contains `SYSTEM` or
`NT AUTHORITY` gives `system_service`, also when it contains `LOCAL SERVICE` or
`NETWORK SERVICE`; and `limited_service` is returned exactly for the users whose
upper-case form contains `LOCAL SERVICE` or `NETWORK SERVICE` and neither
`SYSTEM` nor `NT AUTHORITY`. -/
theorem C29_user_type (toUpperCase : String → String) (user : String)
    (hempty : toUpperCase "" = "") (hna : toUpperCase "N/A" = "N/A") :
    ((Occurs "SYSTEM" (toUpperCase user) ∨ Occurs "NT AUTHORITY" (toUpperCase user)) →
        analyzeUserType toUpperCase (some user) = "system_service") ∧
      (analyzeUserType toUpperCase (some user) = "limited_service" ↔
        (Occurs "LOCAL SERVICE" (toUpperCase user) ∨
          Occurs "NETWORK SERVICE" (toUpperCase user)) ∧
        ¬ Occurs "SYSTEM" (toUpperCase user) ∧ ¬ Occurs "NT AUTHORITY" (toUpperCase user)) := by
  have hNA1 : ¬ Occurs "LOCAL SERVICE" "N/A" := by
    rw [← includes_iff]; decide
  have hNA2 : ¬ Occurs "NETWORK SERVICE" "N/A" := by
    rw [← includes_iff]; decide
  have hNA3 : ¬ Occurs "SYSTEM" "N/A" := by
    rw [← includes_iff]; decide
  have hNA4 : ¬ Occurs "NT AUTHORITY" "N/A" := by
    rw [← includes_iff]; decide
  have hE1 : ¬ Occurs "LOCAL SERVICE" "" := by
    rw [← includes_iff]; decide
  have hE2 : ¬ Occurs "NETWORK SERVICE" "" := by
    rw [← includes_iff]; decide
  have hE3 : ¬ Occurs "SYSTEM" "" := by
    rw [← includes_iff]; decide
  have hE4 : ¬ Occurs "NT AUTHORITY" "" := by
    rw [← includes_iff]; decide
  have hs : ("system_service" : String) ≠ "limited_service" := by decide
  have hn : ("no_user_info" : String) ≠ "limited_service" := by decide
  have hu : ("user_process" : String) ≠ "limited_service" := by decide
  by_cases hne : user = ""
  · subst hne
    rw [hempty]
    constructor
    · rintro (h | h)
      · exact absurd h hE3
      · exact absurd h hE4
    · simp only [analyzeUserType, true_or, if_true, hn, false_iff]
      rintro ⟨h | h, _⟩
      · exact hE1 h
      · exact hE2 h
  · by_cases hNA : user = "N/A"
    · subst hNA
      rw [hna]
      constructor
      · rintro (h | h)
        · exact absurd h hNA3
        · exact absurd h hNA4
      · simp only [analyzeUserType, or_true, if_true, hn, false_iff]
        rintro ⟨h | h, _⟩
        · exact hNA1 h
        · exact hNA2 h
    · unfold analyzeUserType
      simp only [hne, hNA, or_self, if_false]
      by_cases h1 : (includes (toUpperCase user) "SYSTEM" ||
          includes (toUpperCase user) "NT AUTHORITY") = true
      · simp only [h1, if_true, hs, false_iff, forall_const, true_and]
        simp only [Bool.or_eq_true, includes_iff] at h1
        tauto
      · simp only [h1, Bool.false_eq_true, if_false]
        by_cases h2 : (includes (toUpperCase user) "LOCAL SERVICE" ||
            includes (toUpperCase user) "NETWORK SERVICE") = true
        · simp only [h2, if_true, true_iff]
          simp only [Bool.or_eq_true, includes_iff] at h1 h2
          tauto
        · simp only [h2, Bool.false_eq_true, if_false, hu, false_iff]
          simp only [Bool.or_eq_true, includes_iff] at h1 h2
          tauto

/-- C29 (witness): the user `NT AUTHORITY\LOCAL SERVICE` gives `system_service`,
the user `local service` gives `limited_service`. -/
theorem C29_user_type_witness :
    asciiUpper "" = "" ∧ asciiUpper "N/A" = "N/A" ∧
      analyzeUserType asciiUpper (some "NT AUTHORITY\\LOCAL SERVICE") = "system_service" ∧
      analyzeUserType asciiUpper (some "local service") = "limited_service" :=
  ⟨by decide, by decide,
    (C29_user_type asciiUpper "NT AUTHORITY\\LOCAL SERVICE" (by decide) (by decide)).1
      (Or.inr ((includes_iff _ _).mp (by decide))),
    by decide⟩

/-- C30: a process whose lower-cased text `name command path` contains `parsec`
or `moonlight` is never pushed to `streaming`, with any LLM map or none: the
keyword scan stops at `networking` or at an earlier category, so in every result
of `categorizeProcesses` the bucket `streaming` does not contain it. -/
theorem C30_parsec_never_streaming (toLowerCase : String → String) (llm : Option LlmMap)
    (p : Process)
    (h : Occurs "parsec" (processText toLowerCase p) ∨
      Occurs "moonlight" (processText toLowerCase p)) :
    (∃ c, keywordCategory toLowerCase p = some c ∧ c ≠ Category.streaming) ∧
      (∀ b b', placeProcess toLowerCase llm b p = some b' →
        b' Category.streaming = b Category.streaming) ∧
      (∀ ps cat, categorizeProcesses toLowerCase ps llm = some cat →
        p ∉ cat Category.streaming) := by
  have hkw : kw = kw.take 7 ++ (Category.networking,
      ["nordvpn", "expressvpn", "surfshark", "protonvpn", "mullvad",
       "wireshark", "putty", "winscp", "filezilla", "cyberduck",
       "teamviewer", "anydesk", "parsec", "moonlight", "sunshine",
       "remotedesktop", "mstsc", "realvnc", "tightvnc", "rustdesk",
       "nmap", "fiddler", "postman", "insomnia", "charles", "proxyman",
       "ngrok", "tailscale", "zerotier", "netsetman"]) :: kw.drop 8 := by
    decide
  have hmatch : EntryMatches (processText toLowerCase p) (Category.networking,
      ["nordvpn", "expressvpn", "surfshark", "protonvpn", "mullvad",
       "wireshark", "putty", "winscp", "filezilla", "cyberduck",
       "teamviewer", "anydesk", "parsec", "moonlight", "sunshine",
       "remotedesktop", "mstsc", "realvnc", "tightvnc", "rustdesk",
       "nmap", "fiddler", "postman", "insomnia", "charles", "proxyman",
       "ngrok", "tailscale", "zerotier", "netsetman"]) := by
    rcases h with h | h
    · exact ⟨"parsec", by simp, h⟩
    · exact ⟨"moonlight", by simp, h⟩
  obtain ⟨c, hc, hmem⟩ := keywordScan_of_match (processText toLowerCase p) _ hmatch
    (kw.drop 8) (kw.take 7)
  rw [← hkw] at hc
  have hne : c ≠ Category.streaming := by
    intro e
    rw [e] at hmem
    revert hmem
    decide
  have hk : keywordCategory toLowerCase p = some c := hc
  have hpl : placement toLowerCase llm p = some c := by
    unfold placement; rw [hk]
  refine ⟨⟨c, hk, hne⟩, ?_, ?_⟩
  · intro b b' hb
    rw [placeProcess_eq, hpl] at hb
    simp only [Option.map_some', Option.some.injEq] at hb
    rw [← hb]
    simp [push, hne.symm]
  · intro ps cat hcat hmem'
    rw [categorizeProcesses_some toLowerCase llm ps cat hcat Category.streaming] at hmem'
    simp only [List.mem_filter, hpl, decide_eq_true_eq, Option.some.injEq] at hmem'
    exact hne hmem'.2

/-- C30 (witness): the process `parsecd.exe` is placed in `networking`. -/
theorem C30_parsec_never_streaming_witness :
    keywordCategory asciiLower parsecProcess = some Category.networking ∧
      ∃ c, keywordCategory asciiLower parsecProcess = some c ∧ c ≠ Category.streaming :=
  ⟨by decide,
    (C30_parsec_never_streaming asciiLower none parsecProcess
      (Or.inl ((includes_iff _ _).mp (by decide)))).1⟩

end ProcessAnalyzer
